import Mathlib

/-!
# Shallow-water equations in 2D, MPI version: `swe_2d_mpi.c`

A shallow embedding of the program.  `float` arrays are functions from the flat
index to a rational (exact arithmetic), C `for` loops are folds over the index
range that apply the loop body as a state transformer, and the twelve state,
next-state and flux arrays of `main` form one record that the loops thread.
-/

namespace SWE

/-! ## Data model -/

/-- The macro `#define ID_2D(i,j,nx) ((i)*(nx+2)+(j))`. -/
def ID_2D (i j nx : Nat) : Nat := i * (nx + 2) + j

/-- A `float` array addressed by its flat index; values are exact rationals. -/
abbrev Field := Nat → ℚ

/-- The arrays `main` allocates: the coordinate arrays `x`, `y`, and for each of
the three quantities the state, the next-state buffer and the two fluxes. -/
structure Arrays where
  x : Field
  y : Field
  h : Field
  hm : Field
  fh : Field
  gh : Field
  uh : Field
  uhm : Field
  fuh : Field
  guh : Field
  vh : Field
  vhm : Field
  fvh : Field
  gvh : Field

/-- The loop `for (i = lo; i < hi; i++) body`, threading the program state. -/
def forLoop {σ : Type} (lo hi : Nat) (body : Nat → σ → σ) (s : σ) : σ :=
  (List.range' lo (hi - lo)).foldl (fun acc i => body i acc) s

/-- The gravitational constant `float g = 9.81`. -/
def g : ℚ := 981 / 100

/-! ## One pass of the time loop (lines 196-304) -/

/-- Body of the flux loop (lines 202-209) at flat index `id`. -/
def fluxCell (id : Nat) (a : Arrays) : Arrays :=
  { a with
    fh := Function.update a.fh id (a.uh id)
    fuh := Function.update a.fuh id (a.uh id * a.uh id / a.h id + 1 / 2 * g * a.h id * a.h id)
    fvh := Function.update a.fvh id (a.uh id * a.vh id / a.h id)
    gh := Function.update a.gh id (a.vh id)
    guh := Function.update a.guh id (a.uh id * a.vh id / a.h id)
    gvh := Function.update a.gvh id (a.vh id * a.vh id / a.h id + 1 / 2 * g * a.h id * a.h id) }

/-- The flux pass (lines 200-210): every cell of the grid, ghosts included. -/
def computeFluxes (nx ny : Nat) (a : Arrays) : Arrays :=
  forLoop 0 (ny + 2) (fun i => forLoop 0 (nx + 2) (fun j => fluxCell (ID_2D i j nx))) a

/-- Body of the update loop (lines 238-251) at cell `(i, j)`. -/
def computeCell (nx : Nat) (lambda_x lambda_y : ℚ) (i j : Nat) (a : Arrays) : Arrays :=
  let id := ID_2D i j nx
  let id_left := ID_2D i (j - 1) nx
  let id_right := ID_2D i (j + 1) nx
  let id_bottom := ID_2D (i - 1) j nx
  let id_top := ID_2D (i + 1) j nx
  { a with
    hm := Function.update a.hm id
      (1 / 4 * (a.h id_left + a.h id_right + a.h id_bottom + a.h id_top)
        - lambda_x * (a.fh id_right - a.fh id_left)
        - lambda_y * (a.gh id_top - a.gh id_bottom))
    uhm := Function.update a.uhm id
      (1 / 4 * (a.uh id_left + a.uh id_right + a.uh id_bottom + a.uh id_top)
        - lambda_x * (a.fuh id_right - a.fuh id_left)
        - lambda_y * (a.guh id_top - a.guh id_bottom))
    vhm := Function.update a.vhm id
      (1 / 4 * (a.vh id_left + a.vh id_right + a.vh id_bottom + a.vh id_top)
        - lambda_x * (a.fvh id_right - a.fvh id_left)
        - lambda_y * (a.gvh id_top - a.gvh id_bottom)) }

/-- The update pass (lines 235-252): interior cells, written to the buffers. -/
def computeVariables (nx ny : Nat) (lambda_x lambda_y : ℚ) (a : Arrays) : Arrays :=
  forLoop 1 (ny + 1) (fun i => forLoop 1 (nx + 1) (fun j => computeCell nx lambda_x lambda_y i j)) a

/-- Body of the copy-back loop (lines 258-261) at flat index `id`. -/
def updateCell (id : Nat) (a : Arrays) : Arrays :=
  { a with
    h := Function.update a.h id (a.hm id)
    uh := Function.update a.uh id (a.uhm id)
    vh := Function.update a.vh id (a.vhm id) }

/-- The copy-back pass (lines 256-262). -/
def updateVariables (nx ny : Nat) (a : Arrays) : Arrays :=
  forLoop 1 (ny + 1) (fun i => forLoop 1 (nx + 1) (fun j => updateCell (ID_2D i j nx))) a

/-- Body of the left and right boundary loops (lines 271-273, 281-283):
`h[dst] = h[id]; uh[dst] = - uh[id]; vh[dst] = vh[id]`. -/
def reflectX (dst id : Nat) (a : Arrays) : Arrays :=
  { a with
    h := Function.update a.h dst (a.h id)
    uh := Function.update a.uh dst (- a.uh id)
    vh := Function.update a.vh dst (a.vh id) }

/-- Body of the bottom and top boundary loops (lines 291-293, 301-303):
`h[dst] = h[id]; uh[dst] = uh[id]; vh[dst] = - vh[id]`. -/
def reflectY (dst id : Nat) (a : Arrays) : Arrays :=
  { a with
    h := Function.update a.h dst (a.h id)
    uh := Function.update a.uh dst (a.uh id)
    vh := Function.update a.vh dst (- a.vh id) }

/-- The left boundary loop (lines 267-274), `j = 1`. -/
def boundaryLeft (nx ny : Nat) (a : Arrays) : Arrays :=
  forLoop 1 (ny + 1) (fun i => reflectX (ID_2D i (1 - 1) nx) (ID_2D i 1 nx)) a

/-- The right boundary loop (lines 277-284), `j = nx`. -/
def boundaryRight (nx ny : Nat) (a : Arrays) : Arrays :=
  forLoop 1 (ny + 1) (fun i => reflectX (ID_2D i (nx + 1) nx) (ID_2D i nx nx)) a

/-- The bottom boundary loop (lines 287-294), `i = 1`. -/
def boundaryBottom (nx : Nat) (a : Arrays) : Arrays :=
  forLoop 1 (nx + 1) (fun j => reflectY (ID_2D (1 - 1) j nx) (ID_2D 1 j nx)) a

/-- The top boundary loop (lines 297-304), `i = ny`. -/
def boundaryTop (nx ny : Nat) (a : Arrays) : Arrays :=
  forLoop 1 (nx + 1) (fun j => reflectY (ID_2D (ny + 1) j nx) (ID_2D ny j nx)) a

/-- The boundary pass (lines 264-304): left, right, bottom, top, in this order
and on every tile alike (the passes carry no test on the rank). -/
def applyBoundary (nx ny : Nat) (a : Arrays) : Arrays :=
  boundaryTop nx ny (boundaryBottom nx (boundaryRight nx ny (boundaryLeft nx ny a)))

/-- The state before the boundary pass of one step: fluxes, update, copy-back.
The communication block between the flux pass and the update (lines 216-229)
names only the buffers `ghost_right` and `ghost_left`; no statement of it
assigns to or reads one of the arrays, so it does not appear here. -/
def interiorStep (nx ny : Nat) (lambda_x lambda_y : ℚ) (a : Arrays) : Arrays :=
  updateVariables nx ny (computeVariables nx ny lambda_x lambda_y (computeFluxes nx ny a))

/-- One pass of the body of the time loop on the arrays (lines 196-304). -/
def timeStep (nx ny : Nat) (lambda_x lambda_y : ℚ) (a : Arrays) : Arrays :=
  applyBoundary nx ny (interiorStep nx ny lambda_x lambda_y a)

/-! ## The scheme and the properties of a state, in closed form -/

/-- Second component of the x-flux `F`: `uh*uh/h + 0.5*g*h*h`. -/
def specFuh (a : Arrays) (k : Nat) : ℚ :=
  a.uh k * a.uh k / a.h k + 1 / 2 * g * a.h k * a.h k

/-- Third component of the x-flux `F`, also second component of `G`: `uh*vh/h`. -/
def specFvh (a : Arrays) (k : Nat) : ℚ :=
  a.uh k * a.vh k / a.h k

/-- Third component of the y-flux `G`: `vh*vh/h + 0.5*g*h*h`. -/
def specGvh (a : Arrays) (k : Nat) : ℚ :=
  a.vh k * a.vh k / a.h k + 1 / 2 * g * a.h k * a.h k

/-- The Lax-Friedrichs value at cell `(i, j)` for a quantity `w` with x-flux `F`
and y-flux `G`: the mean of the four neighbours minus the scaled flux
differences. -/
def laxFriedrichs (nx : Nat) (lambda_x lambda_y : ℚ) (w F G : Field) (i j : Nat) : ℚ :=
  1 / 4 * (w (ID_2D i (j - 1) nx) + w (ID_2D i (j + 1) nx)
      + w (ID_2D (i - 1) j nx) + w (ID_2D (i + 1) j nx))
    - lambda_x * (F (ID_2D i (j + 1) nx) - F (ID_2D i (j - 1) nx))
    - lambda_y * (G (ID_2D (i + 1) j nx) - G (ID_2D (i - 1) j nx))

/-- Sum of the height over the interior cells `1 ≤ i ≤ ny`, `1 ≤ j ≤ nx`. -/
def totalHeight (nx ny : Nat) (h : Field) : ℚ :=
  ∑ i in Finset.range ny, ∑ j in Finset.range nx, h (ID_2D (i + 1) (j + 1) nx)

/-- The reflective rule on the four edges of an `nx` by `ny` grid: every
non-corner ghost cell mirrors the adjacent interior cell, with the normal
momentum negated. -/
def Reflective (nx ny : Nat) (a : Arrays) : Prop :=
  (∀ i, 1 ≤ i → i ≤ ny →
    (a.h (ID_2D i 0 nx) = a.h (ID_2D i 1 nx) ∧ a.uh (ID_2D i 0 nx) = - a.uh (ID_2D i 1 nx) ∧
      a.vh (ID_2D i 0 nx) = a.vh (ID_2D i 1 nx)) ∧
    (a.h (ID_2D i (nx + 1) nx) = a.h (ID_2D i nx nx) ∧
      a.uh (ID_2D i (nx + 1) nx) = - a.uh (ID_2D i nx nx) ∧
      a.vh (ID_2D i (nx + 1) nx) = a.vh (ID_2D i nx nx))) ∧
  (∀ j, 1 ≤ j → j ≤ nx →
    (a.h (ID_2D 0 j nx) = a.h (ID_2D 1 j nx) ∧ a.uh (ID_2D 0 j nx) = a.uh (ID_2D 1 j nx) ∧
      a.vh (ID_2D 0 j nx) = - a.vh (ID_2D 1 j nx)) ∧
    (a.h (ID_2D (ny + 1) j nx) = a.h (ID_2D ny j nx) ∧
      a.uh (ID_2D (ny + 1) j nx) = a.uh (ID_2D ny j nx) ∧
      a.vh (ID_2D (ny + 1) j nx) = - a.vh (ID_2D ny j nx)))

/-- Cell `(i, j)` of the grid with its ghost border that is not one of the four
corner ghosts. -/
def NonCorner (nx ny i j : Nat) : Prop :=
  i ≤ ny + 1 ∧ j ≤ nx + 1 ∧ ((1 ≤ i ∧ i ≤ ny) ∨ (1 ≤ j ∧ j ≤ nx))

/-- Left-right mirror symmetry on the cells that are not corner ghosts: `h` and
`vh` are even, `uh` is odd under `j ↦ nx + 1 - j`. -/
def MirrorLR (nx ny : Nat) (a : Arrays) : Prop :=
  ∀ i j, NonCorner nx ny i j →
    a.h (ID_2D i (nx + 1 - j) nx) = a.h (ID_2D i j nx) ∧
    a.uh (ID_2D i (nx + 1 - j) nx) = - a.uh (ID_2D i j nx) ∧
    a.vh (ID_2D i (nx + 1 - j) nx) = a.vh (ID_2D i j nx)

/-- Bottom-top mirror symmetry on the cells that are not corner ghosts: `h` and
`uh` are even, `vh` is odd under `i ↦ ny + 1 - i`. -/
def MirrorBT (nx ny : Nat) (a : Arrays) : Prop :=
  ∀ i j, NonCorner nx ny i j →
    a.h (ID_2D (ny + 1 - i) j nx) = a.h (ID_2D i j nx) ∧
    a.uh (ID_2D (ny + 1 - i) j nx) = a.uh (ID_2D i j nx) ∧
    a.vh (ID_2D (ny + 1 - i) j nx) = - a.vh (ID_2D i j nx)

/-- The same two symmetries asked of every cell, the corner ghosts included. -/
def MirrorLRAll (nx ny : Nat) (a : Arrays) : Prop :=
  ∀ i j, i ≤ ny + 1 → j ≤ nx + 1 →
    a.h (ID_2D i (nx + 1 - j) nx) = a.h (ID_2D i j nx) ∧
    a.uh (ID_2D i (nx + 1 - j) nx) = - a.uh (ID_2D i j nx) ∧
    a.vh (ID_2D i (nx + 1 - j) nx) = a.vh (ID_2D i j nx)

/-- Bottom-top symmetry asked of every cell, the corner ghosts included. -/
def MirrorBTAll (nx ny : Nat) (a : Arrays) : Prop :=
  ∀ i j, i ≤ ny + 1 → j ≤ nx + 1 →
    a.h (ID_2D (ny + 1 - i) j nx) = a.h (ID_2D i j nx) ∧
    a.uh (ID_2D (ny + 1 - i) j nx) = a.uh (ID_2D i j nx) ∧
    a.vh (ID_2D (ny + 1 - i) j nx) = - a.vh (ID_2D i j nx)

/-- Coordinate of node `k` of a tile at process coordinate `c`, as the
initial conditions compute it: `-x_length/2 + c*(x_length/q) + d/2 + k*d`. -/
def nodeCoord (x_length d : ℚ) (c q k : Nat) : ℚ :=
  -x_length / 2 + (c : ℚ) * (x_length / (q : ℚ)) + d / 2 + (k : ℚ) * d

/-- The initial height at a point: `1.0 + 0.4*exp(-5*(xx*xx + yy*yy))`. -/
def bump (expf : ℚ → ℚ) (xx yy : ℚ) : ℚ := 1 + 2 / 5 * expf (-5 * (xx * xx + yy * yy))

/-- Arrays that hold the same value `c` in every cell of the height and zero
everywhere else. -/
def constArrays (c : ℚ) : Arrays :=
  { x := fun _ => 0, y := fun _ => 0, h := fun _ => c, hm := fun _ => 0, fh := fun _ => 0,
    gh := fun _ => 0, uh := fun _ => 0, uhm := fun _ => 0, fuh := fun _ => 0, guh := fun _ => 0,
    vh := fun _ => 0, vhm := fun _ => 0, fvh := fun _ => 0, gvh := fun _ => 0 }

/-! ## Initial conditions (lines 352-522) -/

/-- Body of the coordinate loop of `initial_conditions_rank` (lines 440-441). -/
def rankCoords (dx dy x_length : ℚ) (irank_x irank_y q : Nat) (i : Nat) (a : Arrays) : Arrays :=
  { a with
    x := Function.update a.x (i - 1)
      (-x_length / 2 + (irank_x : ℚ) * (x_length / (q : ℚ)) + dx / 2 + ((i - 1 : Nat) : ℚ) * dx)
    y := Function.update a.y (i - 1)
      (-x_length / 2 + (irank_y : ℚ) * (x_length / (q : ℚ)) + dy / 2 + ((i - 1 : Nat) : ℚ) * dy) }

/-- Body of the height loop (lines 447-450, and 364-367 of `initial_conditions`);
`expf` stands for the library function `exp`. -/
def heightCell (expf : ℚ → ℚ) (nx : Nat) (i j : Nat) (a : Arrays) : Arrays :=
  let xx := a.x (j - 1)
  let yy := a.y (i - 1)
  { a with h := Function.update a.h (ID_2D i j nx) (1 + 2 / 5 * expf (-5 * (xx * xx + yy * yy))) }

/-- Body of the momentum loop (lines 458-460): `uh[id] = 0.0; vh[id] = 0.0`. -/
def momentumCell (id : Nat) (a : Arrays) : Arrays :=
  { a with uh := Function.update a.uh id 0, vh := Function.update a.vh id 0 }

/-- Body of the four ghost loops of the initial conditions (lines 473-475):
`h[id] = h[id1]; uh[id] = 0.0; vh[id] = 0.0`. -/
def ghostCell (id id1 : Nat) (a : Arrays) : Arrays :=
  { a with
    h := Function.update a.h id (a.h id1)
    uh := Function.update a.uh id 0
    vh := Function.update a.vh id 0 }

/-- Lines 438-461 of `initial_conditions_rank`: the coordinates, then height
and momentum on the interior of the tile. -/
def rankInterior (expf : ℚ → ℚ) (nx_loc ny_loc : Nat) (dx dy x_length : ℚ)
    (a : Arrays) (irank_x irank_y q : Nat) : Arrays :=
  let a1 := forLoop 1 (nx_loc + 1) (rankCoords dx dy x_length irank_x irank_y q) a
  let a2 := forLoop 1 (nx_loc + 1)
    (fun i => forLoop 1 (ny_loc + 1) (fun j => heightCell expf nx_loc i j)) a1
  forLoop 1 (nx_loc + 1)
    (fun i => forLoop 1 (ny_loc + 1) (fun j => momentumCell (ID_2D i j nx_loc))) a2

/-- The block the source labels `left` (lines 466-477): under `irank_x == 0`
it writes row `i = 0` from row 1. -/
def rankLeft (nx_loc irank_x : Nat) (a : Arrays) : Arrays :=
  if irank_x = 0 then
    forLoop 1 (nx_loc + 1) (fun j => ghostCell (ID_2D 0 j nx_loc) (ID_2D (0 + 1) j nx_loc)) a
  else a

/-- The block the source labels `right` (lines 480-491): under
`irank_x == q-1` it writes row `i = nx_loc+1` from row `nx_loc`. -/
def rankRight (nx_loc irank_x q : Nat) (a : Arrays) : Arrays :=
  if irank_x = q - 1 then
    forLoop 1 (nx_loc + 1)
      (fun j => ghostCell (ID_2D (nx_loc + 1) j nx_loc) (ID_2D (nx_loc + 1 - 1) j nx_loc)) a
  else a

/-- The block the source labels `bottom` (lines 494-505): under
`irank_y == 0` it writes column `j = 0` from column 1. -/
def rankBottom (nx_loc ny_loc irank_y : Nat) (a : Arrays) : Arrays :=
  if irank_y = 0 then
    forLoop 1 (ny_loc + 1) (fun i => ghostCell (ID_2D i 0 nx_loc) (ID_2D i (0 + 1) nx_loc)) a
  else a

/-- The block the source labels `top` (lines 508-519): under
`irank_y == q-1` it writes column `j = nx_loc+1` from column `nx_loc`. -/
def rankTop (nx_loc ny_loc irank_y q : Nat) (a : Arrays) : Arrays :=
  if irank_y = q - 1 then
    forLoop 1 (ny_loc + 1)
      (fun i => ghostCell (ID_2D i (nx_loc + 1) nx_loc) (ID_2D i (nx_loc + 1 - 1) nx_loc)) a
  else a

/-- Lines 464-519: the four ghost blocks in program order. -/
def rankGhosts (nx_loc ny_loc irank_x irank_y q : Nat) (a : Arrays) : Arrays :=
  rankTop nx_loc ny_loc irank_y q (rankBottom nx_loc ny_loc irank_y
    (rankRight nx_loc irank_x q (rankLeft nx_loc irank_x a)))

/-- The function `initial_conditions_rank` (lines 431-522).  The process count is
positive, so `q ≥ 1` and `q - 1` is the natural-number difference. -/
def initial_conditions_rank (expf : ℚ → ℚ) (nx_loc ny_loc : Nat) (dx dy x_length : ℚ)
    (a : Arrays) (irank q : Nat) : Arrays :=
  let irank_x := irank % q
  let irank_y := irank / q
  rankGhosts nx_loc ny_loc irank_x irank_y q
    (rankInterior expf nx_loc ny_loc dx dy x_length a irank_x irank_y q)

/-- Body of the coordinate loop of `initial_conditions` (lines 357-358). -/
def globalCoords (dx dy x_length : ℚ) (i : Nat) (a : Arrays) : Arrays :=
  { a with
    x := Function.update a.x (i - 1) (-x_length / 2 + dx / 2 + ((i - 1 : Nat) : ℚ) * dx)
    y := Function.update a.y (i - 1) (-x_length / 2 + dy / 2 + ((i - 1 : Nat) : ℚ) * dy) }

/-- The function `initial_conditions` (lines 352-428), for the whole grid. -/
def initial_conditions (expf : ℚ → ℚ) (nx ny : Nat) (dx dy x_length : ℚ) (a : Arrays) : Arrays :=
  let a1 := forLoop 1 (nx + 1) (globalCoords dx dy x_length) a
  let a2 := forLoop 1 (nx + 1) (fun i => forLoop 1 (ny + 1) (fun j => heightCell expf nx i j)) a1
  let a3 := forLoop 1 (nx + 1)
    (fun i => forLoop 1 (ny + 1) (fun j => momentumCell (ID_2D i j nx))) a2
  let a4 := forLoop 1 (nx + 1) (fun j => ghostCell (ID_2D 0 j nx) (ID_2D (0 + 1) j nx)) a3
  let a5 := forLoop 1 (nx + 1)
    (fun j => ghostCell (ID_2D (nx + 1) j nx) (ID_2D (nx + 1 - 1) j nx)) a4
  let a6 := forLoop 1 (ny + 1) (fun i => ghostCell (ID_2D i 0 nx) (ID_2D i (0 + 1) nx)) a5
  forLoop 1 (ny + 1) (fun i => ghostCell (ID_2D i (nx + 1) nx) (ID_2D i (nx + 1 - 1) nx)) a6

/-! ## Start-up of `main` (lines 85-165) -/

/-- The value a 32-bit two's-complement `int` holds for the exact result `z`.
An overflow of `int` arithmetic, which the C standard leaves undefined, is taken
as the wrap-around the machine performs. -/
def wrapInt (z : Int) : Int := (z + 2 ^ 31) % 2 ^ 32 - 2 ^ 31

/-- Conversion of an `int` to the 64-bit unsigned `size_t`. -/
def toSizeT (z : Int) : Nat := (z % 2 ^ 64).toNat

/-- The argument `n * sizeof ( float )` of `malloc` for the `int` `n`: the
product is formed in `size_t`, with `sizeof ( float ) = 4`. -/
def floatBytes (n : Int) : Nat := toSizeT n * 4 % 2 ^ 64

/-- What start-up fixes for one process: the process grid, the grid sizes, the
`int` value of `(nx_loc+2)*(ny_loc+2)`, the number of bytes requested from
`malloc` for each of the twelve state, buffer and flux arrays (`bytes`) and for
each of `x` and `y` (`coord_bytes`), and the spacings (`none` when the float
division is by zero and gives no finite number). -/
structure Setup where
  q : Nat
  irank_x : Nat
  irank_y : Nat
  nx : Int
  ny : Int
  nx_loc : Int
  ny_loc : Int
  alloc : Int
  bytes : Nat
  coord_bytes : Nat
  dx : Option ℚ
  dy : Option ℚ

/-- How start-up can end: with a fatal configuration error; with the integer
division by `q = 0` of line 95 (only for `nproc = 0`, which `MPI_Comm_size`
never reports); or with every statement up to line 165 executed. -/
inductive StartupResult where
  | configError : StartupResult
  | divideByZero : StartupResult
  | ready : Setup → StartupResult

/-- Number of floats in each state, buffer and flux array (lines 145-158), for
sizes that are not negative and whose product fits an `int`. -/
def tileAlloc (nx_loc ny_loc : Nat) : Nat := (nx_loc + 2) * (ny_loc + 2)

/-- Start-up of `main` (lines 88-165) for process `irank` of `nproc`, with the
`int` resolution `nx` (the result of `atoi`, negative values included) and the
length `x_length` that `getArgs` returned.  `(int) sqrt` is the integer square
root, `/` on `int` truncates toward zero, and `(nx_loc+2)*(ny_loc+2)` is an
`int` product that wraps.  No statement in this part tests `q`, `nproc`, `nx` or
a result of `malloc`, or leaves the program: a request that `malloc` does not
satisfy shows only when the array is first used, after start-up. -/
def startup (irank nproc : Nat) (nx : Int) (x_length : ℚ) : StartupResult :=
  let q := Nat.sqrt nproc
  if q = 0 then StartupResult.divideByZero
  else
    let irank_x := irank % q
    let irank_y := irank / q
    let ny := nx
    let nx_loc := Int.tdiv nx (q : Int)
    let ny_loc := Int.tdiv ny (q : Int)
    let alloc := wrapInt (wrapInt (nx_loc + 2) * wrapInt (ny_loc + 2))
    let dx := if nx = 0 then none else some (x_length / (nx : ℚ))
    let dy := if nx = 0 then none else some (x_length / (nx : ℚ))
    StartupResult.ready
      { q := q, irank_x := irank_x, irank_y := irank_y, nx := nx, ny := ny,
        nx_loc := nx_loc, ny_loc := ny_loc, alloc := alloc, bytes := floatBytes alloc,
        coord_bytes := floatBytes nx_loc, dx := dx, dy := dy }

/-- The arrays of process `irank` when the time loop starts (lines 93-171);
`mem` holds what the freshly allocated arrays contain. -/
def mainInit (expf : ℚ → ℚ) (irank nproc nx : Nat) (x_length : ℚ) (mem : Arrays) : Arrays :=
  let q := Nat.sqrt nproc
  let ny := nx
  let nx_loc := nx / q
  let ny_loc := ny / q
  let dx := x_length / (nx : ℚ)
  let dy := x_length / (nx : ℚ)
  initial_conditions_rank expf nx_loc ny_loc dx dy x_length mem irank q

/-! ## Communication (lines 216-229) -/

/-- The two element datatypes the calls name. -/
inductive Datatype where
  | MPI_FLOAT : Datatype
  | MPI_DOUBLE : Datatype
deriving DecidableEq

/-- A posted point-to-point operation: element count, datatype, peer rank, tag. -/
inductive MpiCall where
  | send : Nat → Datatype → Int → Nat → MpiCall
  | recv : Nat → Datatype → Int → Nat → MpiCall
deriving DecidableEq

/-- The operations process `irank` posts in one step (lines 219-227);
`MPI_Sendrecv` posts a send and a receive.  `data_size` is
`nvariables*nx_loc`, where the source declares no `nvariables`. -/
def communicate (data_size irank nproc : Nat) : List MpiCall :=
  let q := Nat.sqrt nproc
  let irank_x := irank % q
  if 0 < irank_x ∧ (irank_x : Int) < (q : Int) - 1 then
    [MpiCall.send data_size Datatype.MPI_FLOAT ((irank : Int) + 1) 101,
     MpiCall.recv data_size Datatype.MPI_FLOAT ((irank : Int) - 1) 101]
  else if irank_x = 0 ∧ 1 < nproc then
    [MpiCall.send data_size Datatype.MPI_DOUBLE ((irank : Int) + 1) 101]
  else if (irank_x : Int) = (q : Int) - 1 ∧ 1 < nproc then
    [MpiCall.recv data_size Datatype.MPI_DOUBLE ((irank : Int) - 1) 101]
  else []

/-- Ranks a list of posted operations sends to. -/
def sendPeers : List MpiCall → List Int
  | [] => []
  | MpiCall.send _ _ p _ :: cs => p :: sendPeers cs
  | MpiCall.recv _ _ _ _ :: cs => sendPeers cs

/-- Ranks a list of posted operations receives from. -/
def recvPeers : List MpiCall → List Int
  | [] => []
  | MpiCall.send _ _ _ _ :: cs => recvPeers cs
  | MpiCall.recv _ _ p _ :: cs => p :: recvPeers cs

/-- The logical neighbours of rank `r` in a `q` by `q` process grid that exist:
`r-1`, `r+1`, `r-q`, `r+q`, each kept when it leaves both coordinates in `[0, q)`. -/
def logicalNeighbours (q r : Nat) : List Int :=
  (if 0 < r % q then [(r : Int) - 1] else []) ++
  (if r % q + 1 < q then [(r : Int) + 1] else []) ++
  (if 0 < r / q then [(r : Int) - q] else []) ++
  (if r / q + 1 < q then [(r : Int) + q] else [])

/-! ## The time loop (lines 183-194, 306) -/

/-- The variables the time loop carries: elapsed time, step counter, arrays. -/
structure LoopState where
  time : ℚ
  k : Nat
  a : Arrays

/-- The loop `while (time < t_final)` with its body; `fuel` bounds the
number of tests of the loop condition, and `none` means the bound was reached. -/
def timeLoop (nx ny : Nat) (dt t_final lambda_x lambda_y : ℚ) : Nat → LoopState → Option LoopState
  | 0, _ => none
  | fuel + 1, st =>
    if st.time < t_final then
      timeLoop nx ny dt t_final lambda_x lambda_y fuel
        { time := st.time + dt, k := st.k + 1, a := timeStep nx ny lambda_x lambda_y st.a }
    else some st

/-- The run of `main` for process `irank` up to the end of the time loop
(lines 93-306). -/
def mainLoop (fuel : Nat) (expf : ℚ → ℚ) (irank nproc nx : Nat) (dt x_length t_final : ℚ)
    (mem : Arrays) : Option LoopState :=
  let ny := nx
  let dx := x_length / (nx : ℚ)
  let dy := x_length / (nx : ℚ)
  let lambda_x := 1 / 2 * dt / dx
  let lambda_y := 1 / 2 * dt / dy
  timeLoop nx ny dt t_final lambda_x lambda_y fuel
    { time := 0, k := 0, a := mainInit expf irank nproc nx x_length mem }

/-- Flat indices of the flux pass (lines 200-210), in program order. -/
def fluxIndices (nx ny : Nat) : List Nat :=
  forLoop 0 (ny + 2) (fun i => forLoop 0 (nx + 2) (fun j acc => acc ++ [ID_2D i j nx])) []

/-! ## Gathering the result (lines 557-635) -/

/-- Position in the gathered buffer: `id_global = p*N_loc*N_loc + j*N_loc + i`. -/
def id_global (N_loc p j i : Nat) : Nat := p * N_loc * N_loc + j * N_loc + i

/-- Position in the output array (lines 595-600):
`id_write = irank_x*N_loc*N_loc*q + j*N_loc*q + irank_y*N_loc + i`
with `irank_x = p%q`, `irank_y = p/q`. -/
def id_write (q N_loc p j i : Nat) : Nat :=
  (p % q) * N_loc * N_loc * q + j * N_loc * q + (p / q) * N_loc + i

/-- The unpack loops of the collector (lines 590-605), from the gathered buffer
`u_global` into `u_write`. -/
def unpack (nproc N_loc : Nat) (u_global u_write : Field) : Field :=
  let q := Nat.sqrt nproc
  forLoop 0 nproc (fun p => forLoop 0 N_loc (fun j => forLoop 0 N_loc (fun i w =>
    Function.update w (id_write q N_loc p j i) (u_global (id_global N_loc p j i))))) u_write

/-! ## The process grid (lines 92-96, 435-436) -/

/-- The side of the process grid and the coordinates of process `irank`:
`q = (int) sqrt(nproc)`, `irank_x = irank%q`, `irank_y = irank/q`. -/
def processGrid (irank nproc : Nat) : Nat × Nat × Nat :=
  let q := Nat.sqrt nproc
  (q, irank % q, irank / q)

/-! ## Indices of one pass of the time loop (lines 200-304) -/

/-- Flat indices of the update pass (lines 235-252), in program order. -/
def updateIndices (nx ny : Nat) : List Nat :=
  forLoop 1 (ny + 1) (fun i => forLoop 1 (nx + 1) (fun j acc =>
    acc ++ [ID_2D i j nx, ID_2D i (j - 1) nx, ID_2D i (j + 1) nx,
      ID_2D (i - 1) j nx, ID_2D (i + 1) j nx])) []

/-- Flat indices of the copy-back pass (lines 256-262), in program order. -/
def copyBackIndices (nx ny : Nat) : List Nat :=
  forLoop 1 (ny + 1) (fun i => forLoop 1 (nx + 1) (fun j acc => acc ++ [ID_2D i j nx])) []

/-- Flat indices of the boundary pass (lines 267-304), in program order. -/
def boundaryIndices (nx ny : Nat) : List Nat :=
  forLoop 1 (ny + 1) (fun i acc => acc ++ [ID_2D i 1 nx, ID_2D i (1 - 1) nx]) [] ++
  forLoop 1 (ny + 1) (fun i acc => acc ++ [ID_2D i nx nx, ID_2D i (nx + 1) nx]) [] ++
  forLoop 1 (nx + 1) (fun j acc => acc ++ [ID_2D 1 j nx, ID_2D (1 - 1) j nx]) [] ++
  forLoop 1 (nx + 1) (fun j acc => acc ++ [ID_2D ny j nx, ID_2D (ny + 1) j nx]) []

/-- Every flat index one pass of the time loop reads or writes in the state,
next-state and flux arrays. -/
def stepIndices (nx ny : Nat) : List Nat :=
  fluxIndices nx ny ++ updateIndices nx ny ++ copyBackIndices nx ny ++ boundaryIndices nx ny

/-- The heights the flux pass divides by, in program order: `h[id]` at every
index the pass visits (lines 205-209). -/
def fluxDivisors (nx ny : Nat) (a : Arrays) : List ℚ :=
  (fluxIndices nx ny).map a.h

/-- The bound of the positivity property on the interior and non-corner ghost
cells: `h > 0`, `lambda_x*|uh| < 0.25*h` and `lambda_y*|vh| < 0.25*h`. -/
def CflBound (nx ny : Nat) (lambda_x lambda_y : ℚ) (a : Arrays) : Prop :=
  ∀ i j, NonCorner nx ny i j →
    0 < a.h (ID_2D i j nx) ∧
    lambda_x * |a.uh (ID_2D i j nx)| < 1 / 4 * a.h (ID_2D i j nx) ∧
    lambda_y * |a.vh (ID_2D i j nx)| < 1 / 4 * a.h (ID_2D i j nx)

/-- Two states hold the same `h`, `uh`, `vh` on every interior and non-corner
ghost cell. -/
def AgreeOffCorners (nx ny : Nat) (a b : Arrays) : Prop :=
  ∀ i j, NonCorner nx ny i j →
    a.h (ID_2D i j nx) = b.h (ID_2D i j nx) ∧
    a.uh (ID_2D i j nx) = b.uh (ID_2D i j nx) ∧
    a.vh (ID_2D i j nx) = b.vh (ID_2D i j nx)

/-- A state of the 2 by 2 grid (flat index `k = 4*i + j`) that obeys the
reflective rule: height 1 everywhere; `uh = c` on the two interior columns and
`-c` on the two ghost columns; `vh = c` on the two interior rows and `-c` on
the two ghost rows. -/
def wallState (c : ℚ) : Arrays :=
  { constArrays 1 with
    uh := fun k => if k % 4 = 0 ∨ k % 4 = 3 then -c else c
    vh := fun k => if k / 4 = 0 ∨ k / 4 = 3 then -c else c }

/-- Height 1 and no momentum, except `h = 0` at flat index 0 (the corner ghost
`(0, 0)` of every grid). -/
def dryCornerState : Arrays :=
  { constArrays 1 with h := fun k => if k = 0 then 0 else 1 }

/-! ## The height update in binary floating point -/

/-- Rounding to the nearest integer, a tie going to the even one. -/
def roundEven (y : ℚ) : Int :=
  if y - ⌊y⌋ < 1 / 2 then ⌊y⌋
  else if 1 / 2 < y - ⌊y⌋ then ⌊y⌋ + 1
  else if ⌊y⌋ % 2 = 0 then ⌊y⌋ else ⌊y⌋ + 1

/-- The number a binary floating-point format with `p` significand bits stores
for the exact value `x`: round to nearest, ties to even (the IEEE 754 default).
The unit of the last place is `2 ^ (floor(log2 |x|) - (p - 1))`; the exponent
range is not limited, so overflow and subnormal numbers are left out. -/
def roundBinary (p : Nat) (x : ℚ) : ℚ :=
  if x = 0 then 0
  else (roundEven (x / 2 ^ (Int.log 2 |x| - ((p : Int) - 1))) : ℚ)
    * 2 ^ (Int.log 2 |x| - ((p : Int) - 1))

/-- Rounding to `float` (binary32, 24 significand bits). -/
def toFloat (x : ℚ) : ℚ := roundBinary 24 x

/-- Rounding to `double` (binary64, 53 significand bits). -/
def toDouble (x : ℚ) : ℚ := roundBinary 53 x

/-- The value the statement of lines 243-245 stores in `hm[id]` at cell
`(i, j)` when every operation is rounded to its C type: the sums and differences
of `float` operands and the products with the `float` `lambda_x`, `lambda_y`
are `float` operations; `0.25` is a `double` constant, so the product with it
and the two subtractions from it are `double` operations; the assignment to the
`float` array rounds once more. -/
def hmFloat (nx : Nat) (lambda_x lambda_y : ℚ) (i j : Nat) (a : Arrays) : ℚ :=
  let id_left := ID_2D i (j - 1) nx
  let id_right := ID_2D i (j + 1) nx
  let id_bottom := ID_2D (i - 1) j nx
  let id_top := ID_2D (i + 1) j nx
  toFloat (toDouble (toDouble
      (toDouble (1 / 4
          * toFloat (toFloat (toFloat (a.h id_left + a.h id_right) + a.h id_bottom) + a.h id_top))
        - toFloat (lambda_x * toFloat (a.fh id_right - a.fh id_left)))
      - toFloat (lambda_y * toFloat (a.gh id_top - a.gh id_bottom))))

/-! ## Writing the result (lines 557-635) -/

/-- Body of the pack loops (lines 575-577): `u_local[id_loc] = u[id]; id_loc++`. -/
def packCell (N_loc : Nat) (u : Field) (i j : Nat) (st : Field × Nat) : Field × Nat :=
  (Function.update st.1 st.2 (u (ID_2D i j N_loc)), st.2 + 1)

/-- The pack loops (lines 572-579): the buffer `u_local` and the counter
`id_loc` after them. -/
def pack (N_loc : Nat) (u u_local : Field) : Field × Nat :=
  forLoop 1 (N_loc + 1) (fun j => forLoop 1 (N_loc + 1) (fun i => packCell N_loc u i j))
    (u_local, 0)

/-- The receive buffer of the root after `MPI_Gather` with `count` elements per
process: block `p` holds the send buffer of process `p`. -/
def mpiGather (nproc count : Nat) (send : Nat → Field) (recv : Field) : Field :=
  fun k => if k < nproc * count then send (k / count) (k % count) else recv k

/-- One line of the output file: `x  y  h  0.0  0.0`. -/
structure OutputLine where
  x : ℚ
  y : ℚ
  h : ℚ
  uh : ℚ
  vh : ℚ

/-- The loops that write the data (lines 618-625): the lines in file order. -/
def writeLines (N : Nat) (dx : ℚ) (u_write : Field) : List OutputLine :=
  forLoop 0 N (fun i => forLoop 0 N (fun j out =>
    out ++ [{ x := (i : ℚ) * dx, y := (j : ℚ) * dx, h := u_write (j * N + i),
              uh := 0, vh := 0 }])) []

/-- The function `write_results_mpi` as the collector (rank 0) runs it: `u p`
is the array process `p` passes, `u_local p`, `u_global`, `u_write` are the
contents of the freshly allocated buffers. -/
def write_results_mpi (N N_loc : Nat) (dx : ℚ) (u : Nat → Field) (nproc : Nat)
    (u_local : Nat → Field) (u_global u_write : Field) : List OutputLine :=
  let id_loc := (pack N_loc (u 0) (u_local 0)).2
  let gathered := mpiGather nproc id_loc (fun p => (pack N_loc (u p) (u_local p)).1) u_global
  writeLines N dx (unpack nproc N_loc gathered u_write)

/-! ## Loop reasoning -/

theorem forLoop_succ {σ : Type} (lo hi : Nat) (body : Nat → σ → σ) (s : σ) (hle : lo ≤ hi) :
    forLoop lo (hi + 1) body s = body hi (forLoop lo hi body s) := by
  unfold forLoop
  have e : hi + 1 - lo = (hi - lo) + 1 := by omega
  rw [e, List.range'_concat, List.foldl_append]
  have e2 : lo + 1 * (hi - lo) = hi := by omega
  rw [e2]
  rfl

theorem forLoop_self {σ : Type} (lo : Nat) (body : Nat → σ → σ) (s : σ) :
    forLoop lo lo body s = s := by
  simp [forLoop]

/-- Invariant rule for a `for` loop. -/
theorem forLoop_induct {σ : Type} (P : Nat → σ → Prop) (lo hi : Nat) (body : Nat → σ → σ)
    (s : σ) (hle : lo ≤ hi) (h0 : P lo s)
    (hs : ∀ i t, lo ≤ i → i < hi → P i t → P (i + 1) (body i t)) :
    P hi (forLoop lo hi body s) := by
  induction hi, hle using Nat.le_induction with
  | base => rw [forLoop_self]; exact h0
  | succ n hn ih =>
    rw [forLoop_succ lo n body s hn]
    exact hs n _ hn (Nat.lt_succ_self n)
      (ih (fun i t h1 h2 h3 => hs i t h1 (Nat.lt_succ_of_lt h2) h3))

/-- Invariant rule for two nested `for` loops whose body works cell by cell:
`I` is kept by every body, `G i j` is set up by the body at `(i, j)` and kept by
the body at any other cell. -/
theorem nest_induct {σ : Type} (I : σ → Prop) (G : Nat → Nat → σ → Prop)
    (body : Nat → Nat → σ → σ) (ilo ihi jlo jhi : Nat) (s : σ)
    (hi : ilo ≤ ihi) (hj : jlo ≤ jhi)
    (hI : ∀ i j t, ilo ≤ i → i < ihi → jlo ≤ j → j < jhi → I t → I (body i j t))
    (hG : ∀ i j t, ilo ≤ i → i < ihi → jlo ≤ j → j < jhi → I t → G i j (body i j t))
    (hP : ∀ i j i2 j2 t, ilo ≤ i → i < ihi → jlo ≤ j → j < jhi →
      ilo ≤ i2 → i2 < ihi → jlo ≤ j2 → j2 < jhi → (i ≠ i2 ∨ j ≠ j2) →
      I t → G i j t → G i j (body i2 j2 t))
    (h0 : I s) :
    I (forLoop ilo ihi (fun i => forLoop jlo jhi (fun j => body i j)) s) ∧
    ∀ i j, ilo ≤ i → i < ihi → jlo ≤ j → j < jhi →
      G i j (forLoop ilo ihi (fun i => forLoop jlo jhi (fun j => body i j)) s) := by
  refine forLoop_induct
    (fun n t => I t ∧ ∀ i j, ilo ≤ i → i < n → jlo ≤ j → j < jhi → G i j t)
    ilo ihi _ s hi ⟨h0, fun i j h1 h2 => absurd h2 (by omega)⟩ ?_
  intro i t hi1 hi2 ⟨hIt, hGt⟩
  have key := forLoop_induct
    (fun m u => I u ∧ (∀ a b, ilo ≤ a → a < i → jlo ≤ b → b < jhi → G a b u) ∧
      ∀ b, jlo ≤ b → b < m → G i b u)
    jlo jhi (fun j => body i j) t hj
    ⟨hIt, hGt, fun b h1 h2 => absurd h2 (by omega)⟩ ?_
  · obtain ⟨k1, k2, k3⟩ := key
    refine ⟨k1, fun a b ha1 ha2 hb1 hb2 => ?_⟩
    rcases Nat.lt_succ_iff_lt_or_eq.mp ha2 with hlt | heq
    · exact k2 a b ha1 hlt hb1 hb2
    · subst heq; exact k3 b hb1 hb2
  · intro j u hj1 hj2 ⟨hIu, hA, hB⟩
    refine ⟨hI i j u hi1 hi2 hj1 hj2 hIu, fun a b ha1 ha2 hb1 hb2 => ?_, fun b hb1 hb2 => ?_⟩
    · exact hP a b i j u ha1 (by omega) hb1 hb2 hi1 hi2 hj1 hj2 (Or.inl (by omega)) hIu
        (hA a b ha1 ha2 hb1 hb2)
    · rcases Nat.lt_succ_iff_lt_or_eq.mp hb2 with hlt | heq
      · exact hP i b i j u hi1 hi2 hb1 (by omega) hi1 hi2 hj1 hj2 (Or.inr (by omega)) hIu
          (hB b hb1 hlt)
      · subst heq; exact hG i b u hi1 hi2 hj1 hj2 hIu

/-! ## Index arithmetic -/

theorem ID_2D_inj {i j i2 j2 nx : Nat} (hj : j < nx + 2) (hj2 : j2 < nx + 2)
    (h : ID_2D i j nx = ID_2D i2 j2 nx) : i = i2 ∧ j = j2 := by
  unfold ID_2D at h
  have hpos : 0 < nx + 2 := by omega
  have e1 : (i * (nx + 2) + j) / (nx + 2) = i := by
    rw [Nat.add_comm, Nat.add_mul_div_right _ _ hpos, Nat.div_eq_of_lt hj, Nat.zero_add]
  have e2 : (i2 * (nx + 2) + j2) / (nx + 2) = i2 := by
    rw [Nat.add_comm, Nat.add_mul_div_right _ _ hpos, Nat.div_eq_of_lt hj2, Nat.zero_add]
  have hi : i = i2 := by rw [← e1, ← e2, h]
  subst hi
  exact ⟨rfl, by omega⟩

theorem ID_2D_ne {i j i2 j2 nx : Nat} (hj : j < nx + 2) (hj2 : j2 < nx + 2)
    (h : i ≠ i2 ∨ j ≠ j2) : ID_2D i j nx ≠ ID_2D i2 j2 nx := by
  intro e
  have := ID_2D_inj hj hj2 e
  omega


/-- Characterisation of a loop that writes one cell per pass in `h`, `uh`, `vh`,
each from a source cell that the loop never writes. -/
theorem copyLoop_spec (body : Nat → Arrays → Arrays) (fu fv : ℚ → ℚ) (dst src : Nat → Nat)
    (lo hi : Nat) (hle : lo ≤ hi) (s : Arrays)
    (hbody : ∀ i a, (body i a).h = Function.update a.h (dst i) (a.h (src i)) ∧
      (body i a).uh = Function.update a.uh (dst i) (fu (a.uh (src i))) ∧
      (body i a).vh = Function.update a.vh (dst i) (fv (a.vh (src i))))
    (hinj : ∀ i i2, lo ≤ i → i < hi → lo ≤ i2 → i2 < hi → i ≠ i2 → dst i ≠ dst i2)
    (hsrc : ∀ i i2, lo ≤ i → i < hi → lo ≤ i2 → i2 < hi → src i ≠ dst i2) :
    (∀ k, (∀ i, lo ≤ i → i < hi → k ≠ dst i) →
      (forLoop lo hi body s).h k = s.h k ∧ (forLoop lo hi body s).uh k = s.uh k ∧
      (forLoop lo hi body s).vh k = s.vh k) ∧
    (∀ i, lo ≤ i → i < hi →
      (forLoop lo hi body s).h (dst i) = s.h (src i) ∧
      (forLoop lo hi body s).uh (dst i) = fu (s.uh (src i)) ∧
      (forLoop lo hi body s).vh (dst i) = fv (s.vh (src i))) := by
  have key := forLoop_induct
    (fun n t => (∀ k, (∀ i, lo ≤ i → i < n → k ≠ dst i) →
        t.h k = s.h k ∧ t.uh k = s.uh k ∧ t.vh k = s.vh k) ∧
      (∀ i, lo ≤ i → i < n → t.h (dst i) = s.h (src i) ∧
        t.uh (dst i) = fu (s.uh (src i)) ∧ t.vh (dst i) = fv (s.vh (src i))))
    lo hi body s hle ⟨fun k _ => ⟨rfl, rfl, rfl⟩, fun i h1 h2 => absurd h2 (by omega)⟩ ?_
  · exact key
  · intro n t hn1 hn2 ⟨hfr, hwr⟩
    obtain ⟨e1, e2, e3⟩ := hbody n t
    have hs := hfr (src n) (fun i h1 h2 => hsrc n i hn1 hn2 h1 (by omega))
    refine ⟨fun k hk => ?_, fun i h1 h2 => ?_⟩
    · have hne : k ≠ dst n := hk n hn1 (Nat.lt_succ_self n)
      have := hfr k (fun i h1 h2 => hk i h1 (Nat.lt_succ_of_lt h2))
      rw [e1, e2, e3]
      simpa [Function.update_noteq hne] using this
    · rw [e1, e2, e3]
      rcases Nat.lt_succ_iff_lt_or_eq.mp h2 with hlt | heq
      · have hne : dst i ≠ dst n := hinj i n h1 (by omega) hn1 hn2 (by omega)
        simpa [Function.update_noteq hne] using hwr i h1 hlt
      · subst heq
        simp [hs.1, hs.2.1, hs.2.2]

/-- The flux pass leaves the state alone and fills the six flux arrays on every
cell of the grid, ghosts included. -/
theorem computeFluxes_spec (nx ny : Nat) (s : Arrays) :
    ((computeFluxes nx ny s).h = s.h ∧ (computeFluxes nx ny s).uh = s.uh ∧
      (computeFluxes nx ny s).vh = s.vh) ∧
    ∀ i j, i < ny + 2 → j < nx + 2 →
      (computeFluxes nx ny s).fh (ID_2D i j nx) = s.uh (ID_2D i j nx) ∧
      (computeFluxes nx ny s).fuh (ID_2D i j nx) = specFuh s (ID_2D i j nx) ∧
      (computeFluxes nx ny s).fvh (ID_2D i j nx) = specFvh s (ID_2D i j nx) ∧
      (computeFluxes nx ny s).gh (ID_2D i j nx) = s.vh (ID_2D i j nx) ∧
      (computeFluxes nx ny s).guh (ID_2D i j nx) = specFvh s (ID_2D i j nx) ∧
      (computeFluxes nx ny s).gvh (ID_2D i j nx) = specGvh s (ID_2D i j nx) := by
  have key := nest_induct
    (fun t : Arrays => t.h = s.h ∧ t.uh = s.uh ∧ t.vh = s.vh)
    (fun i j t =>
      t.fh (ID_2D i j nx) = s.uh (ID_2D i j nx) ∧
      t.fuh (ID_2D i j nx) = specFuh s (ID_2D i j nx) ∧
      t.fvh (ID_2D i j nx) = specFvh s (ID_2D i j nx) ∧
      t.gh (ID_2D i j nx) = s.vh (ID_2D i j nx) ∧
      t.guh (ID_2D i j nx) = specFvh s (ID_2D i j nx) ∧
      t.gvh (ID_2D i j nx) = specGvh s (ID_2D i j nx))
    (fun i j => fluxCell (ID_2D i j nx)) 0 (ny + 2) 0 (nx + 2) s (Nat.zero_le _) (Nat.zero_le _)
    ?_ ?_ ?_ ⟨rfl, rfl, rfl⟩
  · exact ⟨key.1, fun i j h1 h2 => key.2 i j (Nat.zero_le _) h1 (Nat.zero_le _) h2⟩
  · intro i j t _ _ _ _ hI
    exact hI
  · intro i j t _ _ _ _ ⟨e1, e2, e3⟩
    simp [fluxCell, specFuh, specFvh, specGvh, e1, e2, e3]
  · intro i j i2 j2 t _ _ _ _ _ _ _ _ hne ⟨e1, e2, e3⟩ ⟨g1, g2, g3, g4, g5, g6⟩
    have hk : ID_2D i j nx ≠ ID_2D i2 j2 nx := ID_2D_ne (by omega) (by omega) hne
    simp [fluxCell, Function.update_noteq hk, g1, g2, g3, g4, g5, g6]

/-- The update pass leaves state and fluxes alone and writes the scheme's value
into the buffers at every interior cell. -/
theorem computeVariables_spec (nx ny : Nat) (lx ly : ℚ) (s : Arrays) :
    ((computeVariables nx ny lx ly s).h = s.h ∧ (computeVariables nx ny lx ly s).uh = s.uh ∧
      (computeVariables nx ny lx ly s).vh = s.vh) ∧
    ∀ i j, 1 ≤ i → i ≤ ny → 1 ≤ j → j ≤ nx →
      (computeVariables nx ny lx ly s).hm (ID_2D i j nx) = laxFriedrichs nx lx ly s.h s.fh s.gh i j ∧
      (computeVariables nx ny lx ly s).uhm (ID_2D i j nx)
        = laxFriedrichs nx lx ly s.uh s.fuh s.guh i j ∧
      (computeVariables nx ny lx ly s).vhm (ID_2D i j nx)
        = laxFriedrichs nx lx ly s.vh s.fvh s.gvh i j := by
  have key := nest_induct
    (fun t : Arrays => t.h = s.h ∧ t.uh = s.uh ∧ t.vh = s.vh ∧ t.fh = s.fh ∧ t.fuh = s.fuh ∧
      t.fvh = s.fvh ∧ t.gh = s.gh ∧ t.guh = s.guh ∧ t.gvh = s.gvh)
    (fun i j t =>
      t.hm (ID_2D i j nx) = laxFriedrichs nx lx ly s.h s.fh s.gh i j ∧
      t.uhm (ID_2D i j nx) = laxFriedrichs nx lx ly s.uh s.fuh s.guh i j ∧
      t.vhm (ID_2D i j nx) = laxFriedrichs nx lx ly s.vh s.fvh s.gvh i j)
    (fun i j => computeCell nx lx ly i j) 1 (ny + 1) 1 (nx + 1) s (by omega) (by omega)
    ?_ ?_ ?_ ⟨rfl, rfl, rfl, rfl, rfl, rfl, rfl, rfl, rfl⟩
  · exact ⟨⟨key.1.1, key.1.2.1, key.1.2.2.1⟩,
      fun i j h1 h2 h3 h4 => key.2 i j h1 (by omega) h3 (by omega)⟩
  · intro i j t _ _ _ _ hI
    exact hI
  · intro i j t _ _ _ _ ⟨e1, e2, e3, e4, e5, e6, e7, e8, e9⟩
    simp [computeCell, laxFriedrichs, e1, e2, e3, e4, e5, e6, e7, e8, e9]
  · intro i j i2 j2 t _ _ _ _ _ _ _ _ hne _ ⟨g1, g2, g3⟩
    have hk : ID_2D i j nx ≠ ID_2D i2 j2 nx := ID_2D_ne (by omega) (by omega) hne
    simp [computeCell, Function.update_noteq hk, g1, g2, g3]

/-- The copy-back pass moves the buffers into the state at every interior cell
and leaves every other cell of the state as it was. -/
theorem updateVariables_spec (nx ny : Nat) (s : Arrays) :
    (∀ k, (∀ i j, 1 ≤ i → i ≤ ny → 1 ≤ j → j ≤ nx → k ≠ ID_2D i j nx) →
      (updateVariables nx ny s).h k = s.h k ∧ (updateVariables nx ny s).uh k = s.uh k ∧
      (updateVariables nx ny s).vh k = s.vh k) ∧
    ∀ i j, 1 ≤ i → i ≤ ny → 1 ≤ j → j ≤ nx →
      (updateVariables nx ny s).h (ID_2D i j nx) = s.hm (ID_2D i j nx) ∧
      (updateVariables nx ny s).uh (ID_2D i j nx) = s.uhm (ID_2D i j nx) ∧
      (updateVariables nx ny s).vh (ID_2D i j nx) = s.vhm (ID_2D i j nx) := by
  have key := nest_induct
    (fun t : Arrays => (t.hm = s.hm ∧ t.uhm = s.uhm ∧ t.vhm = s.vhm) ∧
      ∀ k, (∀ i j, 1 ≤ i → i ≤ ny → 1 ≤ j → j ≤ nx → k ≠ ID_2D i j nx) →
        t.h k = s.h k ∧ t.uh k = s.uh k ∧ t.vh k = s.vh k)
    (fun i j t =>
      t.h (ID_2D i j nx) = s.hm (ID_2D i j nx) ∧
      t.uh (ID_2D i j nx) = s.uhm (ID_2D i j nx) ∧
      t.vh (ID_2D i j nx) = s.vhm (ID_2D i j nx))
    (fun i j => updateCell (ID_2D i j nx)) 1 (ny + 1) 1 (nx + 1) s (by omega) (by omega)
    ?_ ?_ ?_ ⟨⟨rfl, rfl, rfl⟩, fun k _ => ⟨rfl, rfl, rfl⟩⟩
  · exact ⟨key.1.2, fun i j h1 h2 h3 h4 => key.2 i j h1 (by omega) h3 (by omega)⟩
  · intro i j t h1 h2 h3 h4 ⟨hI, hfr⟩
    refine ⟨hI, fun k hk => ?_⟩
    have hne : k ≠ ID_2D i j nx := hk i j h1 (by omega) h3 (by omega)
    simpa [updateCell, Function.update_noteq hne] using hfr k hk
  · intro i j t _ _ _ _ ⟨⟨e1, e2, e3⟩, _⟩
    simp [updateCell, e1, e2, e3]
  · intro i j i2 j2 t _ _ _ _ _ _ _ _ hne _ ⟨g1, g2, g3⟩
    have hk : ID_2D i j nx ≠ ID_2D i2 j2 nx := ID_2D_ne (by omega) (by omega) hne
    simp [updateCell, Function.update_noteq hk, g1, g2, g3]

/-- The value one step leaves at an interior cell before the boundary pass is the
Lax-Friedrichs value of the pre-step state; cells outside the interior keep
their pre-step state. -/
theorem interiorStep_spec (nx ny : Nat) (lx ly : ℚ) (s : Arrays) :
    (∀ k, (∀ i j, 1 ≤ i → i ≤ ny → 1 ≤ j → j ≤ nx → k ≠ ID_2D i j nx) →
      (interiorStep nx ny lx ly s).h k = s.h k ∧ (interiorStep nx ny lx ly s).uh k = s.uh k ∧
      (interiorStep nx ny lx ly s).vh k = s.vh k) ∧
    ∀ i j, 1 ≤ i → i ≤ ny → 1 ≤ j → j ≤ nx →
      (interiorStep nx ny lx ly s).h (ID_2D i j nx) = laxFriedrichs nx lx ly s.h s.uh s.vh i j ∧
      (interiorStep nx ny lx ly s).uh (ID_2D i j nx)
        = laxFriedrichs nx lx ly s.uh (specFuh s) (specFvh s) i j ∧
      (interiorStep nx ny lx ly s).vh (ID_2D i j nx)
        = laxFriedrichs nx lx ly s.vh (specFvh s) (specGvh s) i j := by
  obtain ⟨⟨f1, f2, f3⟩, fl⟩ := computeFluxes_spec nx ny s
  obtain ⟨⟨c1, c2, c3⟩, cv⟩ := computeVariables_spec nx ny lx ly (computeFluxes nx ny s)
  obtain ⟨ufr, uv⟩ := updateVariables_spec nx ny (computeVariables nx ny lx ly (computeFluxes nx ny s))
  refine ⟨fun k hk => ?_, fun i j h1 h2 h3 h4 => ?_⟩
  · have := ufr k hk
    simpa [interiorStep, c1, c2, c3, f1, f2, f3] using this
  · obtain ⟨u1, u2, u3⟩ := uv i j h1 h2 h3 h4
    obtain ⟨v1, v2, v3⟩ := cv i j h1 h2 h3 h4
    have FL := fl i (j - 1) (by omega) (by omega)
    have FR := fl i (j + 1) (by omega) (by omega)
    have FB := fl (i - 1) j (by omega) (by omega)
    have FT := fl (i + 1) j (by omega) (by omega)
    refine ⟨?_, ?_, ?_⟩
    · show (updateVariables nx ny _).h _ = _
      rw [u1, v1]
      simp only [laxFriedrichs, f1, FL.1, FR.1, FB.2.2.2.1, FT.2.2.2.1]
    · show (updateVariables nx ny _).uh _ = _
      rw [u2, v2]
      simp only [laxFriedrichs, f2, FL.2.1, FR.2.1, FB.2.2.2.2.1, FT.2.2.2.2.1]
    · show (updateVariables nx ny _).vh _ = _
      rw [u3, v3]
      simp only [laxFriedrichs, f3, FL.2.2.1, FR.2.2.1, FB.2.2.2.2.2, FT.2.2.2.2.2]

/-- The left boundary loop writes column 0 of rows `1..ny` from column 1. -/
theorem boundaryLeft_spec (nx ny : Nat) (t : Arrays) :
    (∀ k, (∀ i, 1 ≤ i → i ≤ ny → k ≠ ID_2D i 0 nx) →
      (boundaryLeft nx ny t).h k = t.h k ∧ (boundaryLeft nx ny t).uh k = t.uh k ∧
      (boundaryLeft nx ny t).vh k = t.vh k) ∧
    ∀ i, 1 ≤ i → i ≤ ny →
      (boundaryLeft nx ny t).h (ID_2D i 0 nx) = t.h (ID_2D i 1 nx) ∧
      (boundaryLeft nx ny t).uh (ID_2D i 0 nx) = - t.uh (ID_2D i 1 nx) ∧
      (boundaryLeft nx ny t).vh (ID_2D i 0 nx) = t.vh (ID_2D i 1 nx) := by
  obtain ⟨f, w⟩ := copyLoop_spec (fun i => reflectX (ID_2D i (1 - 1) nx) (ID_2D i 1 nx))
    (fun v => - v) (fun v => v) (fun i => ID_2D i 0 nx) (fun i => ID_2D i 1 nx)
    1 (ny + 1) (by omega) t (fun i a => ⟨rfl, rfl, rfl⟩)
    (fun i i2 _ _ _ _ hne => ID_2D_ne (by omega) (by omega) (Or.inl hne))
    (fun i i2 _ _ _ _ => ID_2D_ne (by omega) (by omega) (Or.inr (by omega)))
  exact ⟨fun k hk => f k (fun i h1 h2 => hk i h1 (by omega)), fun i h1 h2 => w i h1 (by omega)⟩

/-- The right boundary loop writes column `nx + 1` of rows `1..ny` from column `nx`. -/
theorem boundaryRight_spec (nx ny : Nat) (t : Arrays) :
    (∀ k, (∀ i, 1 ≤ i → i ≤ ny → k ≠ ID_2D i (nx + 1) nx) →
      (boundaryRight nx ny t).h k = t.h k ∧ (boundaryRight nx ny t).uh k = t.uh k ∧
      (boundaryRight nx ny t).vh k = t.vh k) ∧
    ∀ i, 1 ≤ i → i ≤ ny →
      (boundaryRight nx ny t).h (ID_2D i (nx + 1) nx) = t.h (ID_2D i nx nx) ∧
      (boundaryRight nx ny t).uh (ID_2D i (nx + 1) nx) = - t.uh (ID_2D i nx nx) ∧
      (boundaryRight nx ny t).vh (ID_2D i (nx + 1) nx) = t.vh (ID_2D i nx nx) := by
  obtain ⟨f, w⟩ := copyLoop_spec (fun i => reflectX (ID_2D i (nx + 1) nx) (ID_2D i nx nx))
    (fun v => - v) (fun v => v) (fun i => ID_2D i (nx + 1) nx) (fun i => ID_2D i nx nx)
    1 (ny + 1) (by omega) t (fun i a => ⟨rfl, rfl, rfl⟩)
    (fun i i2 _ _ _ _ hne => ID_2D_ne (by omega) (by omega) (Or.inl hne))
    (fun i i2 _ _ _ _ => ID_2D_ne (by omega) (by omega) (Or.inr (by omega)))
  exact ⟨fun k hk => f k (fun i h1 h2 => hk i h1 (by omega)), fun i h1 h2 => w i h1 (by omega)⟩

/-- The bottom boundary loop writes row 0 of columns `1..nx` from row 1. -/
theorem boundaryBottom_spec (nx : Nat) (t : Arrays) :
    (∀ k, (∀ j, 1 ≤ j → j ≤ nx → k ≠ ID_2D 0 j nx) →
      (boundaryBottom nx t).h k = t.h k ∧ (boundaryBottom nx t).uh k = t.uh k ∧
      (boundaryBottom nx t).vh k = t.vh k) ∧
    ∀ j, 1 ≤ j → j ≤ nx →
      (boundaryBottom nx t).h (ID_2D 0 j nx) = t.h (ID_2D 1 j nx) ∧
      (boundaryBottom nx t).uh (ID_2D 0 j nx) = t.uh (ID_2D 1 j nx) ∧
      (boundaryBottom nx t).vh (ID_2D 0 j nx) = - t.vh (ID_2D 1 j nx) := by
  obtain ⟨f, w⟩ := copyLoop_spec (fun j => reflectY (ID_2D (1 - 1) j nx) (ID_2D 1 j nx))
    (fun v => v) (fun v => - v) (fun j => ID_2D 0 j nx) (fun j => ID_2D 1 j nx)
    1 (nx + 1) (by omega) t (fun i a => ⟨rfl, rfl, rfl⟩)
    (fun j j2 _ _ _ _ hne => ID_2D_ne (by omega) (by omega) (Or.inr hne))
    (fun j j2 _ _ _ _ => ID_2D_ne (by omega) (by omega) (Or.inl (by omega)))
  exact ⟨fun k hk => f k (fun i h1 h2 => hk i h1 (by omega)), fun i h1 h2 => w i h1 (by omega)⟩

/-- The top boundary loop writes row `ny + 1` of columns `1..nx` from row `ny`. -/
theorem boundaryTop_spec (nx ny : Nat) (t : Arrays) :
    (∀ k, (∀ j, 1 ≤ j → j ≤ nx → k ≠ ID_2D (ny + 1) j nx) →
      (boundaryTop nx ny t).h k = t.h k ∧ (boundaryTop nx ny t).uh k = t.uh k ∧
      (boundaryTop nx ny t).vh k = t.vh k) ∧
    ∀ j, 1 ≤ j → j ≤ nx →
      (boundaryTop nx ny t).h (ID_2D (ny + 1) j nx) = t.h (ID_2D ny j nx) ∧
      (boundaryTop nx ny t).uh (ID_2D (ny + 1) j nx) = t.uh (ID_2D ny j nx) ∧
      (boundaryTop nx ny t).vh (ID_2D (ny + 1) j nx) = - t.vh (ID_2D ny j nx) := by
  obtain ⟨f, w⟩ := copyLoop_spec (fun j => reflectY (ID_2D (ny + 1) j nx) (ID_2D ny j nx))
    (fun v => v) (fun v => - v) (fun j => ID_2D (ny + 1) j nx) (fun j => ID_2D ny j nx)
    1 (nx + 1) (by omega) t (fun i a => ⟨rfl, rfl, rfl⟩)
    (fun j j2 _ _ _ _ hne => ID_2D_ne (by omega) (by omega) (Or.inr hne))
    (fun j j2 _ _ _ _ => ID_2D_ne (by omega) (by omega) (Or.inl (by omega)))
  exact ⟨fun k hk => f k (fun i h1 h2 => hk i h1 (by omega)), fun i h1 h2 => w i h1 (by omega)⟩

/-- What the boundary pass does on a grid with at least one interior row and
column: it writes the non-corner ghosts from the adjacent interior cells of
the state it starts from and leaves every other cell alone. -/
theorem applyBoundary_spec (nx ny : Nat) (hnx : 1 ≤ nx) (hny : 1 ≤ ny) (t : Arrays) :
    (∀ k, (∀ i, 1 ≤ i → i ≤ ny → k ≠ ID_2D i 0 nx ∧ k ≠ ID_2D i (nx + 1) nx) →
      (∀ j, 1 ≤ j → j ≤ nx → k ≠ ID_2D 0 j nx ∧ k ≠ ID_2D (ny + 1) j nx) →
      (applyBoundary nx ny t).h k = t.h k ∧ (applyBoundary nx ny t).uh k = t.uh k ∧
      (applyBoundary nx ny t).vh k = t.vh k) ∧
    (∀ i, 1 ≤ i → i ≤ ny →
      ((applyBoundary nx ny t).h (ID_2D i 0 nx) = t.h (ID_2D i 1 nx) ∧
        (applyBoundary nx ny t).uh (ID_2D i 0 nx) = - t.uh (ID_2D i 1 nx) ∧
        (applyBoundary nx ny t).vh (ID_2D i 0 nx) = t.vh (ID_2D i 1 nx)) ∧
      ((applyBoundary nx ny t).h (ID_2D i (nx + 1) nx) = t.h (ID_2D i nx nx) ∧
        (applyBoundary nx ny t).uh (ID_2D i (nx + 1) nx) = - t.uh (ID_2D i nx nx) ∧
        (applyBoundary nx ny t).vh (ID_2D i (nx + 1) nx) = t.vh (ID_2D i nx nx))) ∧
    (∀ j, 1 ≤ j → j ≤ nx →
      ((applyBoundary nx ny t).h (ID_2D 0 j nx) = t.h (ID_2D 1 j nx) ∧
        (applyBoundary nx ny t).uh (ID_2D 0 j nx) = t.uh (ID_2D 1 j nx) ∧
        (applyBoundary nx ny t).vh (ID_2D 0 j nx) = - t.vh (ID_2D 1 j nx)) ∧
      ((applyBoundary nx ny t).h (ID_2D (ny + 1) j nx) = t.h (ID_2D ny j nx) ∧
        (applyBoundary nx ny t).uh (ID_2D (ny + 1) j nx) = t.uh (ID_2D ny j nx) ∧
        (applyBoundary nx ny t).vh (ID_2D (ny + 1) j nx) = - t.vh (ID_2D ny j nx))) := by
  obtain ⟨Lf2, Lw⟩ := boundaryLeft_spec nx ny t
  obtain ⟨Rf2, Rw⟩ := boundaryRight_spec nx ny (boundaryLeft nx ny t)
  obtain ⟨Bf2, Bw⟩ := boundaryBottom_spec nx (boundaryRight nx ny (boundaryLeft nx ny t))
  obtain ⟨Tf, Tw⟩ := boundaryTop_spec nx ny
    (boundaryBottom nx (boundaryRight nx ny (boundaryLeft nx ny t)))
  have Tf2 : ∀ k, (∀ j, 1 ≤ j → j ≤ nx → k ≠ ID_2D (ny + 1) j nx) →
      (applyBoundary nx ny t).h k
        = (boundaryBottom nx (boundaryRight nx ny (boundaryLeft nx ny t))).h k ∧
      (applyBoundary nx ny t).uh k
        = (boundaryBottom nx (boundaryRight nx ny (boundaryLeft nx ny t))).uh k ∧
      (applyBoundary nx ny t).vh k
        = (boundaryBottom nx (boundaryRight nx ny (boundaryLeft nx ny t))).vh k := Tf
  have Tw2 : ∀ j, 1 ≤ j → j ≤ nx →
      (applyBoundary nx ny t).h (ID_2D (ny + 1) j nx)
        = (boundaryBottom nx (boundaryRight nx ny (boundaryLeft nx ny t))).h (ID_2D ny j nx) ∧
      (applyBoundary nx ny t).uh (ID_2D (ny + 1) j nx)
        = (boundaryBottom nx (boundaryRight nx ny (boundaryLeft nx ny t))).uh (ID_2D ny j nx) ∧
      (applyBoundary nx ny t).vh (ID_2D (ny + 1) j nx)
        = - (boundaryBottom nx (boundaryRight nx ny (boundaryLeft nx ny t))).vh (ID_2D ny j nx) :=
    Tw
  -- cells that a given loop does not write
  have nL : ∀ i j, 1 ≤ j → j ≤ nx + 1 → ∀ i2, 1 ≤ i2 → i2 ≤ ny →
      ID_2D i j nx ≠ ID_2D i2 0 nx :=
    fun i j h1 h2 i2 _ _ => ID_2D_ne (by omega) (by omega) (Or.inr (by omega))
  have nR : ∀ i j, j ≤ nx → ∀ i2, 1 ≤ i2 → i2 ≤ ny →
      ID_2D i j nx ≠ ID_2D i2 (nx + 1) nx :=
    fun i j h1 i2 _ _ => ID_2D_ne (by omega) (by omega) (Or.inr (by omega))
  have nB : ∀ i j, 1 ≤ i → j ≤ nx + 1 → ∀ j2, 1 ≤ j2 → j2 ≤ nx →
      ID_2D i j nx ≠ ID_2D 0 j2 nx :=
    fun i j h1 h2 j2 _ _ => ID_2D_ne (by omega) (by omega) (Or.inl (by omega))
  have nT : ∀ i j, i ≤ ny → j ≤ nx + 1 → ∀ j2, 1 ≤ j2 → j2 ≤ nx →
      ID_2D i j nx ≠ ID_2D (ny + 1) j2 nx :=
    fun i j h1 h2 j2 _ _ => ID_2D_ne (by omega) (by omega) (Or.inl (by omega))
  refine ⟨fun k hk1 hk2 => ?_, fun i h1 h2 => ⟨?_, ?_⟩, fun j h1 h2 => ⟨?_, ?_⟩⟩
  · have a1 := Lf2 k (fun i h1 h2 => (hk1 i h1 h2).1)
    have a2 := Rf2 k (fun i h1 h2 => (hk1 i h1 h2).2)
    have a3 := Bf2 k (fun j h1 h2 => (hk2 j h1 h2).1)
    have a4 := Tf2 k (fun j h1 h2 => (hk2 j h1 h2).2)
    exact ⟨by rw [a4.1, a3.1, a2.1, a1.1], by rw [a4.2.1, a3.2.1, a2.2.1, a1.2.1],
      by rw [a4.2.2, a3.2.2, a2.2.2, a1.2.2]⟩
  · -- left ghost
    have w := Lw i h1 h2
    have a2 := Rf2 (ID_2D i 0 nx) (nR i 0 (by omega))
    have a3 := Bf2 (ID_2D i 0 nx) (nB i 0 h1 (by omega))
    have a4 := Tf2 (ID_2D i 0 nx) (nT i 0 h2 (by omega))
    exact ⟨by rw [a4.1, a3.1, a2.1, w.1], by rw [a4.2.1, a3.2.1, a2.2.1, w.2.1],
      by rw [a4.2.2, a3.2.2, a2.2.2, w.2.2]⟩
  · -- right ghost
    have w := Rw i h1 h2
    have a1 := Lf2 (ID_2D i nx nx) (nL i nx hnx (by omega))
    have a3 := Bf2 (ID_2D i (nx + 1) nx) (nB i (nx + 1) h1 (by omega))
    have a4 := Tf2 (ID_2D i (nx + 1) nx) (nT i (nx + 1) h2 (by omega))
    exact ⟨by rw [a4.1, a3.1, w.1, a1.1], by rw [a4.2.1, a3.2.1, w.2.1, a1.2.1],
      by rw [a4.2.2, a3.2.2, w.2.2, a1.2.2]⟩
  · -- bottom ghost
    have w := Bw j h1 h2
    have a1 := Lf2 (ID_2D 1 j nx) (nL 1 j h1 (by omega))
    have a2 := Rf2 (ID_2D 1 j nx) (nR 1 j h2)
    have a4 := Tf2 (ID_2D 0 j nx) (nT 0 j (by omega) (by omega))
    exact ⟨by rw [a4.1, w.1, a2.1, a1.1], by rw [a4.2.1, w.2.1, a2.2.1, a1.2.1],
      by rw [a4.2.2, w.2.2, a2.2.2, a1.2.2]⟩
  · -- top ghost
    have w := Tw2 j h1 h2
    have a1 := Lf2 (ID_2D ny j nx) (nL ny j h1 (by omega))
    have a2 := Rf2 (ID_2D ny j nx) (nR ny j h2)
    have a3 := Bf2 (ID_2D ny j nx) (nB ny j hny (by omega))
    exact ⟨by rw [w.1, a3.1, a2.1, a1.1], by rw [w.2.1, a3.2.1, a2.2.1, a1.2.1],
      by rw [w.2.2, a3.2.2, a2.2.2, a1.2.2]⟩

/-- After one step on a grid with an interior, the interior holds the
Lax-Friedrichs values of the pre-step state. -/
theorem timeStep_interior (nx ny : Nat) (lx ly : ℚ) (s : Arrays) (i j : Nat)
    (hi1 : 1 ≤ i) (hi2 : i ≤ ny) (hj1 : 1 ≤ j) (hj2 : j ≤ nx) :
    (timeStep nx ny lx ly s).h (ID_2D i j nx) = laxFriedrichs nx lx ly s.h s.uh s.vh i j ∧
    (timeStep nx ny lx ly s).uh (ID_2D i j nx)
      = laxFriedrichs nx lx ly s.uh (specFuh s) (specFvh s) i j ∧
    (timeStep nx ny lx ly s).vh (ID_2D i j nx)
      = laxFriedrichs nx lx ly s.vh (specFvh s) (specGvh s) i j := by
  have hnx : 1 ≤ nx := by omega
  have hny : 1 ≤ ny := by omega
  obtain ⟨fr, _, _⟩ := applyBoundary_spec nx ny hnx hny (interiorStep nx ny lx ly s)
  have e := fr (ID_2D i j nx)
    (fun i2 _ _ => ⟨ID_2D_ne (by omega) (by omega) (Or.inr (by omega)),
      ID_2D_ne (by omega) (by omega) (Or.inr (by omega))⟩)
    (fun j2 _ _ => ⟨ID_2D_ne (by omega) (by omega) (Or.inl (by omega)),
      ID_2D_ne (by omega) (by omega) (Or.inl (by omega))⟩)
  have v := (interiorStep_spec nx ny lx ly s).2 i j hi1 hi2 hj1 hj2
  exact ⟨e.1.trans v.1, e.2.1.trans v.2.1, e.2.2.trans v.2.2⟩

/-- The boundary pass leaves the interior cells as they were. -/
theorem applyBoundary_interior (nx ny : Nat) (t : Arrays) (i j : Nat)
    (hi1 : 1 ≤ i) (hi2 : i ≤ ny) (hj1 : 1 ≤ j) (hj2 : j ≤ nx) :
    (applyBoundary nx ny t).h (ID_2D i j nx) = t.h (ID_2D i j nx) ∧
    (applyBoundary nx ny t).uh (ID_2D i j nx) = t.uh (ID_2D i j nx) ∧
    (applyBoundary nx ny t).vh (ID_2D i j nx) = t.vh (ID_2D i j nx) := by
  obtain ⟨fr, _, _⟩ := applyBoundary_spec nx ny (by omega) (by omega) t
  exact fr (ID_2D i j nx)
    (fun i2 _ _ => ⟨ID_2D_ne (by omega) (by omega) (Or.inr (by omega)),
      ID_2D_ne (by omega) (by omega) (Or.inr (by omega))⟩)
    (fun j2 _ _ => ⟨ID_2D_ne (by omega) (by omega) (Or.inl (by omega)),
      ID_2D_ne (by omega) (by omega) (Or.inl (by omega))⟩)

/-- After the boundary pass every non-corner ghost obeys the reflective rule. -/
theorem applyBoundary_reflective (nx ny : Nat) (hnx : 1 ≤ nx) (hny : 1 ≤ ny) (t : Arrays) :
    Reflective nx ny (applyBoundary nx ny t) := by
  obtain ⟨_, lr, bt⟩ := applyBoundary_spec nx ny hnx hny t
  refine ⟨fun i h1 h2 => ?_, fun j h1 h2 => ?_⟩
  · obtain ⟨l, r⟩ := lr i h1 h2
    have c1 := applyBoundary_interior nx ny t i 1 h1 h2 (le_refl 1) hnx
    have cn := applyBoundary_interior nx ny t i nx h1 h2 hnx (le_refl nx)
    exact ⟨⟨by rw [l.1, c1.1], by rw [l.2.1, c1.2.1], by rw [l.2.2, c1.2.2]⟩,
      ⟨by rw [r.1, cn.1], by rw [r.2.1, cn.2.1], by rw [r.2.2, cn.2.2]⟩⟩
  · obtain ⟨b, u⟩ := bt j h1 h2
    have c1 := applyBoundary_interior nx ny t 1 j (le_refl 1) hny h1 h2
    have cn := applyBoundary_interior nx ny t ny j hny (le_refl ny) h1 h2
    exact ⟨⟨by rw [b.1, c1.1], by rw [b.2.1, c1.2.1], by rw [b.2.2, c1.2.2]⟩,
      ⟨by rw [u.1, cn.1], by rw [u.2.1, cn.2.1], by rw [u.2.2, cn.2.2]⟩⟩

/-- One step ends with reflective ghosts. -/
theorem timeStep_reflective (nx ny : Nat) (hnx : 1 ≤ nx) (hny : 1 ≤ ny) (lx ly : ℚ)
    (s : Arrays) : Reflective nx ny (timeStep nx ny lx ly s) :=
  applyBoundary_reflective nx ny hnx hny _

/-- One step leaves the four corner ghosts as they were. -/
theorem timeStep_corner (nx ny : Nat) (hnx : 1 ≤ nx) (hny : 1 ≤ ny) (lx ly : ℚ) (s : Arrays)
    (i j : Nat) (hi : i = 0 ∨ i = ny + 1) (hj : j = 0 ∨ j = nx + 1) :
    (timeStep nx ny lx ly s).h (ID_2D i j nx) = s.h (ID_2D i j nx) ∧
    (timeStep nx ny lx ly s).uh (ID_2D i j nx) = s.uh (ID_2D i j nx) ∧
    (timeStep nx ny lx ly s).vh (ID_2D i j nx) = s.vh (ID_2D i j nx) := by
  obtain ⟨fr, _, _⟩ := applyBoundary_spec nx ny hnx hny (interiorStep nx ny lx ly s)
  have e := fr (ID_2D i j nx)
    (fun i2 _ _ => ⟨ID_2D_ne (by omega) (by omega) (Or.inl (by omega)),
      ID_2D_ne (by omega) (by omega) (Or.inl (by omega))⟩)
    (fun j2 _ _ => ⟨ID_2D_ne (by omega) (by omega) (Or.inr (by omega)),
      ID_2D_ne (by omega) (by omega) (Or.inr (by omega))⟩)
  have v := (interiorStep_spec nx ny lx ly s).1 (ID_2D i j nx)
    (fun i2 j2 _ _ _ _ => ID_2D_ne (by omega) (by omega) (Or.inl (by omega)))
  exact ⟨e.1.trans v.1, e.2.1.trans v.2.1, e.2.2.trans v.2.2⟩

/-- A state with reflective ghosts whose interior is left-right symmetric is
left-right symmetric on every non-corner cell. -/
theorem mirrorLR_of_interior (nx ny : Nat) (hnx : 1 ≤ nx) (hny : 1 ≤ ny) (r : Arrays)
    (hr : Reflective nx ny r)
    (hin : ∀ i j, 1 ≤ i → i ≤ ny → 1 ≤ j → j ≤ nx →
      r.h (ID_2D i (nx + 1 - j) nx) = r.h (ID_2D i j nx) ∧
      r.uh (ID_2D i (nx + 1 - j) nx) = - r.uh (ID_2D i j nx) ∧
      r.vh (ID_2D i (nx + 1 - j) nx) = r.vh (ID_2D i j nx)) :
    MirrorLR nx ny r := by
  obtain ⟨hlr, hbt⟩ := hr
  intro i j ⟨hi, hj, hc⟩
  have hjc : j = 0 ∨ (1 ≤ j ∧ j ≤ nx) ∨ j = nx + 1 := by omega
  have hic : i = 0 ∨ (1 ≤ i ∧ i ≤ ny) ∨ i = ny + 1 := by omega
  rcases hic with hi0 | ⟨hi1, hi2⟩ | hi3
  · -- bottom ghost row
    have hj1 : 1 ≤ j ∧ j ≤ nx := by omega
    subst hi0
    obtain ⟨b1, _⟩ := hbt j hj1.1 hj1.2
    obtain ⟨b2, _⟩ := hbt (nx + 1 - j) (by omega) (by omega)
    have c := hin 1 j (le_refl 1) hny hj1.1 hj1.2
    exact ⟨by rw [b2.1, b1.1, c.1], by rw [b2.2.1, b1.2.1, c.2.1],
      by rw [b2.2.2, b1.2.2, c.2.2]⟩
  · rcases hjc with hj0 | ⟨hj1, hj2⟩ | hj3
    · subst hj0
      obtain ⟨l, r2⟩ := hlr i hi1 hi2
      have c := hin i 1 hi1 hi2 (le_refl 1) hnx
      have e : nx + 1 - 1 = nx := by omega
      rw [e] at c
      have e0 : nx + 1 - 0 = nx + 1 := by omega
      rw [e0]
      exact ⟨by rw [r2.1, l.1, c.1], by rw [r2.2.1, l.2.1, c.2.1],
        by rw [r2.2.2, l.2.2, c.2.2]⟩
    · exact hin i j hi1 hi2 hj1 hj2
    · subst hj3
      obtain ⟨l, r2⟩ := hlr i hi1 hi2
      have c := hin i 1 hi1 hi2 (le_refl 1) hnx
      have e : nx + 1 - 1 = nx := by omega
      rw [e] at c
      have e0 : nx + 1 - (nx + 1) = 0 := by omega
      rw [e0]
      exact ⟨by rw [r2.1, l.1, c.1], by rw [r2.2.1, l.2.1, c.2.1]; ring,
        by rw [r2.2.2, l.2.2, c.2.2]⟩
  · -- top ghost row
    have hj1 : 1 ≤ j ∧ j ≤ nx := by omega
    subst hi3
    obtain ⟨_, t1⟩ := hbt j hj1.1 hj1.2
    obtain ⟨_, t2⟩ := hbt (nx + 1 - j) (by omega) (by omega)
    have c := hin ny j hny (le_refl ny) hj1.1 hj1.2
    exact ⟨by rw [t2.1, t1.1, c.1], by rw [t2.2.1, t1.2.1, c.2.1],
      by rw [t2.2.2, t1.2.2, c.2.2]⟩

/-- A state with reflective ghosts whose interior is bottom-top symmetric is
bottom-top symmetric on every non-corner cell. -/
theorem mirrorBT_of_interior (nx ny : Nat) (hnx : 1 ≤ nx) (hny : 1 ≤ ny) (r : Arrays)
    (hr : Reflective nx ny r)
    (hin : ∀ i j, 1 ≤ i → i ≤ ny → 1 ≤ j → j ≤ nx →
      r.h (ID_2D (ny + 1 - i) j nx) = r.h (ID_2D i j nx) ∧
      r.uh (ID_2D (ny + 1 - i) j nx) = r.uh (ID_2D i j nx) ∧
      r.vh (ID_2D (ny + 1 - i) j nx) = - r.vh (ID_2D i j nx)) :
    MirrorBT nx ny r := by
  obtain ⟨hlr, hbt⟩ := hr
  intro i j ⟨hi, hj, hc⟩
  have hjc : j = 0 ∨ (1 ≤ j ∧ j ≤ nx) ∨ j = nx + 1 := by omega
  have hic : i = 0 ∨ (1 ≤ i ∧ i ≤ ny) ∨ i = ny + 1 := by omega
  rcases hjc with hj0 | ⟨hj1, hj2⟩ | hj3
  · -- left ghost column
    have hi1 : 1 ≤ i ∧ i ≤ ny := by omega
    subst hj0
    obtain ⟨l1, _⟩ := hlr i hi1.1 hi1.2
    obtain ⟨l2, _⟩ := hlr (ny + 1 - i) (by omega) (by omega)
    have c := hin i 1 hi1.1 hi1.2 (le_refl 1) hnx
    exact ⟨by rw [l2.1, l1.1, c.1], by rw [l2.2.1, l1.2.1, c.2.1],
      by rw [l2.2.2, l1.2.2, c.2.2]⟩
  · rcases hic with hi0 | ⟨hi1, hi2⟩ | hi3
    · subst hi0
      obtain ⟨b, t⟩ := hbt j hj1 hj2
      have c := hin 1 j (le_refl 1) hny hj1 hj2
      have e : ny + 1 - 1 = ny := by omega
      rw [e] at c
      have e0 : ny + 1 - 0 = ny + 1 := by omega
      rw [e0]
      exact ⟨by rw [t.1, b.1, c.1], by rw [t.2.1, b.2.1, c.2.1],
        by rw [t.2.2, b.2.2, c.2.2]⟩
    · exact hin i j hi1 hi2 hj1 hj2
    · subst hi3
      obtain ⟨b, t⟩ := hbt j hj1 hj2
      have c := hin 1 j (le_refl 1) hny hj1 hj2
      have e : ny + 1 - 1 = ny := by omega
      rw [e] at c
      have e0 : ny + 1 - (ny + 1) = 0 := by omega
      rw [e0]
      exact ⟨by rw [t.1, b.1, c.1], by rw [t.2.1, b.2.1, c.2.1],
        by rw [t.2.2, b.2.2, c.2.2]; ring⟩
  · -- right ghost column
    have hi1 : 1 ≤ i ∧ i ≤ ny := by omega
    subst hj3
    obtain ⟨_, r1⟩ := hlr i hi1.1 hi1.2
    obtain ⟨_, r2⟩ := hlr (ny + 1 - i) (by omega) (by omega)
    have c := hin i nx hi1.1 hi1.2 hnx (le_refl nx)
    exact ⟨by rw [r2.1, r1.1, c.1], by rw [r2.2.1, r1.2.1, c.2.1],
      by rw [r2.2.2, r1.2.2, c.2.2]⟩

/-- One step keeps the left-right symmetry of the non-corner cells. -/
theorem timeStep_mirrorLR (nx ny : Nat) (hnx : 1 ≤ nx) (hny : 1 ≤ ny) (lx ly : ℚ) (s : Arrays)
    (hs : MirrorLR nx ny s) : MirrorLR nx ny (timeStep nx ny lx ly s) := by
  refine mirrorLR_of_interior nx ny hnx hny _ (timeStep_reflective nx ny hnx hny lx ly s) ?_
  intro i j hi1 hi2 hj1 hj2
  obtain ⟨a1, a2, a3⟩ := timeStep_interior nx ny lx ly s i j hi1 hi2 hj1 hj2
  obtain ⟨b1, b2, b3⟩ := timeStep_interior nx ny lx ly s i (nx + 1 - j) hi1 hi2
    (by omega) (by omega)
  have HL := hs i (j - 1) ⟨by omega, by omega, Or.inl ⟨hi1, hi2⟩⟩
  have HR := hs i (j + 1) ⟨by omega, by omega, Or.inl ⟨hi1, hi2⟩⟩
  have HB := hs (i - 1) j ⟨by omega, by omega, Or.inr ⟨hj1, hj2⟩⟩
  have HT := hs (i + 1) j ⟨by omega, by omega, Or.inr ⟨hj1, hj2⟩⟩
  have eL : nx + 1 - (j - 1) = nx + 1 - j + 1 := by omega
  have eR : nx + 1 - (j + 1) = nx + 1 - j - 1 := by omega
  rw [eL] at HL
  rw [eR] at HR
  rw [a1, a2, a3, b1, b2, b3]
  simp only [laxFriedrichs, specFuh, specFvh, specGvh, HL.1, HL.2.1, HL.2.2, HR.1, HR.2.1,
    HR.2.2, HB.1, HB.2.1, HB.2.2, HT.1, HT.2.1, HT.2.2]
  refine ⟨by ring, by ring, by ring⟩

/-- One step keeps the bottom-top symmetry of the non-corner cells. -/
theorem timeStep_mirrorBT (nx ny : Nat) (hnx : 1 ≤ nx) (hny : 1 ≤ ny) (lx ly : ℚ) (s : Arrays)
    (hs : MirrorBT nx ny s) : MirrorBT nx ny (timeStep nx ny lx ly s) := by
  refine mirrorBT_of_interior nx ny hnx hny _ (timeStep_reflective nx ny hnx hny lx ly s) ?_
  intro i j hi1 hi2 hj1 hj2
  obtain ⟨a1, a2, a3⟩ := timeStep_interior nx ny lx ly s i j hi1 hi2 hj1 hj2
  obtain ⟨b1, b2, b3⟩ := timeStep_interior nx ny lx ly s (ny + 1 - i) j (by omega) (by omega)
    hj1 hj2
  have HL := hs i (j - 1) ⟨by omega, by omega, Or.inl ⟨hi1, hi2⟩⟩
  have HR := hs i (j + 1) ⟨by omega, by omega, Or.inl ⟨hi1, hi2⟩⟩
  have HB := hs (i - 1) j ⟨by omega, by omega, Or.inr ⟨hj1, hj2⟩⟩
  have HT := hs (i + 1) j ⟨by omega, by omega, Or.inr ⟨hj1, hj2⟩⟩
  have eB : ny + 1 - (i - 1) = ny + 1 - i + 1 := by omega
  have eT : ny + 1 - (i + 1) = ny + 1 - i - 1 := by omega
  rw [eB] at HB
  rw [eT] at HT
  rw [a1, a2, a3, b1, b2, b3]
  simp only [laxFriedrichs, specFuh, specFvh, specGvh, HL.1, HL.2.1, HL.2.2, HR.1, HR.2.1,
    HR.2.2, HB.1, HB.2.1, HB.2.2, HT.1, HT.2.1, HT.2.2]
  refine ⟨by ring, by ring, by ring⟩

/-- One step keeps the left-right symmetry when it is asked of every cell. -/
theorem timeStep_mirrorLRAll (nx ny : Nat) (hnx : 1 ≤ nx) (hny : 1 ≤ ny) (lx ly : ℚ)
    (s : Arrays) (hs : MirrorLRAll nx ny s) : MirrorLRAll nx ny (timeStep nx ny lx ly s) := by
  have h2 := timeStep_mirrorLR nx ny hnx hny lx ly s (fun i j hc => hs i j hc.1 hc.2.1)
  intro i j hi hj
  by_cases hc : (1 ≤ i ∧ i ≤ ny) ∨ (1 ≤ j ∧ j ≤ nx)
  · exact h2 i j ⟨hi, hj, hc⟩
  · have c1 := timeStep_corner nx ny hnx hny lx ly s i j (by omega) (by omega)
    have c2 := timeStep_corner nx ny hnx hny lx ly s i (nx + 1 - j) (by omega) (by omega)
    have h0 := hs i j hi hj
    exact ⟨by rw [c1.1, c2.1, h0.1], by rw [c1.2.1, c2.2.1, h0.2.1],
      by rw [c1.2.2, c2.2.2, h0.2.2]⟩

/-- One step keeps the bottom-top symmetry when it is asked of every cell. -/
theorem timeStep_mirrorBTAll (nx ny : Nat) (hnx : 1 ≤ nx) (hny : 1 ≤ ny) (lx ly : ℚ)
    (s : Arrays) (hs : MirrorBTAll nx ny s) : MirrorBTAll nx ny (timeStep nx ny lx ly s) := by
  have h2 := timeStep_mirrorBT nx ny hnx hny lx ly s (fun i j hc => hs i j hc.1 hc.2.1)
  intro i j hi hj
  by_cases hc : (1 ≤ i ∧ i ≤ ny) ∨ (1 ≤ j ∧ j ≤ nx)
  · exact h2 i j ⟨hi, hj, hc⟩
  · have c1 := timeStep_corner nx ny hnx hny lx ly s i j (by omega) (by omega)
    have c2 := timeStep_corner nx ny hnx hny lx ly s (ny + 1 - i) j (by omega) (by omega)
    have h0 := hs i j hi hj
    exact ⟨by rw [c1.1, c2.1, h0.1], by rw [c1.2.1, c2.2.1, h0.2.1],
      by rw [c1.2.2, c2.2.2, h0.2.2]⟩

/-- Sum of the two neighbours along a line, in terms of the line's own sum. -/
theorem sum_pair_shift (f : Nat → ℚ) (n : Nat) :
    ∑ j in Finset.range n, (f j + f (j + 2))
      = 2 * ∑ j in Finset.range n, f (j + 1) + (f 0 - f 1) + (f (n + 1) - f n) := by
  induction n with
  | zero => simp
  | succ n ih =>
    rw [Finset.sum_range_succ, Finset.sum_range_succ, ih]
    ring

/-- The centred differences along a line telescope. -/
theorem sum_diff_shift (u : Nat → ℚ) (n : Nat) :
    ∑ j in Finset.range n, (u (j + 2) - u j) = u (n + 1) + u n - u 1 - u 0 := by
  induction n with
  | zero => simp
  | succ n ih =>
    rw [Finset.sum_range_succ, ih]
    ring

/-- With reflective ghosts one step keeps the sum of the height over the
interior. -/
theorem timeStep_totalHeight (nx ny : Nat) (lx ly : ℚ) (s : Arrays)
    (hs : Reflective nx ny s) :
    totalHeight nx ny (timeStep nx ny lx ly s).h = totalHeight nx ny s.h := by
  obtain ⟨hlr, hbt⟩ := hs
  have hcell : ∀ i ∈ Finset.range ny, ∀ j ∈ Finset.range nx,
      (timeStep nx ny lx ly s).h (ID_2D (i + 1) (j + 1) nx)
        = 1 / 4 * (s.h (ID_2D (i + 1) j nx) + s.h (ID_2D (i + 1) (j + 2) nx))
          + 1 / 4 * (s.h (ID_2D i (j + 1) nx) + s.h (ID_2D (i + 2) (j + 1) nx))
          - lx * (s.uh (ID_2D (i + 1) (j + 2) nx) - s.uh (ID_2D (i + 1) j nx))
          - ly * (s.vh (ID_2D (i + 2) (j + 1) nx) - s.vh (ID_2D i (j + 1) nx)) := by
    intro i hi j hj
    rw [Finset.mem_range] at hi hj
    rw [(timeStep_interior nx ny lx ly s (i + 1) (j + 1) (by omega) (by omega) (by omega)
      (by omega)).1]
    simp only [laxFriedrichs, Nat.add_sub_cancel]
    ring
  have rowP : ∀ i ∈ Finset.range ny,
      ∑ j in Finset.range nx, (s.h (ID_2D (i + 1) j nx) + s.h (ID_2D (i + 1) (j + 2) nx))
        = 2 * ∑ j in Finset.range nx, s.h (ID_2D (i + 1) (j + 1) nx) := by
    intro i hi
    rw [Finset.mem_range] at hi
    obtain ⟨l, r⟩ := hlr (i + 1) (by omega) (by omega)
    rw [sum_pair_shift (fun j => s.h (ID_2D (i + 1) j nx)) nx]
    simp only [l.1, r.1]
    ring
  have rowU : ∀ i ∈ Finset.range ny,
      ∑ j in Finset.range nx, (s.uh (ID_2D (i + 1) (j + 2) nx) - s.uh (ID_2D (i + 1) j nx))
        = 0 := by
    intro i hi
    rw [Finset.mem_range] at hi
    obtain ⟨l, r⟩ := hlr (i + 1) (by omega) (by omega)
    rw [sum_diff_shift (fun j => s.uh (ID_2D (i + 1) j nx)) nx]
    simp only [l.2.1, r.2.1]
    ring
  have colQ : ∀ j ∈ Finset.range nx,
      ∑ i in Finset.range ny, (s.h (ID_2D i (j + 1) nx) + s.h (ID_2D (i + 2) (j + 1) nx))
        = 2 * ∑ i in Finset.range ny, s.h (ID_2D (i + 1) (j + 1) nx) := by
    intro j hj
    rw [Finset.mem_range] at hj
    obtain ⟨b, t⟩ := hbt (j + 1) (by omega) (by omega)
    rw [sum_pair_shift (fun i => s.h (ID_2D i (j + 1) nx)) ny]
    simp only [b.1, t.1]
    ring
  have colV : ∀ j ∈ Finset.range nx,
      ∑ i in Finset.range ny, (s.vh (ID_2D (i + 2) (j + 1) nx) - s.vh (ID_2D i (j + 1) nx))
        = 0 := by
    intro j hj
    rw [Finset.mem_range] at hj
    obtain ⟨b, t⟩ := hbt (j + 1) (by omega) (by omega)
    rw [sum_diff_shift (fun i => s.vh (ID_2D i (j + 1) nx)) ny]
    simp only [b.2.2, t.2.2]
    ring
  have SP : ∑ i in Finset.range ny, ∑ j in Finset.range nx,
      (s.h (ID_2D (i + 1) j nx) + s.h (ID_2D (i + 1) (j + 2) nx))
        = 2 * totalHeight nx ny s.h := by
    rw [Finset.sum_congr rfl rowP, ← Finset.mul_sum]
    rfl
  have SU : ∑ i in Finset.range ny, ∑ j in Finset.range nx,
      (s.uh (ID_2D (i + 1) (j + 2) nx) - s.uh (ID_2D (i + 1) j nx)) = 0 := by
    rw [Finset.sum_congr rfl rowU]
    simp
  have SQ : ∑ i in Finset.range ny, ∑ j in Finset.range nx,
      (s.h (ID_2D i (j + 1) nx) + s.h (ID_2D (i + 2) (j + 1) nx))
        = 2 * totalHeight nx ny s.h := by
    rw [Finset.sum_comm, Finset.sum_congr rfl colQ, ← Finset.mul_sum, Finset.sum_comm]
    rfl
  have SV : ∑ i in Finset.range ny, ∑ j in Finset.range nx,
      (s.vh (ID_2D (i + 2) (j + 1) nx) - s.vh (ID_2D i (j + 1) nx)) = 0 := by
    rw [Finset.sum_comm, Finset.sum_congr rfl colV]
    simp
  have hgoal : totalHeight nx ny (timeStep nx ny lx ly s).h
      = ∑ i in Finset.range ny, ∑ j in Finset.range nx,
        (1 / 4 * (s.h (ID_2D (i + 1) j nx) + s.h (ID_2D (i + 1) (j + 2) nx))
          + 1 / 4 * (s.h (ID_2D i (j + 1) nx) + s.h (ID_2D (i + 2) (j + 1) nx))
          - lx * (s.uh (ID_2D (i + 1) (j + 2) nx) - s.uh (ID_2D (i + 1) j nx))
          - ly * (s.vh (ID_2D (i + 2) (j + 1) nx) - s.vh (ID_2D i (j + 1) nx))) :=
    Finset.sum_congr rfl (fun i hi => Finset.sum_congr rfl (fun j hj => hcell i hi j hj))
  rw [hgoal]
  simp only [Finset.sum_sub_distrib, Finset.sum_add_distrib, ← Finset.mul_sum] at SP SQ SU SV ⊢
  linear_combination (1 / 4 : ℚ) * SP + (1 / 4 : ℚ) * SQ - lx * SU - ly * SV

/-- The coordinate loop of `initial_conditions_rank` fills `x` and `y` on
`0..n-1` and leaves the state alone. -/
theorem rankCoords_spec (dx dy L : ℚ) (cx cy q n : Nat) (a : Arrays) :
    ((forLoop 1 (n + 1) (rankCoords dx dy L cx cy q) a).h = a.h ∧
      (forLoop 1 (n + 1) (rankCoords dx dy L cx cy q) a).uh = a.uh ∧
      (forLoop 1 (n + 1) (rankCoords dx dy L cx cy q) a).vh = a.vh) ∧
    ∀ k, k < n →
      (forLoop 1 (n + 1) (rankCoords dx dy L cx cy q) a).x k
        = -L / 2 + (cx : ℚ) * (L / (q : ℚ)) + dx / 2 + (k : ℚ) * dx ∧
      (forLoop 1 (n + 1) (rankCoords dx dy L cx cy q) a).y k
        = -L / 2 + (cy : ℚ) * (L / (q : ℚ)) + dy / 2 + (k : ℚ) * dy := by
  have key := forLoop_induct
    (fun m (t : Arrays) => (t.h = a.h ∧ t.uh = a.uh ∧ t.vh = a.vh) ∧
      ∀ k, k + 1 < m →
        t.x k = -L / 2 + (cx : ℚ) * (L / (q : ℚ)) + dx / 2 + (k : ℚ) * dx ∧
        t.y k = -L / 2 + (cy : ℚ) * (L / (q : ℚ)) + dy / 2 + (k : ℚ) * dy)
    1 (n + 1) (rankCoords dx dy L cx cy q) a (by omega)
    ⟨⟨rfl, rfl, rfl⟩, fun k hk => absurd hk (by omega)⟩ ?_
  · exact ⟨key.1, fun k hk => key.2 k (by omega)⟩
  · intro i t hi1 hi2 ⟨hI, hx⟩
    refine ⟨hI, fun k hk => ?_⟩
    by_cases e : k = i - 1
    · subst e
      simp [rankCoords]
    · have := hx k (by omega)
      simpa [rankCoords, Function.update_noteq e] using this

/-- A ghost loop of the initial conditions behind its rank test: when the test
holds it writes the cells `dst i` from `src i` with zero momentum, and in
every case it leaves all other cells alone. -/
theorem guardedGhost_spec (c : Prop) [Decidable c] (dst src : Nat → Nat) (lo hi : Nat)
    (hle : lo ≤ hi) (t : Arrays)
    (hinj : ∀ i i2, lo ≤ i → i < hi → lo ≤ i2 → i2 < hi → i ≠ i2 → dst i ≠ dst i2)
    (hsrc : ∀ i i2, lo ≤ i → i < hi → lo ≤ i2 → i2 < hi → src i ≠ dst i2) :
    (∀ k, (c → ∀ i, lo ≤ i → i < hi → k ≠ dst i) →
      (if c then forLoop lo hi (fun i => ghostCell (dst i) (src i)) t else t).h k = t.h k ∧
      (if c then forLoop lo hi (fun i => ghostCell (dst i) (src i)) t else t).uh k = t.uh k ∧
      (if c then forLoop lo hi (fun i => ghostCell (dst i) (src i)) t else t).vh k = t.vh k) ∧
    (c → ∀ i, lo ≤ i → i < hi →
      (if c then forLoop lo hi (fun i => ghostCell (dst i) (src i)) t else t).h (dst i)
        = t.h (src i) ∧
      (if c then forLoop lo hi (fun i => ghostCell (dst i) (src i)) t else t).uh (dst i) = 0 ∧
      (if c then forLoop lo hi (fun i => ghostCell (dst i) (src i)) t else t).vh (dst i) = 0) := by
  by_cases hc : c
  · rw [if_pos hc]
    obtain ⟨f, w⟩ := copyLoop_spec (fun i => ghostCell (dst i) (src i))
      (fun _ => 0) (fun _ => 0) dst src lo hi hle t (fun i a => ⟨rfl, rfl, rfl⟩) hinj hsrc
    exact ⟨fun k hk => f k (hk hc), fun _ => w⟩
  · rw [if_neg hc]
    exact ⟨fun k _ => ⟨rfl, rfl, rfl⟩, fun h => absurd h hc⟩

/-- The height loop writes the bump at every interior cell of a square tile
and leaves every other cell, the coordinates and the momenta alone. -/
theorem heightLoop_spec (expf : ℚ → ℚ) (n : Nat) (a : Arrays) :
    (((forLoop 1 (n + 1) (fun i => forLoop 1 (n + 1) (fun j => heightCell expf n i j)) a).uh
        = a.uh ∧
      (forLoop 1 (n + 1) (fun i => forLoop 1 (n + 1) (fun j => heightCell expf n i j)) a).vh
        = a.vh) ∧
      ∀ k, (∀ i j, 1 ≤ i → i ≤ n → 1 ≤ j → j ≤ n → k ≠ ID_2D i j n) →
        (forLoop 1 (n + 1) (fun i => forLoop 1 (n + 1) (fun j => heightCell expf n i j)) a).h k
          = a.h k) ∧
    ∀ i j, 1 ≤ i → i ≤ n → 1 ≤ j → j ≤ n →
      (forLoop 1 (n + 1) (fun i => forLoop 1 (n + 1) (fun j => heightCell expf n i j)) a).h
          (ID_2D i j n)
        = 1 + 2 / 5 * expf (-5 * (a.x (j - 1) * a.x (j - 1) + a.y (i - 1) * a.y (i - 1))) := by
  have key := nest_induct
    (fun t : Arrays => (t.x = a.x ∧ t.y = a.y ∧ t.uh = a.uh ∧ t.vh = a.vh) ∧
      ∀ k, (∀ i j, 1 ≤ i → i ≤ n → 1 ≤ j → j ≤ n → k ≠ ID_2D i j n) → t.h k = a.h k)
    (fun i j t => t.h (ID_2D i j n)
      = 1 + 2 / 5 * expf (-5 * (a.x (j - 1) * a.x (j - 1) + a.y (i - 1) * a.y (i - 1))))
    (fun i j => heightCell expf n i j) 1 (n + 1) 1 (n + 1) a (by omega) (by omega)
    ?_ ?_ ?_ ⟨⟨rfl, rfl, rfl, rfl⟩, fun k _ => rfl⟩
  · exact ⟨⟨⟨key.1.1.2.2.1, key.1.1.2.2.2⟩, key.1.2⟩,
      fun i j h1 h2 h3 h4 => key.2 i j h1 (by omega) h3 (by omega)⟩
  · intro i j t h1 h2 h3 h4 ⟨hI, hfr⟩
    refine ⟨hI, fun k hk => ?_⟩
    have hne : k ≠ ID_2D i j n := hk i j h1 (by omega) h3 (by omega)
    simpa [heightCell, Function.update_noteq hne] using hfr k hk
  · intro i j t _ _ _ _ ⟨⟨e1, e2, _, _⟩, _⟩
    simp [heightCell, e1, e2]
  · intro i j i2 j2 t _ _ _ _ _ _ _ _ hne _ g1
    have hk : ID_2D i j n ≠ ID_2D i2 j2 n := ID_2D_ne (by omega) (by omega) hne
    simp [heightCell, Function.update_noteq hk, g1]

/-- The momentum loop zeroes `uh` and `vh` at every interior cell of a square
tile and leaves every other cell and the height alone. -/
theorem momentumLoop_spec (n : Nat) (a : Arrays) :
    ((forLoop 1 (n + 1) (fun i => forLoop 1 (n + 1) (fun j => momentumCell (ID_2D i j n))) a).h
        = a.h ∧
      ∀ k, (∀ i j, 1 ≤ i → i ≤ n → 1 ≤ j → j ≤ n → k ≠ ID_2D i j n) →
        (forLoop 1 (n + 1) (fun i => forLoop 1 (n + 1)
          (fun j => momentumCell (ID_2D i j n))) a).uh k = a.uh k ∧
        (forLoop 1 (n + 1) (fun i => forLoop 1 (n + 1)
          (fun j => momentumCell (ID_2D i j n))) a).vh k = a.vh k) ∧
    ∀ i j, 1 ≤ i → i ≤ n → 1 ≤ j → j ≤ n →
      (forLoop 1 (n + 1) (fun i => forLoop 1 (n + 1)
        (fun j => momentumCell (ID_2D i j n))) a).uh (ID_2D i j n) = 0 ∧
      (forLoop 1 (n + 1) (fun i => forLoop 1 (n + 1)
        (fun j => momentumCell (ID_2D i j n))) a).vh (ID_2D i j n) = 0 := by
  have key := nest_induct
    (fun t : Arrays => t.h = a.h ∧
      ∀ k, (∀ i j, 1 ≤ i → i ≤ n → 1 ≤ j → j ≤ n → k ≠ ID_2D i j n) →
        t.uh k = a.uh k ∧ t.vh k = a.vh k)
    (fun i j t => t.uh (ID_2D i j n) = 0 ∧ t.vh (ID_2D i j n) = 0)
    (fun i j => momentumCell (ID_2D i j n)) 1 (n + 1) 1 (n + 1) a (by omega) (by omega)
    ?_ ?_ ?_ ⟨rfl, fun k _ => ⟨rfl, rfl⟩⟩
  · exact ⟨key.1, fun i j h1 h2 h3 h4 => key.2 i j h1 (by omega) h3 (by omega)⟩
  · intro i j t h1 h2 h3 h4 ⟨hI, hfr⟩
    refine ⟨hI, fun k hk => ?_⟩
    have hne : k ≠ ID_2D i j n := hk i j h1 (by omega) h3 (by omega)
    simpa [momentumCell, Function.update_noteq hne] using hfr k hk
  · intro i j t _ _ _ _ _
    simp [momentumCell]
  · intro i j i2 j2 t _ _ _ _ _ _ _ _ hne _ ⟨g1, g2⟩
    have hk : ID_2D i j n ≠ ID_2D i2 j2 n := ID_2D_ne (by omega) (by omega) hne
    simp [momentumCell, Function.update_noteq hk, g1, g2]

/-- On a square tile the interior part of the initial conditions writes the bump
with zero momentum at every interior cell and leaves all other cells alone. -/
theorem rankInterior_spec (expf : ℚ → ℚ) (n : Nat) (dx dy L : ℚ) (a : Arrays)
    (cx cy q : Nat) :
    (∀ k, (∀ i j, 1 ≤ i → i ≤ n → 1 ≤ j → j ≤ n → k ≠ ID_2D i j n) →
      (rankInterior expf n n dx dy L a cx cy q).h k = a.h k ∧
      (rankInterior expf n n dx dy L a cx cy q).uh k = a.uh k ∧
      (rankInterior expf n n dx dy L a cx cy q).vh k = a.vh k) ∧
    ∀ i j, 1 ≤ i → i ≤ n → 1 ≤ j → j ≤ n →
      (rankInterior expf n n dx dy L a cx cy q).h (ID_2D i j n)
        = bump expf (nodeCoord L dx cx q (j - 1)) (nodeCoord L dy cy q (i - 1)) ∧
      (rankInterior expf n n dx dy L a cx cy q).uh (ID_2D i j n) = 0 ∧
      (rankInterior expf n n dx dy L a cx cy q).vh (ID_2D i j n) = 0 := by
  obtain ⟨⟨c1, c2, c3⟩, cxy⟩ := rankCoords_spec dx dy L cx cy q n a
  obtain ⟨⟨⟨h1, h2⟩, hfr⟩, hv⟩ := heightLoop_spec expf n
    (forLoop 1 (n + 1) (rankCoords dx dy L cx cy q) a)
  obtain ⟨⟨m1, mfr⟩, mv⟩ := momentumLoop_spec n
    (forLoop 1 (n + 1) (fun i => forLoop 1 (n + 1) (fun j => heightCell expf n i j))
      (forLoop 1 (n + 1) (rankCoords dx dy L cx cy q) a))
  refine ⟨fun k hk => ?_, fun i j hi1 hi2 hj1 hj2 => ?_⟩
  · have e1 := hfr k hk
    have e2 := mfr k hk
    refine ⟨?_, ?_, ?_⟩
    · show Arrays.h (forLoop 1 (n + 1) _ _) k = _
      rw [m1, e1, c1]
    · show Arrays.uh (forLoop 1 (n + 1) _ _) k = _
      rw [e2.1, h1, c2]
    · show Arrays.vh (forLoop 1 (n + 1) _ _) k = _
      rw [e2.2, h2, c3]
  · have e1 := hv i j hi1 hi2 hj1 hj2
    have e2 := mv i j hi1 hi2 hj1 hj2
    have ex := cxy (j - 1) (by omega)
    have ey := cxy (i - 1) (by omega)
    refine ⟨?_, e2.1, e2.2⟩
    show Arrays.h (forLoop 1 (n + 1) _ _) _ = _
    rw [m1, e1, ex.1, ey.2]
    rfl

/-- On a square tile with an interior, what the four ghost blocks of the initial
conditions do: a block whose rank test holds writes its row or column from the
adjacent interior cells with zero momentum; a block whose test fails leaves
its row or column as it was; the interior is never written. -/
theorem rankGhosts_spec (n : Nat) (hn : 1 ≤ n) (cx cy q : Nat) (t : Arrays) :
    (∀ i j, 1 ≤ i → i ≤ n → 1 ≤ j → j ≤ n →
      (rankGhosts n n cx cy q t).h (ID_2D i j n) = t.h (ID_2D i j n) ∧
      (rankGhosts n n cx cy q t).uh (ID_2D i j n) = t.uh (ID_2D i j n) ∧
      (rankGhosts n n cx cy q t).vh (ID_2D i j n) = t.vh (ID_2D i j n)) ∧
    (∀ j, 1 ≤ j → j ≤ n →
      (cx = 0 → (rankGhosts n n cx cy q t).h (ID_2D 0 j n) = t.h (ID_2D 1 j n) ∧
        (rankGhosts n n cx cy q t).uh (ID_2D 0 j n) = 0 ∧
        (rankGhosts n n cx cy q t).vh (ID_2D 0 j n) = 0) ∧
      (cx ≠ 0 → (rankGhosts n n cx cy q t).h (ID_2D 0 j n) = t.h (ID_2D 0 j n) ∧
        (rankGhosts n n cx cy q t).uh (ID_2D 0 j n) = t.uh (ID_2D 0 j n) ∧
        (rankGhosts n n cx cy q t).vh (ID_2D 0 j n) = t.vh (ID_2D 0 j n)) ∧
      (cx = q - 1 → (rankGhosts n n cx cy q t).h (ID_2D (n + 1) j n) = t.h (ID_2D n j n) ∧
        (rankGhosts n n cx cy q t).uh (ID_2D (n + 1) j n) = 0 ∧
        (rankGhosts n n cx cy q t).vh (ID_2D (n + 1) j n) = 0) ∧
      (cx ≠ q - 1 → (rankGhosts n n cx cy q t).h (ID_2D (n + 1) j n) = t.h (ID_2D (n + 1) j n) ∧
        (rankGhosts n n cx cy q t).uh (ID_2D (n + 1) j n) = t.uh (ID_2D (n + 1) j n) ∧
        (rankGhosts n n cx cy q t).vh (ID_2D (n + 1) j n) = t.vh (ID_2D (n + 1) j n))) ∧
    (∀ i, 1 ≤ i → i ≤ n →
      (cy = 0 → (rankGhosts n n cx cy q t).h (ID_2D i 0 n) = t.h (ID_2D i 1 n) ∧
        (rankGhosts n n cx cy q t).uh (ID_2D i 0 n) = 0 ∧
        (rankGhosts n n cx cy q t).vh (ID_2D i 0 n) = 0) ∧
      (cy ≠ 0 → (rankGhosts n n cx cy q t).h (ID_2D i 0 n) = t.h (ID_2D i 0 n) ∧
        (rankGhosts n n cx cy q t).uh (ID_2D i 0 n) = t.uh (ID_2D i 0 n) ∧
        (rankGhosts n n cx cy q t).vh (ID_2D i 0 n) = t.vh (ID_2D i 0 n)) ∧
      (cy = q - 1 → (rankGhosts n n cx cy q t).h (ID_2D i (n + 1) n) = t.h (ID_2D i n n) ∧
        (rankGhosts n n cx cy q t).uh (ID_2D i (n + 1) n) = 0 ∧
        (rankGhosts n n cx cy q t).vh (ID_2D i (n + 1) n) = 0) ∧
      (cy ≠ q - 1 → (rankGhosts n n cx cy q t).h (ID_2D i (n + 1) n) = t.h (ID_2D i (n + 1) n) ∧
        (rankGhosts n n cx cy q t).uh (ID_2D i (n + 1) n) = t.uh (ID_2D i (n + 1) n) ∧
        (rankGhosts n n cx cy q t).vh (ID_2D i (n + 1) n) = t.vh (ID_2D i (n + 1) n))) := by
  obtain ⟨F1, W1⟩ := guardedGhost_spec (cx = 0) (fun j => ID_2D 0 j n)
    (fun j => ID_2D (0 + 1) j n) 1 (n + 1) (by omega) t
    (fun j j2 _ _ _ _ hne => ID_2D_ne (by omega) (by omega) (Or.inr hne))
    (fun j j2 _ _ _ _ => ID_2D_ne (by omega) (by omega) (Or.inl (by omega)))
  obtain ⟨F2, W2⟩ := guardedGhost_spec (cx = q - 1) (fun j => ID_2D (n + 1) j n)
    (fun j => ID_2D (n + 1 - 1) j n) 1 (n + 1) (by omega) (rankLeft n cx t)
    (fun j j2 _ _ _ _ hne => ID_2D_ne (by omega) (by omega) (Or.inr hne))
    (fun j j2 _ _ _ _ => ID_2D_ne (by omega) (by omega) (Or.inl (by omega)))
  obtain ⟨F3, W3⟩ := guardedGhost_spec (cy = 0) (fun i => ID_2D i 0 n)
    (fun i => ID_2D i (0 + 1) n) 1 (n + 1) (by omega) (rankRight n cx q (rankLeft n cx t))
    (fun i i2 _ _ _ _ hne => ID_2D_ne (by omega) (by omega) (Or.inl hne))
    (fun i i2 _ _ _ _ => ID_2D_ne (by omega) (by omega) (Or.inr (by omega)))
  obtain ⟨F4, W4⟩ := guardedGhost_spec (cy = q - 1) (fun i => ID_2D i (n + 1) n)
    (fun i => ID_2D i (n + 1 - 1) n) 1 (n + 1) (by omega)
    (rankBottom n n cy (rankRight n cx q (rankLeft n cx t)))
    (fun i i2 _ _ _ _ hne => ID_2D_ne (by omega) (by omega) (Or.inl hne))
    (fun i i2 _ _ _ _ => ID_2D_ne (by omega) (by omega) (Or.inr (by omega)))
  -- the four stages, under their names
  have f1 : ∀ k, (cx = 0 → ∀ j, 1 ≤ j → j < n + 1 → k ≠ ID_2D 0 j n) →
      (rankLeft n cx t).h k = t.h k ∧ (rankLeft n cx t).uh k = t.uh k ∧
      (rankLeft n cx t).vh k = t.vh k := F1
  have w1 : cx = 0 → ∀ j, 1 ≤ j → j < n + 1 →
      (rankLeft n cx t).h (ID_2D 0 j n) = t.h (ID_2D 1 j n) ∧
      (rankLeft n cx t).uh (ID_2D 0 j n) = 0 ∧ (rankLeft n cx t).vh (ID_2D 0 j n) = 0 := W1
  have f2 : ∀ k, (cx = q - 1 → ∀ j, 1 ≤ j → j < n + 1 → k ≠ ID_2D (n + 1) j n) →
      (rankRight n cx q (rankLeft n cx t)).h k = (rankLeft n cx t).h k ∧
      (rankRight n cx q (rankLeft n cx t)).uh k = (rankLeft n cx t).uh k ∧
      (rankRight n cx q (rankLeft n cx t)).vh k = (rankLeft n cx t).vh k := F2
  have w2 : cx = q - 1 → ∀ j, 1 ≤ j → j < n + 1 →
      (rankRight n cx q (rankLeft n cx t)).h (ID_2D (n + 1) j n)
        = (rankLeft n cx t).h (ID_2D n j n) ∧
      (rankRight n cx q (rankLeft n cx t)).uh (ID_2D (n + 1) j n) = 0 ∧
      (rankRight n cx q (rankLeft n cx t)).vh (ID_2D (n + 1) j n) = 0 := W2
  have f3 : ∀ k, (cy = 0 → ∀ i, 1 ≤ i → i < n + 1 → k ≠ ID_2D i 0 n) →
      (rankBottom n n cy (rankRight n cx q (rankLeft n cx t))).h k
        = (rankRight n cx q (rankLeft n cx t)).h k ∧
      (rankBottom n n cy (rankRight n cx q (rankLeft n cx t))).uh k
        = (rankRight n cx q (rankLeft n cx t)).uh k ∧
      (rankBottom n n cy (rankRight n cx q (rankLeft n cx t))).vh k
        = (rankRight n cx q (rankLeft n cx t)).vh k := F3
  have w3 : cy = 0 → ∀ i, 1 ≤ i → i < n + 1 →
      (rankBottom n n cy (rankRight n cx q (rankLeft n cx t))).h (ID_2D i 0 n)
        = (rankRight n cx q (rankLeft n cx t)).h (ID_2D i 1 n) ∧
      (rankBottom n n cy (rankRight n cx q (rankLeft n cx t))).uh (ID_2D i 0 n) = 0 ∧
      (rankBottom n n cy (rankRight n cx q (rankLeft n cx t))).vh (ID_2D i 0 n) = 0 := W3
  have f4 : ∀ k, (cy = q - 1 → ∀ i, 1 ≤ i → i < n + 1 → k ≠ ID_2D i (n + 1) n) →
      (rankGhosts n n cx cy q t).h k
        = (rankBottom n n cy (rankRight n cx q (rankLeft n cx t))).h k ∧
      (rankGhosts n n cx cy q t).uh k
        = (rankBottom n n cy (rankRight n cx q (rankLeft n cx t))).uh k ∧
      (rankGhosts n n cx cy q t).vh k
        = (rankBottom n n cy (rankRight n cx q (rankLeft n cx t))).vh k := F4
  have w4 : cy = q - 1 → ∀ i, 1 ≤ i → i < n + 1 →
      (rankGhosts n n cx cy q t).h (ID_2D i (n + 1) n)
        = (rankBottom n n cy (rankRight n cx q (rankLeft n cx t))).h (ID_2D i n n) ∧
      (rankGhosts n n cx cy q t).uh (ID_2D i (n + 1) n) = 0 ∧
      (rankGhosts n n cx cy q t).vh (ID_2D i (n + 1) n) = 0 := W4
  clear F1 W1 F2 W2 F3 W3 F4 W4
  -- cells outside the row or column a block writes
  have n1 : ∀ i j, 1 ≤ i → j ≤ n + 1 → ∀ j2, 1 ≤ j2 → j2 < n + 1 →
      ID_2D i j n ≠ ID_2D 0 j2 n :=
    fun i j _ _ j2 _ _ => ID_2D_ne (by omega) (by omega) (Or.inl (by omega))
  have n2 : ∀ i j, i ≤ n → j ≤ n + 1 → ∀ j2, 1 ≤ j2 → j2 < n + 1 →
      ID_2D i j n ≠ ID_2D (n + 1) j2 n :=
    fun i j _ _ j2 _ _ => ID_2D_ne (by omega) (by omega) (Or.inl (by omega))
  have n3 : ∀ i j, 1 ≤ j → j ≤ n + 1 → ∀ i2, 1 ≤ i2 → i2 < n + 1 →
      ID_2D i j n ≠ ID_2D i2 0 n :=
    fun i j _ _ i2 _ _ => ID_2D_ne (by omega) (by omega) (Or.inr (by omega))
  have n4 : ∀ i j, j ≤ n → ∀ i2, 1 ≤ i2 → i2 < n + 1 →
      ID_2D i j n ≠ ID_2D i2 (n + 1) n :=
    fun i j _ i2 _ _ => ID_2D_ne (by omega) (by omega) (Or.inr (by omega))
  -- an interior cell passes through all four blocks
  have hint : ∀ i j, 1 ≤ i → i ≤ n → 1 ≤ j → j ≤ n →
      (rankGhosts n n cx cy q t).h (ID_2D i j n) = t.h (ID_2D i j n) ∧
      (rankGhosts n n cx cy q t).uh (ID_2D i j n) = t.uh (ID_2D i j n) ∧
      (rankGhosts n n cx cy q t).vh (ID_2D i j n) = t.vh (ID_2D i j n) := by
    intro i j hi1 hi2 hj1 hj2
    have a1 := f1 (ID_2D i j n) (fun _ => n1 i j hi1 (by omega))
    have a2 := f2 (ID_2D i j n) (fun _ => n2 i j hi2 (by omega))
    have a3 := f3 (ID_2D i j n) (fun _ => n3 i j hj1 (by omega))
    have a4 := f4 (ID_2D i j n) (fun _ => n4 i j hj2)
    exact ⟨by rw [a4.1, a3.1, a2.1, a1.1], by rw [a4.2.1, a3.2.1, a2.2.1, a1.2.1],
      by rw [a4.2.2, a3.2.2, a2.2.2, a1.2.2]⟩
  refine ⟨hint, fun j hj1 hj2 => ⟨fun hc => ?_, fun hc => ?_, fun hc => ?_, fun hc => ?_⟩,
    fun i hi1 hi2 => ⟨fun hc => ?_, fun hc => ?_, fun hc => ?_, fun hc => ?_⟩⟩
  · -- row 0, written
    have w := w1 hc j hj1 (by omega)
    have a2 := f2 (ID_2D 0 j n) (fun _ => n2 0 j (by omega) (by omega))
    have a3 := f3 (ID_2D 0 j n) (fun _ => n3 0 j hj1 (by omega))
    have a4 := f4 (ID_2D 0 j n) (fun _ => n4 0 j hj2)
    exact ⟨by rw [a4.1, a3.1, a2.1, w.1], by rw [a4.2.1, a3.2.1, a2.2.1, w.2.1],
      by rw [a4.2.2, a3.2.2, a2.2.2, w.2.2]⟩
  · -- row 0, not written
    have a1 := f1 (ID_2D 0 j n) (fun h => absurd h hc)
    have a2 := f2 (ID_2D 0 j n) (fun _ => n2 0 j (by omega) (by omega))
    have a3 := f3 (ID_2D 0 j n) (fun _ => n3 0 j hj1 (by omega))
    have a4 := f4 (ID_2D 0 j n) (fun _ => n4 0 j hj2)
    exact ⟨by rw [a4.1, a3.1, a2.1, a1.1], by rw [a4.2.1, a3.2.1, a2.2.1, a1.2.1],
      by rw [a4.2.2, a3.2.2, a2.2.2, a1.2.2]⟩
  · -- row n+1, written
    have w := w2 hc j hj1 (by omega)
    have a1 := f1 (ID_2D n j n) (fun _ => n1 n j hn (by omega))
    have a3 := f3 (ID_2D (n + 1) j n) (fun _ => n3 (n + 1) j hj1 (by omega))
    have a4 := f4 (ID_2D (n + 1) j n) (fun _ => n4 (n + 1) j hj2)
    exact ⟨by rw [a4.1, a3.1, w.1, a1.1], by rw [a4.2.1, a3.2.1, w.2.1],
      by rw [a4.2.2, a3.2.2, w.2.2]⟩
  · -- row n+1, not written
    have a1 := f1 (ID_2D (n + 1) j n) (fun _ => n1 (n + 1) j (by omega) (by omega))
    have a2 := f2 (ID_2D (n + 1) j n) (fun h => absurd h hc)
    have a3 := f3 (ID_2D (n + 1) j n) (fun _ => n3 (n + 1) j hj1 (by omega))
    have a4 := f4 (ID_2D (n + 1) j n) (fun _ => n4 (n + 1) j hj2)
    exact ⟨by rw [a4.1, a3.1, a2.1, a1.1], by rw [a4.2.1, a3.2.1, a2.2.1, a1.2.1],
      by rw [a4.2.2, a3.2.2, a2.2.2, a1.2.2]⟩
  · -- column 0, written
    have w := w3 hc i hi1 (by omega)
    have a1 := f1 (ID_2D i 1 n) (fun _ => n1 i 1 hi1 (by omega))
    have a2 := f2 (ID_2D i 1 n) (fun _ => n2 i 1 hi2 (by omega))
    have a4 := f4 (ID_2D i 0 n) (fun _ => n4 i 0 (by omega))
    exact ⟨by rw [a4.1, w.1, a2.1, a1.1], by rw [a4.2.1, w.2.1], by rw [a4.2.2, w.2.2]⟩
  · -- column 0, not written
    have a1 := f1 (ID_2D i 0 n) (fun _ => n1 i 0 hi1 (by omega))
    have a2 := f2 (ID_2D i 0 n) (fun _ => n2 i 0 hi2 (by omega))
    have a3 := f3 (ID_2D i 0 n) (fun h => absurd h hc)
    have a4 := f4 (ID_2D i 0 n) (fun _ => n4 i 0 (by omega))
    exact ⟨by rw [a4.1, a3.1, a2.1, a1.1], by rw [a4.2.1, a3.2.1, a2.2.1, a1.2.1],
      by rw [a4.2.2, a3.2.2, a2.2.2, a1.2.2]⟩
  · -- column n+1, written
    have w := w4 hc i hi1 (by omega)
    have a1 := f1 (ID_2D i n n) (fun _ => n1 i n hi1 (by omega))
    have a2 := f2 (ID_2D i n n) (fun _ => n2 i n hi2 (by omega))
    have a3 := f3 (ID_2D i n n) (fun _ => n3 i n hn (by omega))
    exact ⟨by rw [w.1, a3.1, a2.1, a1.1], w.2.1, w.2.2⟩
  · -- column n+1, not written
    have a1 := f1 (ID_2D i (n + 1) n) (fun _ => n1 i (n + 1) hi1 (by omega))
    have a2 := f2 (ID_2D i (n + 1) n) (fun _ => n2 i (n + 1) hi2 (by omega))
    have a3 := f3 (ID_2D i (n + 1) n) (fun _ => n3 i (n + 1) (by omega) (by omega))
    have a4 := f4 (ID_2D i (n + 1) n) (fun h => absurd h hc)
    exact ⟨by rw [a4.1, a3.1, a2.1, a1.1], by rw [a4.2.1, a3.2.1, a2.2.1, a1.2.1],
      by rw [a4.2.2, a3.2.2, a2.2.2, a1.2.2]⟩

/-- With one process the start of `main` runs the initial conditions on the whole
grid at process coordinate `(0, 0)` of a 1 by 1 process grid. -/
theorem mainInit_single (expf : ℚ → ℚ) (nx : Nat) (L : ℚ) (mem : Arrays) :
    mainInit expf 0 1 nx L mem
      = rankGhosts nx nx 0 0 1
          (rankInterior expf nx nx (L / (nx : ℚ)) (L / (nx : ℚ)) L mem 0 0 1) := by
  simp [mainInit, initial_conditions_rank, Nat.sqrt_one]

/-- With one process the initial state holds the bump with zero momentum on the
interior. -/
theorem mainInit_single_interior (expf : ℚ → ℚ) (nx : Nat) (L : ℚ) (mem : Arrays)
    (i j : Nat) (hi1 : 1 ≤ i) (hi2 : i ≤ nx) (hj1 : 1 ≤ j) (hj2 : j ≤ nx) :
    (mainInit expf 0 1 nx L mem).h (ID_2D i j nx)
      = bump expf (nodeCoord L (L / (nx : ℚ)) 0 1 (j - 1))
          (nodeCoord L (L / (nx : ℚ)) 0 1 (i - 1)) ∧
    (mainInit expf 0 1 nx L mem).uh (ID_2D i j nx) = 0 ∧
    (mainInit expf 0 1 nx L mem).vh (ID_2D i j nx) = 0 := by
  rw [mainInit_single]
  obtain ⟨gi, _, _⟩ := rankGhosts_spec nx (by omega) 0 0 1
    (rankInterior expf nx nx (L / (nx : ℚ)) (L / (nx : ℚ)) L mem 0 0 1)
  have e := gi i j hi1 hi2 hj1 hj2
  have v := (rankInterior_spec expf nx (L / (nx : ℚ)) (L / (nx : ℚ)) L mem 0 0 1).2
    i j hi1 hi2 hj1 hj2
  exact ⟨e.1.trans v.1, e.2.1.trans v.2.1, e.2.2.trans v.2.2⟩

/-- With one process the initial state has reflective ghosts on all four edges. -/
theorem mainInit_single_reflective (expf : ℚ → ℚ) (nx : Nat) (hnx : 1 ≤ nx) (L : ℚ)
    (mem : Arrays) : Reflective nx nx (mainInit expf 0 1 nx L mem) := by
  rw [mainInit_single]
  obtain ⟨gi, grow, gcol⟩ := rankGhosts_spec nx hnx 0 0 1
    (rankInterior expf nx nx (L / (nx : ℚ)) (L / (nx : ℚ)) L mem 0 0 1)
  have iv := (rankInterior_spec expf nx (L / (nx : ℚ)) (L / (nx : ℚ)) L mem 0 0 1).2
  refine ⟨fun i h1 h2 => ?_, fun j h1 h2 => ?_⟩
  · obtain ⟨c0, _, cn, _⟩ := gcol i h1 h2
    have l := c0 rfl
    have r := cn rfl
    have e1 := gi i 1 h1 h2 (le_refl 1) hnx
    have en := gi i nx h1 h2 hnx (le_refl nx)
    have v1 := iv i 1 h1 h2 (le_refl 1) hnx
    have vn := iv i nx h1 h2 hnx (le_refl nx)
    refine ⟨⟨by rw [l.1, e1.1], by rw [l.2.1, e1.2.1, v1.2.1]; simp,
      by rw [l.2.2, e1.2.2, v1.2.2]⟩,
      ⟨by rw [r.1, en.1], by rw [r.2.1, en.2.1, vn.2.1]; simp, by rw [r.2.2, en.2.2, vn.2.2]⟩⟩
  · obtain ⟨c0, _, cn, _⟩ := grow j h1 h2
    have b := c0 rfl
    have u := cn rfl
    have e1 := gi 1 j (le_refl 1) hnx h1 h2
    have en := gi nx j hnx (le_refl nx) h1 h2
    have v1 := iv 1 j (le_refl 1) hnx h1 h2
    have vn := iv nx j hnx (le_refl nx) h1 h2
    refine ⟨⟨by rw [b.1, e1.1], by rw [b.2.1, e1.2.1, v1.2.1],
      by rw [b.2.2, e1.2.2, v1.2.2]; simp⟩,
      ⟨by rw [u.1, en.1], by rw [u.2.1, en.2.1, vn.2.1], by rw [u.2.2, en.2.2, vn.2.2]; simp⟩⟩

/-- The node coordinates of the whole grid are antisymmetric about its centre. -/
theorem nodeCoord_mirror (L : ℚ) (nx k : Nat) (hk : k < nx) :
    nodeCoord L (L / (nx : ℚ)) 0 1 (nx - 1 - k) = - nodeCoord L (L / (nx : ℚ)) 0 1 k := by
  have hne : (nx : ℚ) ≠ 0 := by
    have : 0 < nx := by omega
    exact_mod_cast this.ne'
  have hc : ((nx - 1 - k : Nat) : ℚ) = (nx : ℚ) - 1 - (k : ℚ) := by
    have h1 : k + 1 ≤ nx := hk
    rw [Nat.sub_sub, Nat.cast_sub (by omega)]
    push_cast
    ring
  unfold nodeCoord
  rw [hc]
  field_simp
  ring

/-- The bump is even in each argument. -/
theorem bump_neg (expf : ℚ → ℚ) (xx yy : ℚ) :
    bump expf (-xx) yy = bump expf xx yy ∧ bump expf xx (-yy) = bump expf xx yy := by
  unfold bump
  constructor
  · congr 3
    ring
  · congr 3
    ring

/-- With one process the initial state has both mirror symmetries. -/
theorem mainInit_single_mirror (expf : ℚ → ℚ) (nx : Nat) (hnx : 1 ≤ nx) (L : ℚ)
    (mem : Arrays) :
    MirrorLR nx nx (mainInit expf 0 1 nx L mem) ∧ MirrorBT nx nx (mainInit expf 0 1 nx L mem) := by
  have hr := mainInit_single_reflective expf nx hnx L mem
  constructor
  · refine mirrorLR_of_interior nx nx hnx hnx _ hr ?_
    intro i j hi1 hi2 hj1 hj2
    obtain ⟨a1, a2, a3⟩ := mainInit_single_interior expf nx L mem i j hi1 hi2 hj1 hj2
    obtain ⟨b1, b2, b3⟩ := mainInit_single_interior expf nx L mem i (nx + 1 - j) hi1 hi2
      (by omega) (by omega)
    have e : nx + 1 - j - 1 = nx - 1 - (j - 1) := by omega
    rw [a1, a2, a3, b1, b2, b3, e, nodeCoord_mirror L nx (j - 1) (by omega), (bump_neg _ _ _).1]
    simp
  · refine mirrorBT_of_interior nx nx hnx hnx _ hr ?_
    intro i j hi1 hi2 hj1 hj2
    obtain ⟨a1, a2, a3⟩ := mainInit_single_interior expf nx L mem i j hi1 hi2 hj1 hj2
    obtain ⟨b1, b2, b3⟩ := mainInit_single_interior expf nx L mem (nx + 1 - i) j
      (by omega) (by omega) hj1 hj2
    have e : nx + 1 - i - 1 = nx - 1 - (i - 1) := by omega
    rw [a1, a2, a3, b1, b2, b3, e, nodeCoord_mirror L nx (i - 1) (by omega), (bump_neg _ _ _).2]
    simp

/-- Running the time loop: if the loop condition holds before each of the first
`n` passes and fails after them, then with more than `n` units of fuel the
loop returns after exactly `n` passes. -/
theorem timeLoop_run (nx ny : Nat) (dt tf lx ly : ℚ) :
    ∀ (n fuel : Nat) (st : LoopState),
      (∀ m : Nat, m < n → st.time + (m : ℚ) * dt < tf) →
      ¬ (st.time + (n : ℚ) * dt < tf) → n < fuel →
      timeLoop nx ny dt tf lx ly fuel st
        = some { time := st.time + (n : ℚ) * dt, k := st.k + n,
                 a := (timeStep nx ny lx ly)^[n] st.a } := by
  intro n
  induction n with
  | zero =>
    intro fuel st _ hstop hfuel
    obtain ⟨f, rfl⟩ : ∃ f, fuel = f + 1 := ⟨fuel - 1, by omega⟩
    have hstop2 : ¬ (st.time < tf) := by simpa using hstop
    simp [timeLoop, hstop2]
  | succ n ih =>
    intro fuel st hrun hstop hfuel
    obtain ⟨f, rfl⟩ : ∃ f, fuel = f + 1 := ⟨fuel - 1, by omega⟩
    have h0 : st.time < tf := by simpa using hrun 0 (Nat.succ_pos n)
    have hrec := ih f
      { time := st.time + dt, k := st.k + 1, a := timeStep nx ny lx ly st.a }
      (fun m hm => by
        have := hrun (m + 1) (by omega)
        push_cast at this
        simp only
        linarith)
      (by
        intro hlt
        apply hstop
        push_cast
        simp only at hlt
        linarith)
      (by omega)
    simp only [timeLoop, h0, if_true]
    rw [hrec]
    simp only [Function.iterate_succ_apply]
    congr 2
    · push_cast
      ring
    · omega

/-- C2 (boundary reflection).  On a single-process square grid with `nx = ny ≥ 1`,
whatever state `t` the boundary pass receives, after the pass every non-corner
ghost obeys the reflective rule (left and right ghosts copy `h` and `vh` and
negate `uh` of columns 1 and `nx`; bottom and top ghosts copy `h` and `uh` and
negate `vh` of rows 1 and `ny`), each ghost holds the value its own loop took
from the interior of `t`, and no interior cell is changed; the state at the end
of a time step is such a state. -/
theorem C2_boundary_reflection (nx : Nat) (hnx : 1 ≤ nx) (t : Arrays) :
    Reflective nx nx (applyBoundary nx nx t) ∧
    (∀ i j, 1 ≤ i → i ≤ nx → 1 ≤ j → j ≤ nx →
      (applyBoundary nx nx t).h (ID_2D i j nx) = t.h (ID_2D i j nx) ∧
      (applyBoundary nx nx t).uh (ID_2D i j nx) = t.uh (ID_2D i j nx) ∧
      (applyBoundary nx nx t).vh (ID_2D i j nx) = t.vh (ID_2D i j nx)) ∧
    (∀ i, 1 ≤ i → i ≤ nx →
      ((applyBoundary nx nx t).h (ID_2D i 0 nx) = t.h (ID_2D i 1 nx) ∧
        (applyBoundary nx nx t).uh (ID_2D i 0 nx) = - t.uh (ID_2D i 1 nx) ∧
        (applyBoundary nx nx t).vh (ID_2D i 0 nx) = t.vh (ID_2D i 1 nx)) ∧
      ((applyBoundary nx nx t).h (ID_2D i (nx + 1) nx) = t.h (ID_2D i nx nx) ∧
        (applyBoundary nx nx t).uh (ID_2D i (nx + 1) nx) = - t.uh (ID_2D i nx nx) ∧
        (applyBoundary nx nx t).vh (ID_2D i (nx + 1) nx) = t.vh (ID_2D i nx nx))) ∧
    (∀ j, 1 ≤ j → j ≤ nx →
      ((applyBoundary nx nx t).h (ID_2D 0 j nx) = t.h (ID_2D 1 j nx) ∧
        (applyBoundary nx nx t).uh (ID_2D 0 j nx) = t.uh (ID_2D 1 j nx) ∧
        (applyBoundary nx nx t).vh (ID_2D 0 j nx) = - t.vh (ID_2D 1 j nx)) ∧
      ((applyBoundary nx nx t).h (ID_2D (nx + 1) j nx) = t.h (ID_2D nx j nx) ∧
        (applyBoundary nx nx t).uh (ID_2D (nx + 1) j nx) = t.uh (ID_2D nx j nx) ∧
        (applyBoundary nx nx t).vh (ID_2D (nx + 1) j nx) = - t.vh (ID_2D nx j nx))) ∧
    (∀ (lambda_x lambda_y : ℚ) (s : Arrays),
      Reflective nx nx (timeStep nx nx lambda_x lambda_y s)) :=
  ⟨applyBoundary_reflective nx nx hnx hnx t,
    fun i j h1 h2 h3 h4 => applyBoundary_interior nx nx t i j h1 h2 h3 h4,
    (applyBoundary_spec nx nx hnx hnx t).2.1,
    (applyBoundary_spec nx nx hnx hnx t).2.2,
    fun lx ly s => timeStep_reflective nx nx hnx hnx lx ly s⟩

/-- Witness for C2 on the 1 by 1 grid with constant height. -/
theorem C2_boundary_reflection_witness :
    1 ≤ 1 ∧ Reflective 1 1 (applyBoundary 1 1 (constArrays 1)) :=
  ⟨le_refl 1, (C2_boundary_reflection 1 (le_refl 1) (constArrays 1)).1⟩

/-- C3 (Lax-Friedrichs update).  In a single-process run, for every pre-step
state `s` and every interior cell `(i, j)`, `1 ≤ i ≤ ny`, `1 ≤ j ≤ nx`, the
values of `h`, `uh`, `vh` at `(i, j)` after one pass of the time loop are
the mean of the four neighbours minus `lambda_x` times the difference of `F`
right and left minus `lambda_y` times the difference of `G` top and bottom,
with `lambda_x = 0.5*dt/dx`, `lambda_y = 0.5*dt/dy`, `F = (uh, uh*uh/h +
0.5*g*h*h, uh*vh/h)` and `G = (vh, uh*vh/h, vh*vh/h + 0.5*g*h*h)`, all taken on
the pre-step state `s`.  Division is total here, so the identity needs no
assumption on `h`; where `h ≠ 0` at the cells read the quotients are the
ordinary ones. -/
theorem C3_lax_friedrichs_update (nx ny : Nat) (dt dx dy : ℚ) (s : Arrays) (i j : Nat)
    (hi1 : 1 ≤ i) (hi2 : i ≤ ny) (hj1 : 1 ≤ j) (hj2 : j ≤ nx) :
    (timeStep nx ny (1 / 2 * dt / dx) (1 / 2 * dt / dy) s).h (ID_2D i j nx)
      = laxFriedrichs nx (1 / 2 * dt / dx) (1 / 2 * dt / dy) s.h s.uh s.vh i j ∧
    (timeStep nx ny (1 / 2 * dt / dx) (1 / 2 * dt / dy) s).uh (ID_2D i j nx)
      = laxFriedrichs nx (1 / 2 * dt / dx) (1 / 2 * dt / dy) s.uh (specFuh s) (specFvh s) i j ∧
    (timeStep nx ny (1 / 2 * dt / dx) (1 / 2 * dt / dy) s).vh (ID_2D i j nx)
      = laxFriedrichs nx (1 / 2 * dt / dx) (1 / 2 * dt / dy) s.vh (specFvh s) (specGvh s) i j :=
  timeStep_interior nx ny _ _ s i j hi1 hi2 hj1 hj2

/-- Witness for C3 at the only interior cell of the 1 by 1 grid. -/
theorem C3_lax_friedrichs_update_witness :
    (1 ≤ 1 ∧ 1 ≤ 1) ∧
    (timeStep 1 1 (1 / 2 * (1 / 10) / 1) (1 / 2 * (1 / 10) / 1) (constArrays 1)).h (ID_2D 1 1 1)
      = laxFriedrichs 1 (1 / 2 * (1 / 10) / 1) (1 / 2 * (1 / 10) / 1)
          (constArrays 1).h (constArrays 1).uh (constArrays 1).vh 1 1 :=
  ⟨⟨le_refl 1, le_refl 1⟩,
    (C3_lax_friedrichs_update 1 1 (1 / 10) 1 1 (constArrays 1) 1 1 (le_refl 1) (le_refl 1)
      (le_refl 1) (le_refl 1)).1⟩

/-- C7 (time-loop step count).  For every `dt > 0` and every `t_final`, in exact
arithmetic the loop `while (time < t_final)` terminates: there is `K`, the least
natural number with `K*dt ≥ t_final`, such that with any fuel above `K` the loop
returns with `time = K*dt`, step counter `k = K` and the arrays after exactly
`K` passes of the body; `K = 0` when `t_final ≤ 0`, and when `t_final > 0`
the final time satisfies `t_final ≤ time < t_final + dt`. -/
theorem C7_time_loop_step_count (nx ny : Nat) (dt t_final lambda_x lambda_y : ℚ) (a : Arrays)
    (hdt : 0 < dt) :
    ∃ K : Nat, IsLeast {k : Nat | t_final ≤ (k : ℚ) * dt} K ∧
      (∀ fuel, K < fuel →
        timeLoop nx ny dt t_final lambda_x lambda_y fuel { time := 0, k := 0, a := a }
          = some { time := (K : ℚ) * dt, k := K,
                   a := (timeStep nx ny lambda_x lambda_y)^[K] a }) ∧
      (t_final ≤ 0 → K = 0) ∧
      (0 < t_final → t_final ≤ (K : ℚ) * dt ∧ (K : ℚ) * dt < t_final + dt) := by
  have hK : ∀ k : Nat, t_final ≤ (k : ℚ) * dt ↔ ⌈t_final / dt⌉₊ ≤ k := by
    intro k
    rw [Nat.ceil_le, div_le_iff₀ hdt]
  refine ⟨⌈t_final / dt⌉₊, ⟨(hK _).2 (le_refl _), fun k hk => (hK k).1 hk⟩, ?_, ?_, ?_⟩
  · intro fuel hfuel
    have := timeLoop_run nx ny dt t_final lambda_x lambda_y ⌈t_final / dt⌉₊ fuel
      { time := 0, k := 0, a := a }
      (fun m hm => by
        have : ¬ (t_final ≤ (m : ℚ) * dt) := fun h => absurd ((hK m).1 h) (by omega)
        simp only [zero_add]
        exact lt_of_not_le this)
      (by
        simp only [zero_add]
        exact not_lt.2 ((hK _).2 (le_refl _)))
      hfuel
    simpa using this
  · intro htf
    have : t_final / dt ≤ 0 := div_nonpos_of_nonpos_of_nonneg htf hdt.le
    exact Nat.ceil_eq_zero.2 this
  · intro htf
    refine ⟨(hK _).2 (le_refl _), ?_⟩
    have hpos : 0 < t_final / dt := div_pos htf hdt
    have hlt : (⌈t_final / dt⌉₊ : ℚ) < t_final / dt + 1 := Nat.ceil_lt_add_one hpos.le
    have := mul_lt_mul_of_pos_right hlt hdt
    rw [add_mul, div_mul_cancel₀ _ hdt.ne', one_mul] at this
    exact this

/-- Witness for C7 with `dt = 1/10` and `t_final = 1/2`. -/
theorem C7_time_loop_step_count_witness :
    (0 : ℚ) < 1 / 10 ∧
    ∃ K : Nat, IsLeast {k : Nat | (1 / 2 : ℚ) ≤ (k : ℚ) * (1 / 10)} K ∧
      (∀ fuel, K < fuel →
        timeLoop 1 1 (1 / 10) (1 / 2) (1 / 20) (1 / 20) fuel
            { time := 0, k := 0, a := constArrays 1 }
          = some { time := (K : ℚ) * (1 / 10), k := K,
                   a := (timeStep 1 1 (1 / 20) (1 / 20))^[K] (constArrays 1) }) ∧
      ((1 / 2 : ℚ) ≤ 0 → K = 0) ∧
      ((0 : ℚ) < 1 / 2 → (1 / 2 : ℚ) ≤ (K : ℚ) * (1 / 10) ∧
        (K : ℚ) * (1 / 10) < 1 / 2 + 1 / 10) :=
  ⟨by norm_num,
    C7_time_loop_step_count 1 1 (1 / 10) (1 / 2) (1 / 20) (1 / 20) (constArrays 1) (by norm_num)⟩

/-- Both mirror symmetries survive any number of steps. -/
theorem iterate_mirror (nx ny : Nat) (hnx : 1 ≤ nx) (hny : 1 ≤ ny) (lx ly : ℚ) (s : Arrays)
    (h1 : MirrorLR nx ny s) (h2 : MirrorBT nx ny s) (n : Nat) :
    MirrorLR nx ny ((timeStep nx ny lx ly)^[n] s) ∧
    MirrorBT nx ny ((timeStep nx ny lx ly)^[n] s) := by
  induction n with
  | zero => exact ⟨h1, h2⟩
  | succ n ih =>
    rw [Function.iterate_succ_apply']
    exact ⟨timeStep_mirrorLR nx ny hnx hny lx ly _ ih.1,
      timeStep_mirrorBT nx ny hnx hny lx ly _ ih.2⟩

/-- Reflective ghosts and the interior sum of the height survive any number of
steps. -/
theorem iterate_totalHeight (nx ny : Nat) (hnx : 1 ≤ nx) (hny : 1 ≤ ny) (lx ly : ℚ)
    (s : Arrays) (hs : Reflective nx ny s) (n : Nat) :
    Reflective nx ny ((timeStep nx ny lx ly)^[n] s) ∧
    totalHeight nx ny ((timeStep nx ny lx ly)^[n] s).h = totalHeight nx ny s.h := by
  induction n with
  | zero => exact ⟨hs, rfl⟩
  | succ n ih =>
    rw [Function.iterate_succ_apply']
    exact ⟨timeStep_reflective nx ny hnx hny lx ly _,
      (timeStep_totalHeight nx ny lx ly _ ih.1).trans ih.2⟩

/-- C8 (symmetry preservation).  In a single-process run on a square grid with
`nx = ny ≥ 1`: a state that is left-right mirror-symmetric (`h` and `vh` even,
`uh` odd under `j ↦ nx+1-j`) on the interior and edge ghosts is so again
after one full step, and likewise for the bottom-top mirror with `uh` and `vh`
exchanged; the same holds when the symmetry is asked of the corner ghosts too;
the state the initial conditions produce has both symmetries (its corner ghosts
are never written, so they are left out), and therefore the height field is
symmetric both ways after every number of steps. -/
theorem C8_symmetry_preservation (nx : Nat) (hnx : 1 ≤ nx) (lambda_x lambda_y : ℚ) :
    (∀ s, MirrorLR nx nx s → MirrorLR nx nx (timeStep nx nx lambda_x lambda_y s)) ∧
    (∀ s, MirrorBT nx nx s → MirrorBT nx nx (timeStep nx nx lambda_x lambda_y s)) ∧
    (∀ s, MirrorLRAll nx nx s → MirrorLRAll nx nx (timeStep nx nx lambda_x lambda_y s)) ∧
    (∀ s, MirrorBTAll nx nx s → MirrorBTAll nx nx (timeStep nx nx lambda_x lambda_y s)) ∧
    (∀ (expf : ℚ → ℚ) (x_length : ℚ) (mem : Arrays),
      MirrorLR nx nx (mainInit expf 0 1 nx x_length mem) ∧
      MirrorBT nx nx (mainInit expf 0 1 nx x_length mem)) ∧
    (∀ (expf : ℚ → ℚ) (x_length : ℚ) (mem : Arrays) (n i j : Nat),
      1 ≤ i → i ≤ nx → 1 ≤ j → j ≤ nx →
      ((timeStep nx nx lambda_x lambda_y)^[n] (mainInit expf 0 1 nx x_length mem)).h
          (ID_2D i (nx + 1 - j) nx)
        = ((timeStep nx nx lambda_x lambda_y)^[n] (mainInit expf 0 1 nx x_length mem)).h
          (ID_2D i j nx) ∧
      ((timeStep nx nx lambda_x lambda_y)^[n] (mainInit expf 0 1 nx x_length mem)).h
          (ID_2D (nx + 1 - i) j nx)
        = ((timeStep nx nx lambda_x lambda_y)^[n] (mainInit expf 0 1 nx x_length mem)).h
          (ID_2D i j nx)) := by
  refine ⟨fun s hs => timeStep_mirrorLR nx nx hnx hnx _ _ s hs,
    fun s hs => timeStep_mirrorBT nx nx hnx hnx _ _ s hs,
    fun s hs => timeStep_mirrorLRAll nx nx hnx hnx _ _ s hs,
    fun s hs => timeStep_mirrorBTAll nx nx hnx hnx _ _ s hs,
    fun expf L mem => mainInit_single_mirror expf nx hnx L mem, ?_⟩
  intro expf L mem n i j hi1 hi2 hj1 hj2
  obtain ⟨m1, m2⟩ := mainInit_single_mirror expf nx hnx L mem
  obtain ⟨k1, k2⟩ := iterate_mirror nx nx hnx hnx lambda_x lambda_y _ m1 m2 n
  exact ⟨(k1 i j ⟨by omega, by omega, Or.inl ⟨hi1, hi2⟩⟩).1,
    (k2 i j ⟨by omega, by omega, Or.inl ⟨hi1, hi2⟩⟩).1⟩

/-- Witness for C8 on the 1 by 1 grid. -/
theorem C8_symmetry_preservation_witness :
    1 ≤ 1 ∧ MirrorLR 1 1 (mainInit (fun _ => 1) 0 1 1 10 (constArrays 0)) ∧
      MirrorBT 1 1 (mainInit (fun _ => 1) 0 1 1 10 (constArrays 0)) :=
  ⟨le_refl 1, (C8_symmetry_preservation 1 (le_refl 1) (1 / 20) (1 / 20)).2.2.2.2.1
    (fun _ => 1) 10 (constArrays 0)⟩

/-- C9 (mass bound).  In a single-process run on a square grid with
`nx = ny ≥ 1` whose edge ghosts obey the reflective rule at the start of a
step, the sum of `h` over the interior after the step equals the sum before
it, so it does not exceed it; the ghosts are reflective again after the step,
so the sum keeps its value over any number of steps; the state the initial
conditions produce has reflective ghosts, so from there the total height stays
at its initial value. -/
theorem C9_mass_bound (nx : Nat) (hnx : 1 ≤ nx) (lambda_x lambda_y : ℚ) (s : Arrays)
    (hs : Reflective nx nx s) :
    totalHeight nx nx (timeStep nx nx lambda_x lambda_y s).h = totalHeight nx nx s.h ∧
    totalHeight nx nx (timeStep nx nx lambda_x lambda_y s).h ≤ totalHeight nx nx s.h ∧
    Reflective nx nx (timeStep nx nx lambda_x lambda_y s) ∧
    (∀ n : Nat, totalHeight nx nx ((timeStep nx nx lambda_x lambda_y)^[n] s).h
      = totalHeight nx nx s.h) ∧
    (∀ (expf : ℚ → ℚ) (x_length : ℚ) (mem : Arrays) (n : Nat),
      Reflective nx nx (mainInit expf 0 1 nx x_length mem) ∧
      totalHeight nx nx
          ((timeStep nx nx lambda_x lambda_y)^[n] (mainInit expf 0 1 nx x_length mem)).h
        = totalHeight nx nx (mainInit expf 0 1 nx x_length mem).h) :=
  ⟨timeStep_totalHeight nx nx _ _ s hs,
    le_of_eq (timeStep_totalHeight nx nx _ _ s hs),
    timeStep_reflective nx nx hnx hnx _ _ s,
    fun n => (iterate_totalHeight nx nx hnx hnx _ _ s hs n).2,
    fun expf L mem n => ⟨mainInit_single_reflective expf nx hnx L mem,
      (iterate_totalHeight nx nx hnx hnx _ _ _
        (mainInit_single_reflective expf nx hnx L mem) n).2⟩⟩

/-- The constant state has reflective ghosts. -/
theorem constArrays_reflective (nx ny : Nat) (c : ℚ) : Reflective nx ny (constArrays c) := by
  refine ⟨fun i _ _ => ?_, fun j _ _ => ?_⟩ <;> simp [constArrays]

/-- Witness for C9 on the 1 by 1 grid with constant height. -/
theorem C9_mass_bound_witness :
    1 ≤ 1 ∧ Reflective 1 1 (constArrays 1) ∧
    totalHeight 1 1 (timeStep 1 1 (1 / 20) (1 / 20) (constArrays 1)).h
      = totalHeight 1 1 (constArrays 1).h :=
  ⟨le_refl 1, constArrays_reflective 1 1 1,
    (C9_mass_bound 1 (le_refl 1) (1 / 20) (1 / 20) (constArrays 1)
      (constArrays_reflective 1 1 1)).1⟩

/-- Two numbers below `M` are recovered from `a * M + b`. -/
theorem mul_add_inj {M a b a2 b2 : Nat} (hb : b < M) (hb2 : b2 < M)
    (h : a * M + b = a2 * M + b2) : a = a2 ∧ b = b2 := by
  have hpos : 0 < M := by omega
  have e1 : (a * M + b) / M = a := by
    rw [Nat.add_comm, Nat.add_mul_div_right _ _ hpos, Nat.div_eq_of_lt hb, Nat.zero_add]
  have e2 : (a2 * M + b2) / M = a2 := by
    rw [Nat.add_comm, Nat.add_mul_div_right _ _ hpos, Nat.div_eq_of_lt hb2, Nat.zero_add]
  have ha : a = a2 := by rw [← e1, ← e2, h]
  subst ha
  exact ⟨rfl, by omega⟩

/-- The output position is the row-major position of the global cell
`((p%q)*N_loc + j, (p/q)*N_loc + i)` in an array of side `N_loc*q`. -/
theorem id_write_eq (q N_loc p j i : Nat) :
    id_write q N_loc p j i = ((p % q) * N_loc + j) * (N_loc * q) + ((p / q) * N_loc + i) := by
  unfold id_write
  ring

/-- Inside the box both global coordinates stay below the side of the array. -/
theorem id_write_coords {q N_loc p j i : Nat} (hq : 1 ≤ q) (hp : p < q * q) (hj : j < N_loc)
    (hi : i < N_loc) :
    (p % q) * N_loc + j < N_loc * q ∧ (p / q) * N_loc + i < N_loc * q := by
  have h1 : p % q < q := Nat.mod_lt _ (by omega)
  have h2 : p / q < q := Nat.div_lt_of_lt_mul hp
  have e1 : (p % q) * N_loc + N_loc ≤ N_loc * q := by
    calc (p % q) * N_loc + N_loc = (p % q + 1) * N_loc := by ring
      _ ≤ q * N_loc := Nat.mul_le_mul_right _ h1
      _ = N_loc * q := Nat.mul_comm _ _
  have e2 : (p / q) * N_loc + N_loc ≤ N_loc * q := by
    calc (p / q) * N_loc + N_loc = (p / q + 1) * N_loc := by ring
      _ ≤ q * N_loc := Nat.mul_le_mul_right _ h2
      _ = N_loc * q := Nat.mul_comm _ _
  omega

/-- No output position falls outside the array. -/
theorem id_write_lt {q N_loc p j i : Nat} (hq : 1 ≤ q) (hp : p < q * q) (hj : j < N_loc)
    (hi : i < N_loc) : id_write q N_loc p j i < (q * N_loc) * (q * N_loc) := by
  obtain ⟨ha, hb⟩ := id_write_coords hq hp hj hi
  rw [id_write_eq, Nat.mul_comm q N_loc]
  calc ((p % q) * N_loc + j) * (N_loc * q) + ((p / q) * N_loc + i)
      < ((p % q) * N_loc + j) * (N_loc * q) + N_loc * q := by omega
    _ = ((p % q) * N_loc + j + 1) * (N_loc * q) := by ring
    _ ≤ (N_loc * q) * (N_loc * q) := Nat.mul_le_mul_right _ ha

/-- Two triples of the box with the same output position are equal. -/
theorem id_write_inj {q N_loc p j i p2 j2 i2 : Nat} (hq : 1 ≤ q)
    (hp : p < q * q) (hj : j < N_loc) (hi : i < N_loc)
    (hp2 : p2 < q * q) (hj2 : j2 < N_loc) (hi2 : i2 < N_loc)
    (h : id_write q N_loc p j i = id_write q N_loc p2 j2 i2) : p = p2 ∧ j = j2 ∧ i = i2 := by
  obtain ⟨_, hb⟩ := id_write_coords hq hp hj hi
  obtain ⟨_, hb2⟩ := id_write_coords hq hp2 hj2 hi2
  rw [id_write_eq, id_write_eq] at h
  obtain ⟨ea, eb⟩ := mul_add_inj hb hb2 h
  obtain ⟨ex, ej⟩ := mul_add_inj hj hj2 ea
  obtain ⟨ey, ei⟩ := mul_add_inj hi hi2 eb
  refine ⟨?_, ej, ei⟩
  rw [← Nat.div_add_mod p q, ← Nat.div_add_mod p2 q, ex, ey]

/-- Every position of the array is the output position of a triple of the box. -/
theorem id_write_surj {q N_loc k : Nat} (hq : 1 ≤ q) (hN : 1 ≤ N_loc)
    (hk : k < (q * N_loc) * (q * N_loc)) :
    ∃ p j i, p < q * q ∧ j < N_loc ∧ i < N_loc ∧ id_write q N_loc p j i = k := by
  have hM : 0 < N_loc * q := Nat.mul_pos (by omega) (by omega)
  have hk2 : k < (N_loc * q) * (N_loc * q) := by rwa [Nat.mul_comm N_loc q]
  have ha : k / (N_loc * q) < N_loc * q := Nat.div_lt_of_lt_mul hk2
  have hb : k % (N_loc * q) < N_loc * q := Nat.mod_lt _ hM
  have hcx : k / (N_loc * q) / N_loc < q := Nat.div_lt_of_lt_mul ha
  have hcy : k % (N_loc * q) / N_loc < q := Nat.div_lt_of_lt_mul hb
  refine ⟨(k % (N_loc * q) / N_loc) * q + k / (N_loc * q) / N_loc,
    k / (N_loc * q) % N_loc, k % (N_loc * q) % N_loc, ?_, Nat.mod_lt _ (by omega),
    Nat.mod_lt _ (by omega), ?_⟩
  · calc (k % (N_loc * q) / N_loc) * q + k / (N_loc * q) / N_loc
        < (k % (N_loc * q) / N_loc) * q + q := by omega
      _ = (k % (N_loc * q) / N_loc + 1) * q := by ring
      _ ≤ q * q := Nat.mul_le_mul_right _ hcy
  · have e1 : ((k % (N_loc * q) / N_loc) * q + k / (N_loc * q) / N_loc) % q
        = k / (N_loc * q) / N_loc := by
      rw [Nat.add_comm, Nat.add_mul_mod_self_right, Nat.mod_eq_of_lt hcx]
    have e2 : ((k % (N_loc * q) / N_loc) * q + k / (N_loc * q) / N_loc) / q
        = k % (N_loc * q) / N_loc := by
      rw [Nat.add_comm, Nat.add_mul_div_right _ _ (by omega : 0 < q), Nat.div_eq_of_lt hcx,
        Nat.zero_add]
    rw [id_write_eq, e1, e2]
    have d1 := Nat.div_add_mod (k / (N_loc * q)) N_loc
    have d2 := Nat.div_add_mod (k % (N_loc * q)) N_loc
    have d3 := Nat.div_add_mod k (N_loc * q)
    rw [Nat.mul_comm (k / (N_loc * q) / N_loc) N_loc, d1,
      Nat.mul_comm (k % (N_loc * q) / N_loc) N_loc, d2, Nat.mul_comm, d3]

/-- A loop that writes one cell of one array per pass, with values that do not
depend on the array. -/
theorem writeLoop_spec (d : Nat → Nat) (v : Nat → ℚ) (lo hi : Nat) (hle : lo ≤ hi) (w0 : Field)
    (hinj : ∀ i i2, lo ≤ i → i < hi → lo ≤ i2 → i2 < hi → i ≠ i2 → d i ≠ d i2) :
    (∀ k, (∀ i, lo ≤ i → i < hi → k ≠ d i) →
      forLoop lo hi (fun i w => Function.update w (d i) (v i)) w0 k = w0 k) ∧
    (∀ i, lo ≤ i → i < hi →
      forLoop lo hi (fun i w => Function.update w (d i) (v i)) w0 (d i) = v i) := by
  have key := forLoop_induct
    (fun n (w : Field) => (∀ k, (∀ i, lo ≤ i → i < n → k ≠ d i) → w k = w0 k) ∧
      (∀ i, lo ≤ i → i < n → w (d i) = v i))
    lo hi (fun i w => Function.update w (d i) (v i)) w0 hle
    ⟨fun k _ => rfl, fun i h1 h2 => absurd h2 (by omega)⟩ ?_
  · exact key
  · intro n w hn1 hn2 ⟨hfr, hwr⟩
    refine ⟨fun k hk => ?_, fun i h1 h2 => ?_⟩
    · have hne : k ≠ d n := hk n hn1 (Nat.lt_succ_self n)
      simp only [Function.update_noteq hne]
      exact hfr k (fun i h1 h2 => hk i h1 (Nat.lt_succ_of_lt h2))
    · rcases Nat.lt_succ_iff_lt_or_eq.mp h2 with hlt | heq
      · have hne : d i ≠ d n := hinj i n h1 (by omega) hn1 hn2 (by omega)
        simp only [Function.update_noteq hne]
        exact hwr i h1 hlt
      · subst heq
        simp

/-- The unpack loops put every gathered value at its output position and write
nowhere outside the array. -/
theorem unpack_spec (q N_loc : Nat) (hq : 1 ≤ q) (u_global u_write : Field) :
    (∀ k, (q * N_loc) * (q * N_loc) ≤ k → unpack (q * q) N_loc u_global u_write k = u_write k) ∧
    ∀ p j i, p < q * q → j < N_loc → i < N_loc →
      unpack (q * q) N_loc u_global u_write (id_write q N_loc p j i)
        = u_global (id_global N_loc p j i) := by
  have key := nest_induct
    (fun w : Field => ∀ k, (q * N_loc) * (q * N_loc) ≤ k → w k = u_write k)
    (fun p j (w : Field) => ∀ i, i < N_loc →
      w (id_write q N_loc p j i) = u_global (id_global N_loc p j i))
    (fun p j => forLoop 0 N_loc (fun i w =>
      Function.update w (id_write q N_loc p j i) (u_global (id_global N_loc p j i))))
    0 (q * q) 0 N_loc u_write (Nat.zero_le _) (Nat.zero_le _) ?_ ?_ ?_ (fun k _ => rfl)
  · refine ⟨fun k hk => ?_, fun p j i hp hj hi => ?_⟩
    · have := key.1 k hk
      simpa [unpack, Nat.sqrt_eq] using this
    · have := key.2 p j (Nat.zero_le _) hp (Nat.zero_le _) hj i hi
      simpa [unpack, Nat.sqrt_eq] using this
  · intro p j w _ hp _ hj hI k hk
    obtain ⟨fr, _⟩ := writeLoop_spec (fun i => id_write q N_loc p j i)
      (fun i => u_global (id_global N_loc p j i)) 0 N_loc (Nat.zero_le _) w
      (fun i i2 _ h1 _ h2 hne e => hne (id_write_inj hq hp hj h1 hp hj h2 e).2.2)
    exact (fr k (fun i _ hi e => by
      have := id_write_lt hq hp hj hi
      omega)).trans (hI k hk)
  · intro p j w _ hp _ hj _ i hi
    obtain ⟨_, wr⟩ := writeLoop_spec (fun i => id_write q N_loc p j i)
      (fun i => u_global (id_global N_loc p j i)) 0 N_loc (Nat.zero_le _) w
      (fun i i2 _ h1 _ h2 hne e => hne (id_write_inj hq hp hj h1 hp hj h2 e).2.2)
    exact wr i (Nat.zero_le _) hi
  · intro p j p2 j2 w _ hp _ hj _ hp2 _ hj2 hne _ hG i hi
    obtain ⟨fr, _⟩ := writeLoop_spec (fun i => id_write q N_loc p2 j2 i)
      (fun i => u_global (id_global N_loc p2 j2 i)) 0 N_loc (Nat.zero_le _) w
      (fun i i2 _ h1 _ h2 hne e => hne (id_write_inj hq hp2 hj2 h1 hp2 hj2 h2 e).2.2)
    exact (fr _ (fun i2 _ hi2 e => by
      have := id_write_inj hq hp hj hi hp2 hj2 hi2 e
      omega)).trans (hG i hi)

/-- C10 (gather reassembly is a permutation).  For every `q ≥ 1` and
`N_loc ≥ 1`, with `nproc = q*q` and `N = q*N_loc`, the collector's index map
`(p, j, i) ↦ coordX*N_loc*N_loc*q + j*N_loc*q + coordY*N_loc + i`,
`coordX = p mod q`, `coordY = p div q`, is a bijection from
`{0..nproc-1} × {0..N_loc-1} × {0..N_loc-1}` onto `{0..N*N-1}`; the unpack loops
store at the position of each triple the gathered value of that triple and
store nothing at or beyond `N*N`, so every cell of the output array is written
exactly once and none is left unset. -/
theorem C10_gather_reassembly_bijection (q N_loc : Nat) (hq : 1 ≤ q) (hN : 1 ≤ N_loc) :
    Set.BijOn (fun t : Nat × Nat × Nat => id_write (Nat.sqrt (q * q)) N_loc t.1 t.2.1 t.2.2)
      {t | t.1 < q * q ∧ t.2.1 < N_loc ∧ t.2.2 < N_loc}
      {k | k < (q * N_loc) * (q * N_loc)} ∧
    (∀ (u_global u_write : Field) (p j i : Nat), p < q * q → j < N_loc → i < N_loc →
      unpack (q * q) N_loc u_global u_write (id_write q N_loc p j i)
        = u_global (id_global N_loc p j i)) ∧
    (∀ (u_global u_write : Field) (k : Nat), (q * N_loc) * (q * N_loc) ≤ k →
      unpack (q * q) N_loc u_global u_write k = u_write k) := by
  refine ⟨?_, fun ug uw => (unpack_spec q N_loc hq ug uw).2,
    fun ug uw => (unpack_spec q N_loc hq ug uw).1⟩
  rw [Nat.sqrt_eq]
  refine ⟨?_, ?_, ?_⟩
  · rintro ⟨p, j, i⟩ ⟨hp, hj, hi⟩
    exact id_write_lt hq hp hj hi
  · rintro ⟨p, j, i⟩ ⟨hp, hj, hi⟩ ⟨p2, j2, i2⟩ ⟨hp2, hj2, hi2⟩ h
    obtain ⟨e1, e2, e3⟩ := id_write_inj hq hp hj hi hp2 hj2 hi2 h
    subst e1 e2 e3
    rfl
  · intro k hk
    obtain ⟨p, j, i, hp, hj, hi, e⟩ := id_write_surj hq hN hk
    exact ⟨⟨p, j, i⟩, ⟨hp, hj, hi⟩, e⟩

/-- Witness for C10 on a 2 by 2 process grid with 3 by 3 tiles. -/
theorem C10_gather_reassembly_bijection_witness :
    1 ≤ 2 ∧ 1 ≤ 3 ∧
    Set.BijOn (fun t : Nat × Nat × Nat => id_write (Nat.sqrt (2 * 2)) 3 t.1 t.2.1 t.2.2)
      {t | t.1 < 2 * 2 ∧ t.2.1 < 3 ∧ t.2.2 < 3} {k | k < (2 * 3) * (2 * 3)} :=
  ⟨by decide, by decide, (C10_gather_reassembly_bijection 2 3 (by decide) (by decide)).1⟩

/-- The integer square roots used at the concrete process counts below. -/
theorem sqrt_two_four : Nat.sqrt 2 = 1 ∧ Nat.sqrt 4 = 2 :=
  ⟨(Nat.eq_sqrt.2 ⟨by decide, by decide⟩).symm, Nat.sqrt_eq 2⟩

/-- An exact result inside the range of `int` is what the `int` holds. -/
theorem wrapInt_eq (z : Int) (h1 : -2 ^ 31 ≤ z) (h2 : z < 2 ^ 31) : wrapInt z = z := by
  unfold wrapInt
  omega

/-- For a count that is not negative and far below the range of `size_t`, the
request is four bytes per float. -/
theorem floatBytes_eq (n : Nat) (h : n < 2 ^ 62) : floatBytes (n : Int) = 4 * n := by
  unfold floatBytes toSizeT
  omega

/-- Start-up for a resolution `nx ≥ 1` whose array size fits an `int`: the sizes
are the truncated quotients `nx / q`, every state array is requested with
`tileAlloc (nx / q) (nx / q)` floats and the spacing is `x_length / nx`. -/
theorem startup_in_range (irank nproc nx : Nat) (x_length : ℚ) (hq : 1 ≤ nproc) (hnx : 1 ≤ nx)
    (hsz : tileAlloc (nx / Nat.sqrt nproc) (nx / Nat.sqrt nproc) < 2 ^ 31) :
    startup irank nproc (nx : Int) x_length
      = StartupResult.ready
          { q := Nat.sqrt nproc, irank_x := irank % Nat.sqrt nproc,
            irank_y := irank / Nat.sqrt nproc, nx := (nx : Int), ny := (nx : Int),
            nx_loc := ((nx / Nat.sqrt nproc : Nat) : Int),
            ny_loc := ((nx / Nat.sqrt nproc : Nat) : Int),
            alloc := ((tileAlloc (nx / Nat.sqrt nproc) (nx / Nat.sqrt nproc) : Nat) : Int),
            bytes := 4 * tileAlloc (nx / Nat.sqrt nproc) (nx / Nat.sqrt nproc),
            coord_bytes := 4 * (nx / Nat.sqrt nproc),
            dx := some (x_length / (nx : ℚ)), dy := some (x_length / (nx : ℚ)) } := by
  have hq0 : Nat.sqrt nproc ≠ 0 := by
    have := Nat.sqrt_pos.2 hq
    omega
  have hnx0 : (nx : Int) ≠ 0 := by omega
  have hd : Int.tdiv (nx : Int) (Nat.sqrt nproc : Int) = ((nx / Nat.sqrt nproc : Nat) : Int) := by
    rw [Int.tdiv_eq_ediv (Int.ofNat_nonneg _) (Int.ofNat_nonneg _)]
    norm_cast
  generalize hm : nx / Nat.sqrt nproc = m at hsz hd
  have hm1 : (m + 2) * (m + 2) < 2 ^ 31 := hsz
  have hm2 : m + 2 < 2 ^ 31 := by nlinarith
  have w1 : wrapInt ((m : Int) + 2) = ((m + 2 : Nat) : Int) := by
    rw [wrapInt_eq] <;> push_cast <;> omega
  have w2 : wrapInt (((m + 2 : Nat) : Int) * ((m + 2 : Nat) : Int))
      = (((m + 2) * (m + 2) : Nat) : Int) := by
    rw [wrapInt_eq] <;> push_cast <;> nlinarith
  have b1 : floatBytes (((m + 2) * (m + 2) : Nat) : Int) = 4 * ((m + 2) * (m + 2)) :=
    floatBytes_eq _ (by omega)
  have b2 : floatBytes (m : Int) = 4 * m := floatBytes_eq _ (by omega)
  simp only [startup, if_neg hq0, if_neg hnx0, hd, w1, w2, b1, b2, tileAlloc]
  simp

/-- Start-up outside that range, on one process.  For `nx = 46339` the `int`
product `46341 * 46341` wraps to a negative number and each state array is
requested with more than `2 ^ 63` bytes; for `nx = -5` the arrays `x` and `y`
are.  In both cases every statement of start-up is executed: no test follows
the requests. -/
theorem startup_out_of_range :
    startup 0 1 46339 10
      = StartupResult.ready
          { q := 1, irank_x := 0, irank_y := 0, nx := 46339, ny := 46339, nx_loc := 46339,
            ny_loc := 46339, alloc := -2147479015, bytes := 18446744065119635556,
            coord_bytes := 185356, dx := some (10 / 46339), dy := some (10 / 46339) } ∧
    startup 0 1 (-5) 10
      = StartupResult.ready
          { q := 1, irank_x := 0, irank_y := 0, nx := -5, ny := -5, nx_loc := -5, ny_loc := -5,
            alloc := 9, bytes := 36, coord_bytes := 18446744073709551596,
            dx := some (10 / (-5)), dy := some (10 / (-5)) } := by
  constructor <;> simp [startup, Nat.sqrt_one, wrapInt, floatBytes, toSizeT]

/-- C6 as stated fails.  With `processCount = 2` the computed `q` is 1 and
`q*q ≠ processCount`, and with `processCount = 4`, `nx = 401` the side `q = 2`
does not divide `nx`; in both cases start-up executes every statement, with
`nx_loc = 401` and `nx_loc = 200`, and does not end in a configuration error. -/
theorem C6_counterexample :
    (Nat.sqrt 2 * Nat.sqrt 2 ≠ 2 ∧
      startup 0 2 401 10
        = StartupResult.ready
            { q := 1, irank_x := 0, irank_y := 0, nx := 401, ny := 401, nx_loc := 401,
              ny_loc := 401, alloc := 162409, bytes := 649636, coord_bytes := 1604,
              dx := some (10 / 401), dy := some (10 / 401) } ∧
      startup 0 2 401 10 ≠ StartupResult.configError) ∧
    (¬ (Nat.sqrt 4 ∣ 401) ∧
      startup 0 4 401 10
        = StartupResult.ready
            { q := 2, irank_x := 0, irank_y := 0, nx := 401, ny := 401, nx_loc := 200,
              ny_loc := 200, alloc := 40804, bytes := 163216, coord_bytes := 800,
              dx := some (10 / 401), dy := some (10 / 401) } ∧
      startup 0 4 401 10 ≠ StartupResult.configError) := by
  have e : Int.tdiv 401 2 = 200 := by decide
  rw [sqrt_two_four.1, sqrt_two_four.2]
  refine ⟨⟨by decide, ?_, ?_⟩, ⟨by decide, ?_, ?_⟩⟩ <;>
    simp [startup, sqrt_two_four.1, sqrt_two_four.2, wrapInt, floatBytes, toSizeT, e]

/-- C6, amended.  For every rank, every process count and every `int`
resolution `nx` (negative values and sizes whose product leaves the range of
`int` included), and every length, start-up does not end in a fatal
configuration error, whether or not `q*q = processCount` and `q` divides `nx`. -/
theorem C6_startup_never_rejects (irank nproc : Nat) (nx : Int) (x_length : ℚ) :
    startup irank nproc nx x_length ≠ StartupResult.configError := by
  by_cases hq : Nat.sqrt nproc = 0
  · simp [startup, hq]
  · simp [startup, hq]

/-- C5, the code at `processCount = 4`.  Rank 0 of the 2 by 2 grid posts one
operation per step, a send to rank 1: it receives from nobody and posts nothing
toward rank 2, while its logical neighbours are ranks 1 and 2; rank 1 posts one
receive from rank 0 and no send. -/
theorem C5_rank0_partner_set (data_size : Nat) :
    communicate data_size 0 4 = [MpiCall.send data_size Datatype.MPI_DOUBLE 1 101] ∧
    sendPeers (communicate data_size 0 4) = [1] ∧
    recvPeers (communicate data_size 0 4) = [] ∧
    logicalNeighbours 2 0 = [1, 2] ∧
    communicate data_size 1 4 = [MpiCall.recv data_size Datatype.MPI_DOUBLE 0 101] := by
  have e0 : communicate data_size 0 4 = [MpiCall.send data_size Datatype.MPI_DOUBLE 1 101] := by
    simp [communicate, sqrt_two_four.2]
  have e1 : communicate data_size 1 4 = [MpiCall.recv data_size Datatype.MPI_DOUBLE 0 101] := by
    simp [communicate, sqrt_two_four.2]
  refine ⟨e0, ?_, ?_, by decide, e1⟩
  · rw [e0]; rfl
  · rw [e0]; rfl

/-- The start of `main` on rank 0 and on rank 1 of a 2 by 2 process grid with
`nx = 2`: one interior cell per tile. -/
theorem mainInit_two_by_two (expf : ℚ → ℚ) (L : ℚ) (mem : Arrays) :
    mainInit expf 0 4 2 L mem
      = rankGhosts 1 1 0 0 2 (rankInterior expf 1 1 (L / 2) (L / 2) L mem 0 0 2) ∧
    mainInit expf 1 4 2 L mem
      = rankGhosts 1 1 1 0 2 (rankInterior expf 1 1 (L / 2) (L / 2) L mem 1 0 2) := by
  constructor <;> simp [mainInit, initial_conditions_rank, sqrt_two_four.2]

/-- C4, the code at `processCount = 4`, `nx = 2`.  When the time loop starts,
the ghost cell `(1, 2)` of rank 0 on the face it shares with rank 1 holds what
the freshly allocated array held there, whatever rank 1 holds: the initial
conditions do not write it and rank 0 posts no receive.  The cell of rank 1 on
that face holds the bump at rank 1's node, so for suitable memory contents the
two differ. -/
theorem C4_interior_face_ghost_unset (expf : ℚ → ℚ) (L : ℚ) (mem1 : Arrays) :
    (∀ mem0 : Arrays,
      (mainInit expf 0 4 2 L mem0).h (ID_2D 1 2 1) = mem0.h (ID_2D 1 2 1) ∧
      (mainInit expf 0 4 2 L mem0).uh (ID_2D 1 2 1) = mem0.uh (ID_2D 1 2 1) ∧
      (mainInit expf 0 4 2 L mem0).vh (ID_2D 1 2 1) = mem0.vh (ID_2D 1 2 1)) ∧
    (mainInit expf 1 4 2 L mem1).h (ID_2D 1 1 1)
      = bump expf (nodeCoord L (L / 2) 1 2 0) (nodeCoord L (L / 2) 0 2 0) ∧
    (∀ data_size : Nat, recvPeers (communicate data_size 0 4) = []) ∧
    (∃ mem0 : Arrays,
      (mainInit expf 0 4 2 L mem0).h (ID_2D 1 2 1) ≠ (mainInit expf 1 4 2 L mem1).h (ID_2D 1 1 1)) := by
  have hghost : ∀ mem0 : Arrays,
      (mainInit expf 0 4 2 L mem0).h (ID_2D 1 2 1) = mem0.h (ID_2D 1 2 1) ∧
      (mainInit expf 0 4 2 L mem0).uh (ID_2D 1 2 1) = mem0.uh (ID_2D 1 2 1) ∧
      (mainInit expf 0 4 2 L mem0).vh (ID_2D 1 2 1) = mem0.vh (ID_2D 1 2 1) := by
    intro mem0
    rw [(mainInit_two_by_two expf L mem0).1]
    obtain ⟨_, _, gcol⟩ := rankGhosts_spec 1 (le_refl 1) 0 0 2
      (rankInterior expf 1 1 (L / 2) (L / 2) L mem0 0 0 2)
    have e := (gcol 1 (le_refl 1) (le_refl 1)).2.2.2 (by decide)
    have v := (rankInterior_spec expf 1 (L / 2) (L / 2) L mem0 0 0 2).1 (ID_2D 1 2 1)
      (fun i j _ _ _ _ => ID_2D_ne (by omega) (by omega) (Or.inr (by omega)))
    exact ⟨e.1.trans v.1, e.2.1.trans v.2.1, e.2.2.trans v.2.2⟩
  have hnb : (mainInit expf 1 4 2 L mem1).h (ID_2D 1 1 1)
      = bump expf (nodeCoord L (L / 2) 1 2 0) (nodeCoord L (L / 2) 0 2 0) := by
    rw [(mainInit_two_by_two expf L mem1).2]
    obtain ⟨gi, _, _⟩ := rankGhosts_spec 1 (le_refl 1) 1 0 2
      (rankInterior expf 1 1 (L / 2) (L / 2) L mem1 1 0 2)
    have e := gi 1 1 (le_refl 1) (le_refl 1) (le_refl 1) (le_refl 1)
    have v := (rankInterior_spec expf 1 (L / 2) (L / 2) L mem1 1 0 2).2 1 1
      (le_refl 1) (le_refl 1) (le_refl 1) (le_refl 1)
    exact e.1.trans v.1
  refine ⟨hghost, hnb, fun ds => ?_, ?_⟩
  · simp [communicate, sqrt_two_four.2, recvPeers]
  · refine ⟨constArrays (bump expf (nodeCoord L (L / 2) 1 2 0) (nodeCoord L (L / 2) 0 2 0) + 1),
      ?_⟩
    rw [(hghost _).1, hnb]
    simp [constArrays]

/-- C1, the code at `processCount = 4`, `nx = 2`.  Start-up gives every tile
arrays of 9 floats (`nx_loc = ny_loc = 1`), while the flux pass of the time
loop, which runs over the global `nx` and `ny`, addresses the flat indices
0 to 15, among them index 15 outside the arrays; with `processCount = 1` the
arrays hold 16 floats and every index of the pass lies inside. -/
theorem C1_tile_pass_leaves_arrays :
    startup 0 4 2 10
      = StartupResult.ready
          { q := 2, irank_x := 0, irank_y := 0, nx := 2, ny := 2, nx_loc := 1, ny_loc := 1,
            alloc := 9, bytes := 36, coord_bytes := 4, dx := some (10 / 2),
            dy := some (10 / 2) } ∧
    fluxIndices 2 2 = List.range 16 ∧
    (15 ∈ fluxIndices 2 2 ∧ ¬ 15 < tileAlloc 1 1) ∧
    (tileAlloc (2 / Nat.sqrt 1) (2 / Nat.sqrt 1) = 16 ∧
      ∀ k ∈ fluxIndices 2 2, k < tileAlloc (2 / Nat.sqrt 1) (2 / Nat.sqrt 1)) := by
  refine ⟨?_, by decide, ⟨by decide, by decide⟩, ?_⟩
  · simp [startup, sqrt_two_four.2, wrapInt, floatBytes, toSizeT]
  · rw [Nat.sqrt_one]
    exact ⟨by decide, by decide⟩

/-- C13 (process-grid coordinates are a bijection).  For every `q ≥ 1` with
`processCount = q*q` the computed side is `q`; the map
`rank ↦ (coordX, coordY) = (rank mod q, rank div q)` sends `{0..q*q-1}`
one-to-one onto `{0..q-1} × {0..q-1}`, with `rank = coordY*q + coordX`; and for
`processCount = 4` the ranks 0, 1, 2, 3 get `(0,0)`, `(1,0)`, `(0,1)`, `(1,1)`. -/
theorem C13_process_grid_bijection (q : Nat) (hq : 1 ≤ q) :
    (∀ r, (processGrid r (q * q)).1 = q) ∧
    Set.BijOn (fun r => ((processGrid r (q * q)).2.1, (processGrid r (q * q)).2.2))
      {r | r < q * q} {c : Nat × Nat | c.1 < q ∧ c.2 < q} ∧
    (∀ r, r = (processGrid r (q * q)).2.2 * q + (processGrid r (q * q)).2.1) ∧
    (processGrid 0 4 = (2, 0, 0) ∧ processGrid 1 4 = (2, 1, 0) ∧
      processGrid 2 4 = (2, 0, 1) ∧ processGrid 3 4 = (2, 1, 1)) := by
  have hs : Nat.sqrt (q * q) = q := Nat.sqrt_eq q
  have h4 : Nat.sqrt 4 = 2 := Nat.sqrt_eq 2
  refine ⟨fun r => by simp [processGrid, hs], ⟨?_, ?_, ?_⟩, fun r => ?_, ?_⟩
  · intro r hr
    simp only [processGrid, hs, Set.mem_setOf_eq] at hr ⊢
    exact ⟨Nat.mod_lt _ (by omega), Nat.div_lt_of_lt_mul hr⟩
  · intro r _ r2 _ h
    simp only [processGrid, hs, Prod.mk.injEq] at h
    rw [← Nat.div_add_mod r q, ← Nat.div_add_mod r2 q, h.1, h.2]
  · rintro ⟨cx, cy⟩ ⟨hx, hy⟩
    simp only at hx hy
    refine ⟨cy * q + cx, ?_, ?_⟩
    · show cy * q + cx < q * q
      calc cy * q + cx < cy * q + q := by omega
        _ = (cy + 1) * q := by ring
        _ ≤ q * q := Nat.mul_le_mul_right _ hy
    · simp only [processGrid, hs, Prod.mk.injEq]
      constructor
      · rw [Nat.add_comm, Nat.add_mul_mod_self_right, Nat.mod_eq_of_lt hx]
      · rw [Nat.add_comm, Nat.add_mul_div_right _ _ (by omega : 0 < q), Nat.div_eq_of_lt hx,
          Nat.zero_add]
  · simp only [processGrid, hs]
    rw [Nat.mul_comm]
    exact (Nat.div_add_mod r q).symm
  · simp [processGrid, h4]

/-- Witness for C13 on the 3 by 3 process grid. -/
theorem C13_process_grid_bijection_witness :
    1 ≤ 3 ∧
    Set.BijOn (fun r => ((processGrid r (3 * 3)).2.1, (processGrid r (3 * 3)).2.2))
      {r | r < 3 * 3} {c : Nat × Nat | c.1 < 3 ∧ c.2 < 3} :=
  ⟨by decide, (C13_process_grid_bijection 3 (by decide)).2.1⟩

/-- C17 (corner ghosts do not influence the result).  In a single-process run
on a square grid, two pre-step states that hold the same `h`, `uh`, `vh` on
every interior and every non-corner ghost cell (they may differ in the four
corner ghosts, and in the buffers and flux arrays) hold the same `h`, `uh`,
`vh` on every interior and every non-corner ghost cell after one step. -/
theorem C17_corner_ghosts_no_influence (nx : Nat) (lambda_x lambda_y : ℚ) (s t : Arrays)
    (hst : AgreeOffCorners nx nx s t) :
    AgreeOffCorners nx nx (timeStep nx nx lambda_x lambda_y s)
      (timeStep nx nx lambda_x lambda_y t) := by
  have hin : ∀ i j, 1 ≤ i → i ≤ nx → 1 ≤ j → j ≤ nx →
      (timeStep nx nx lambda_x lambda_y s).h (ID_2D i j nx)
        = (timeStep nx nx lambda_x lambda_y t).h (ID_2D i j nx) ∧
      (timeStep nx nx lambda_x lambda_y s).uh (ID_2D i j nx)
        = (timeStep nx nx lambda_x lambda_y t).uh (ID_2D i j nx) ∧
      (timeStep nx nx lambda_x lambda_y s).vh (ID_2D i j nx)
        = (timeStep nx nx lambda_x lambda_y t).vh (ID_2D i j nx) := by
    intro i j hi1 hi2 hj1 hj2
    obtain ⟨a1, a2, a3⟩ := timeStep_interior nx nx lambda_x lambda_y s i j hi1 hi2 hj1 hj2
    obtain ⟨b1, b2, b3⟩ := timeStep_interior nx nx lambda_x lambda_y t i j hi1 hi2 hj1 hj2
    have HL := hst i (j - 1) ⟨by omega, by omega, Or.inl ⟨hi1, hi2⟩⟩
    have HR := hst i (j + 1) ⟨by omega, by omega, Or.inl ⟨hi1, hi2⟩⟩
    have HB := hst (i - 1) j ⟨by omega, by omega, Or.inr ⟨hj1, hj2⟩⟩
    have HT := hst (i + 1) j ⟨by omega, by omega, Or.inr ⟨hj1, hj2⟩⟩
    rw [a1, a2, a3, b1, b2, b3]
    simp only [laxFriedrichs, specFuh, specFvh, specGvh, HL.1, HL.2.1, HL.2.2, HR.1, HR.2.1,
      HR.2.2, HB.1, HB.2.1, HB.2.2, HT.1, HT.2.1, HT.2.2, and_self]
  intro i j ⟨hi, hj, hc⟩
  have hnx : 1 ≤ nx := by omega
  obtain ⟨slr, sbt⟩ := timeStep_reflective nx nx hnx hnx lambda_x lambda_y s
  obtain ⟨tlr, tbt⟩ := timeStep_reflective nx nx hnx hnx lambda_x lambda_y t
  have hic : i = 0 ∨ (1 ≤ i ∧ i ≤ nx) ∨ i = nx + 1 := by omega
  have hjc : j = 0 ∨ (1 ≤ j ∧ j ≤ nx) ∨ j = nx + 1 := by omega
  rcases hic with hi0 | ⟨hi1, hi2⟩ | hi3
  · have hj1 : 1 ≤ j ∧ j ≤ nx := by omega
    subst hi0
    obtain ⟨b, _⟩ := sbt j hj1.1 hj1.2
    obtain ⟨b2, _⟩ := tbt j hj1.1 hj1.2
    have c := hin 1 j (le_refl 1) hnx hj1.1 hj1.2
    exact ⟨by rw [b.1, b2.1, c.1], by rw [b.2.1, b2.2.1, c.2.1], by rw [b.2.2, b2.2.2, c.2.2]⟩
  · rcases hjc with hj0 | ⟨hj1, hj2⟩ | hj3
    · subst hj0
      obtain ⟨l, _⟩ := slr i hi1 hi2
      obtain ⟨l2, _⟩ := tlr i hi1 hi2
      have c := hin i 1 hi1 hi2 (le_refl 1) hnx
      exact ⟨by rw [l.1, l2.1, c.1], by rw [l.2.1, l2.2.1, c.2.1], by rw [l.2.2, l2.2.2, c.2.2]⟩
    · exact hin i j hi1 hi2 hj1 hj2
    · subst hj3
      obtain ⟨_, r⟩ := slr i hi1 hi2
      obtain ⟨_, r2⟩ := tlr i hi1 hi2
      have c := hin i nx hi1 hi2 hnx (le_refl nx)
      exact ⟨by rw [r.1, r2.1, c.1], by rw [r.2.1, r2.2.1, c.2.1], by rw [r.2.2, r2.2.2, c.2.2]⟩
  · have hj1 : 1 ≤ j ∧ j ≤ nx := by omega
    subst hi3
    obtain ⟨_, u⟩ := sbt j hj1.1 hj1.2
    obtain ⟨_, u2⟩ := tbt j hj1.1 hj1.2
    have c := hin nx j hnx (le_refl nx) hj1.1 hj1.2
    exact ⟨by rw [u.1, u2.1, c.1], by rw [u.2.1, u2.2.1, c.2.1], by rw [u.2.2, u2.2.2, c.2.2]⟩

/-- The constant state and the state with a dry corner differ only at the
corner ghost `(0, 0)`. -/
theorem constArrays_agree_dryCorner (nx : Nat) :
    AgreeOffCorners nx nx (constArrays 1) dryCornerState := by
  intro i j ⟨_, hj, hc⟩
  have hne : ID_2D i j nx ≠ 0 := by
    unfold ID_2D
    rcases hc with h | h
    · have : 0 < i * (nx + 2) := Nat.mul_pos (by omega) (by omega)
      omega
    · omega
  simp [constArrays, dryCornerState, hne]

/-- Witness for C17 on the 1 by 1 grid: the constant state against the state
with a dry corner. -/
theorem C17_corner_ghosts_no_influence_witness :
    AgreeOffCorners 1 1 (constArrays 1) dryCornerState ∧
    AgreeOffCorners 1 1 (timeStep 1 1 (1 / 20) (1 / 20) (constArrays 1))
      (timeStep 1 1 (1 / 20) (1 / 20) dryCornerState) :=
  ⟨constArrays_agree_dryCorner 1,
    C17_corner_ghosts_no_influence 1 (1 / 20) (1 / 20) (constArrays 1) dryCornerState
      (constArrays_agree_dryCorner 1)⟩

/-- A loop that appends to a list what each pass produces yields the initial
list followed by the productions in order. -/
theorem forLoop_append {α : Type} (lo hi : Nat) (f : Nat → List α) (init : List α) :
    forLoop lo hi (fun i acc => acc ++ f i) init
      = init ++ (List.range' lo (hi - lo)).flatMap f := by
  unfold forLoop
  generalize List.range' lo (hi - lo) = l
  induction l generalizing init with
  | nil => simp
  | cons a l ih => simp [ih, List.append_assoc]

/-- The indices of the flux pass are the row-major indices of all cells of the
`nx` by `ny` grid with its ghost border. -/
theorem mem_fluxIndices (nx ny k : Nat) :
    k ∈ fluxIndices nx ny ↔ ∃ i j, i < ny + 2 ∧ j < nx + 2 ∧ k = ID_2D i j nx := by
  unfold fluxIndices
  have hin : ∀ i, (fun acc : List Nat =>
      forLoop 0 (nx + 2) (fun j acc => acc ++ [ID_2D i j nx]) acc)
      = fun acc => acc ++ (List.range' 0 (nx + 2 - 0)).flatMap (fun j => [ID_2D i j nx]) := by
    intro i
    funext acc
    exact forLoop_append 0 (nx + 2) (fun j => [ID_2D i j nx]) acc
  simp only [hin, forLoop_append]
  simp only [List.nil_append, List.mem_flatMap, List.mem_range', List.mem_singleton]
  constructor
  · rintro ⟨i, ⟨a, ha, rfl⟩, j, ⟨b, hb, rfl⟩, rfl⟩
    exact ⟨_, _, by omega, by omega, rfl⟩
  · rintro ⟨i, j, hi, hj, rfl⟩
    exact ⟨i, ⟨i, by omega, by omega⟩, j, ⟨j, by omega, by omega⟩, rfl⟩

/-- With one process every index of the flux pass lies inside the arrays. -/
theorem fluxIndices_single_in_bounds (nx k : Nat) (hk : k ∈ fluxIndices nx nx) :
    k < tileAlloc (nx / Nat.sqrt 1) (nx / Nat.sqrt 1) := by
  obtain ⟨i, j, hi, hj, rfl⟩ := (mem_fluxIndices nx nx k).1 hk
  rw [Nat.sqrt_one, Nat.div_one]
  unfold ID_2D tileAlloc
  calc i * (nx + 2) + j < i * (nx + 2) + (nx + 2) := by omega
    _ = (i + 1) * (nx + 2) := by ring
    _ ≤ (nx + 2) * (nx + 2) := Nat.mul_le_mul_right _ (by omega)

/-- On a process grid of side `q ≥ 2` the last index of the flux pass lies
outside the arrays of a tile as soon as the grid has a cell. -/
theorem fluxIndices_tiled_out_of_bounds (q nx : Nat) (hq : 2 ≤ q) (hnx : 1 ≤ nx) :
    ID_2D (nx + 1) (nx + 1) nx ∈ fluxIndices nx nx ∧
    tileAlloc (nx / q) (nx / q) ≤ ID_2D (nx + 1) (nx + 1) nx := by
  refine ⟨(mem_fluxIndices nx nx _).2 ⟨nx + 1, nx + 1, by omega, by omega, rfl⟩, ?_⟩
  have hlt : nx / q < nx := Nat.div_lt_self (by omega) (by omega)
  unfold ID_2D tileAlloc
  have h1 : nx / q + 2 ≤ nx + 1 := by omega
  calc (nx / q + 2) * (nx / q + 2) ≤ (nx + 1) * (nx + 1) := Nat.mul_le_mul h1 h1
    _ ≤ (nx + 1) * (nx + 2) + (nx + 1) := by nlinarith

/-- C16, the code at `processCount = 4`, `nx = 2`.  Each tile has
`nx_loc = ny_loc = 1` and arrays of 9 floats, whose cells have the row-major
indices `i*3 + j ≤ 8`; one pass of the time loop, which runs over the global
`nx` and `ny`, reads and writes index 15, which is the index of no tile cell
and lies outside the arrays.  With `processCount = 1` every index of the pass
lies inside the 16 floats. -/
theorem C16_time_loop_leaves_tile :
    (2 / Nat.sqrt 4 = 1 ∧ tileAlloc (2 / Nat.sqrt 4) (2 / Nat.sqrt 4) = 9) ∧
    15 ∈ stepIndices 2 2 ∧ ¬ 15 < tileAlloc 1 1 ∧
    (∀ i j, i ≤ 1 + 1 → j ≤ 1 + 1 → ID_2D i j 1 ≠ 15) ∧
    (∀ k ∈ stepIndices 2 2, k < tileAlloc (2 / Nat.sqrt 1) (2 / Nat.sqrt 1)) := by
  refine ⟨?_, by decide, by decide, ?_, ?_⟩
  · rw [sqrt_two_four.2]
    exact ⟨by decide, by decide⟩
  · intro i j hi hj
    unfold ID_2D
    omega
  · rw [Nat.sqrt_one]
    decide

/-- C18, the code at `processCount = 9`.  In the first process row rank 0 posts
its send toward rank 1 with `MPI_DOUBLE`, while the only receive rank 1 posts
naming rank 0 has `MPI_FLOAT`; rank 1 posts its send toward rank 2 with
`MPI_FLOAT`, while rank 2 receives from rank 1 with `MPI_DOUBLE`.  Tag and count
agree; the datatypes do not. -/
theorem C18_matched_messages_differ_in_type (data_size : Nat) :
    communicate data_size 0 9 = [MpiCall.send data_size Datatype.MPI_DOUBLE 1 101] ∧
    communicate data_size 1 9
      = [MpiCall.send data_size Datatype.MPI_FLOAT 2 101,
         MpiCall.recv data_size Datatype.MPI_FLOAT 0 101] ∧
    communicate data_size 2 9 = [MpiCall.recv data_size Datatype.MPI_DOUBLE 1 101] ∧
    Datatype.MPI_DOUBLE ≠ Datatype.MPI_FLOAT := by
  have h9 : Nat.sqrt 9 = 3 := Nat.sqrt_eq 3
  refine ⟨?_, ?_, ?_, by decide⟩ <;> simp [communicate, h9]

/-- C11, the code at `processCount = 4`, `nx = 2`, rank 1 (`coordX = 1`,
`coordY = 0`).  The bottom face (ghost row `i = 0`) and the right face (ghost
column `j = 2`) of this tile lie on the global edge, yet after the initial
conditions their ghost cells hold what the freshly allocated arrays held: the
block that writes row 0 is behind `irank_x == 0` and the block that writes
column `nx_loc+1` behind `irank_y == q-1`.  The left ghost column, on the face
shared with rank 0, is written instead.  For suitable memory contents the
bottom ghost differs from the adjacent interior cell. -/
theorem C11_edge_faces_not_reflected (expf : ℚ → ℚ) (L : ℚ) :
    processGrid 1 4 = (2, 1, 0) ∧
    (∀ mem : Arrays,
      ((mainInit expf 1 4 2 L mem).h (ID_2D 0 1 1) = mem.h (ID_2D 0 1 1) ∧
        (mainInit expf 1 4 2 L mem).uh (ID_2D 0 1 1) = mem.uh (ID_2D 0 1 1) ∧
        (mainInit expf 1 4 2 L mem).vh (ID_2D 0 1 1) = mem.vh (ID_2D 0 1 1)) ∧
      ((mainInit expf 1 4 2 L mem).h (ID_2D 1 2 1) = mem.h (ID_2D 1 2 1) ∧
        (mainInit expf 1 4 2 L mem).uh (ID_2D 1 2 1) = mem.uh (ID_2D 1 2 1) ∧
        (mainInit expf 1 4 2 L mem).vh (ID_2D 1 2 1) = mem.vh (ID_2D 1 2 1)) ∧
      (mainInit expf 1 4 2 L mem).h (ID_2D 1 0 1) = (mainInit expf 1 4 2 L mem).h (ID_2D 1 1 1)) ∧
    (∃ mem : Arrays,
      (mainInit expf 1 4 2 L mem).h (ID_2D 0 1 1) ≠ (mainInit expf 1 4 2 L mem).h (ID_2D 1 1 1)) := by
  have hfacts : ∀ mem : Arrays,
      ((mainInit expf 1 4 2 L mem).h (ID_2D 0 1 1) = mem.h (ID_2D 0 1 1) ∧
        (mainInit expf 1 4 2 L mem).uh (ID_2D 0 1 1) = mem.uh (ID_2D 0 1 1) ∧
        (mainInit expf 1 4 2 L mem).vh (ID_2D 0 1 1) = mem.vh (ID_2D 0 1 1)) ∧
      ((mainInit expf 1 4 2 L mem).h (ID_2D 1 2 1) = mem.h (ID_2D 1 2 1) ∧
        (mainInit expf 1 4 2 L mem).uh (ID_2D 1 2 1) = mem.uh (ID_2D 1 2 1) ∧
        (mainInit expf 1 4 2 L mem).vh (ID_2D 1 2 1) = mem.vh (ID_2D 1 2 1)) ∧
      (mainInit expf 1 4 2 L mem).h (ID_2D 1 0 1) = (mainInit expf 1 4 2 L mem).h (ID_2D 1 1 1) ∧
      (mainInit expf 1 4 2 L mem).h (ID_2D 1 1 1)
        = bump expf (nodeCoord L (L / 2) 1 2 0) (nodeCoord L (L / 2) 0 2 0) := by
    intro mem
    rw [(mainInit_two_by_two expf L mem).2]
    obtain ⟨gi, grow, gcol⟩ := rankGhosts_spec 1 (le_refl 1) 1 0 2
      (rankInterior expf 1 1 (L / 2) (L / 2) L mem 1 0 2)
    obtain ⟨ifr, iv⟩ := rankInterior_spec expf 1 (L / 2) (L / 2) L mem 1 0 2
    have e0 := (grow 1 (le_refl 1) (le_refl 1)).2.1 (by decide)
    have v0 := ifr (ID_2D 0 1 1)
      (fun i j _ _ _ _ => ID_2D_ne (by omega) (by omega) (Or.inl (by omega)))
    have e2 := (gcol 1 (le_refl 1) (le_refl 1)).2.2.2 (by decide)
    have v2 := ifr (ID_2D 1 2 1)
      (fun i j _ _ _ _ => ID_2D_ne (by omega) (by omega) (Or.inr (by omega)))
    have el := (gcol 1 (le_refl 1) (le_refl 1)).1 rfl
    have ei := gi 1 1 (le_refl 1) (le_refl 1) (le_refl 1) (le_refl 1)
    have vi := iv 1 1 (le_refl 1) (le_refl 1) (le_refl 1) (le_refl 1)
    exact ⟨⟨e0.1.trans v0.1, e0.2.1.trans v0.2.1, e0.2.2.trans v0.2.2⟩,
      ⟨e2.1.trans v2.1, e2.2.1.trans v2.2.1, e2.2.2.trans v2.2.2⟩,
      el.1.trans ei.1.symm, ei.1.trans vi.1⟩
  refine ⟨by simp [processGrid, sqrt_two_four.2],
    fun mem => ⟨(hfacts mem).1, (hfacts mem).2.1, (hfacts mem).2.2.1⟩, ?_⟩
  refine ⟨constArrays (bump expf (nodeCoord L (L / 2) 1 2 0) (nodeCoord L (L / 2) 0 2 0) + 1), ?_⟩
  rw [(hfacts _).1.1, (hfacts _).2.2.2]
  simp [constArrays]

/-- With non-negative step ratios the bound keeps the height positive on the
interior after one step. -/
theorem timeStep_height_pos_interior (nx ny : Nat) (lx ly : ℚ) (hlx : 0 ≤ lx) (hly : 0 ≤ ly)
    (s : Arrays) (hs : CflBound nx ny lx ly s) (i j : Nat)
    (hi1 : 1 ≤ i) (hi2 : i ≤ ny) (hj1 : 1 ≤ j) (hj2 : j ≤ nx) :
    0 < (timeStep nx ny lx ly s).h (ID_2D i j nx) := by
  rw [(timeStep_interior nx ny lx ly s i j hi1 hi2 hj1 hj2).1]
  obtain ⟨pL, uL, _⟩ := hs i (j - 1) ⟨by omega, by omega, Or.inl ⟨hi1, hi2⟩⟩
  obtain ⟨pR, uR, _⟩ := hs i (j + 1) ⟨by omega, by omega, Or.inl ⟨hi1, hi2⟩⟩
  obtain ⟨pB, _, vB⟩ := hs (i - 1) j ⟨by omega, by omega, Or.inr ⟨hj1, hj2⟩⟩
  obtain ⟨pT, _, vT⟩ := hs (i + 1) j ⟨by omega, by omega, Or.inr ⟨hj1, hj2⟩⟩
  have e1 : lx * s.uh (ID_2D i (j + 1) nx) ≤ lx * |s.uh (ID_2D i (j + 1) nx)| :=
    mul_le_mul_of_nonneg_left (le_abs_self _) hlx
  have e2 : lx * (- s.uh (ID_2D i (j - 1) nx)) ≤ lx * |s.uh (ID_2D i (j - 1) nx)| :=
    mul_le_mul_of_nonneg_left (neg_le_abs _) hlx
  have e3 : ly * s.vh (ID_2D (i + 1) j nx) ≤ ly * |s.vh (ID_2D (i + 1) j nx)| :=
    mul_le_mul_of_nonneg_left (le_abs_self _) hly
  have e4 : ly * (- s.vh (ID_2D (i - 1) j nx)) ≤ ly * |s.vh (ID_2D (i - 1) j nx)| :=
    mul_le_mul_of_nonneg_left (neg_le_abs _) hly
  unfold laxFriedrichs
  nlinarith

/-- A number within one half of the integer `n` rounds to `n`. -/
theorem roundEven_eq (y : ℚ) (n : Int) (h1 : (n : ℚ) - 1 / 2 < y) (h2 : y < n + 1 / 2) :
    roundEven y = n := by
  unfold roundEven
  rcases le_or_lt (n : ℚ) y with h | h
  · have hf : ⌊y⌋ = n := Int.floor_eq_iff.2 ⟨h, by linarith⟩
    rw [hf, if_pos (by linarith)]
  · have hf : ⌊y⌋ = n - 1 := Int.floor_eq_iff.2 ⟨by push_cast; linarith, by push_cast; linarith⟩
    rw [hf, if_neg (by push_cast; linarith), if_pos (by push_cast; linarith)]
    ring

/-- The binary exponent of a positive number between `2 ^ e` and `2 ^ (e + 1)`. -/
theorem log_two_eq (x : ℚ) (e : Int) (h1 : (2 : ℚ) ^ e ≤ x) (h2 : x < (2 : ℚ) ^ (e + 1)) :
    Int.log 2 x = e := by
  have hx : 0 < x := lt_of_lt_of_le (by positivity) h1
  have a := (Int.zpow_le_iff_le_log (b := 2) (by norm_num) hx).1 (by exact_mod_cast h1)
  have b := (Int.lt_zpow_iff_log_lt (b := 2) (by norm_num) hx).1 (by exact_mod_cast h2)
  omega

/-- Evaluation of the rounding: for `x` in the binade whose unit of the last
place is `2 ^ e`, and `x / 2 ^ e` within one half of the integer `n`, the stored
number is `n * 2 ^ e`. -/
theorem roundBinary_eq (p : Nat) (x : ℚ) (e n : Int) (hx : x ≠ 0)
    (h1 : (2 : ℚ) ^ (e + ((p : Int) - 1)) ≤ |x|) (h2 : |x| < (2 : ℚ) ^ (e + ((p : Int) - 1) + 1))
    (h3 : (n : ℚ) - 1 / 2 < x / 2 ^ e) (h4 : x / 2 ^ e < n + 1 / 2) :
    roundBinary p x = n * 2 ^ e := by
  unfold roundBinary
  rw [if_neg hx, log_two_eq |x| _ h1 h2]
  have he : e + ((p : Int) - 1) - ((p : Int) - 1) = e := by ring
  rw [he, roundEven_eq _ n h3 h4]

/-- The numbers 1, 2, 3, 4, `5368709 / 2 ^ 23` (the float nearest to 0.64), its
double and their negatives are floats, and so is `25 / 64`. -/
theorem toFloat_values :
    toFloat 1 = 1 ∧ toFloat 2 = 2 ∧ toFloat 3 = 3 ∧ toFloat 4 = 4 ∧
    toFloat (25 / 64) = 25 / 64 ∧
    toFloat (5368709 / 8388608) = 5368709 / 8388608 ∧
    toFloat (-(5368709 / 8388608)) = -(5368709 / 8388608) ∧
    toFloat (5368709 / 4194304) = 5368709 / 4194304 := by
  unfold toFloat
  refine ⟨?_, ?_, ?_, ?_, ?_, ?_, ?_, ?_⟩
  · rw [roundBinary_eq 24 _ (-23) 8388608 (by norm_num) (by norm_num) (by norm_num)
      (by norm_num) (by norm_num)]
    norm_num
  · rw [roundBinary_eq 24 _ (-22) 8388608 (by norm_num) (by norm_num) (by norm_num)
      (by norm_num) (by norm_num)]
    norm_num
  · rw [roundBinary_eq 24 _ (-22) 12582912 (by norm_num) (by norm_num) (by norm_num)
      (by norm_num) (by norm_num)]
    norm_num
  · rw [roundBinary_eq 24 _ (-21) 8388608 (by norm_num) (by norm_num) (by norm_num)
      (by norm_num) (by norm_num)]
    norm_num
  · rw [roundBinary_eq 24 _ (-25) 13107200 (by norm_num) (by norm_num [abs_of_pos])
      (by norm_num [abs_of_pos]) (by norm_num) (by norm_num)]
    norm_num
  · rw [roundBinary_eq 24 _ (-24) 10737418 (by norm_num) (by norm_num [abs_of_pos])
      (by norm_num [abs_of_pos]) (by norm_num) (by norm_num)]
    norm_num
  · rw [roundBinary_eq 24 _ (-24) (-10737418) (by norm_num) (by norm_num [abs_of_pos])
      (by norm_num [abs_of_pos]) (by norm_num) (by norm_num)]
    norm_num
  · rw [roundBinary_eq 24 _ (-23) 10737418 (by norm_num) (by norm_num [abs_of_pos])
      (by norm_num [abs_of_pos]) (by norm_num) (by norm_num)]
    norm_num

/-- The one operation of the update that rounds at the state below: the exact
product `25/64 * (5368709 / 2 ^ 22) = 1/2 - 3 / 2 ^ 28` is stored as `1/2`. -/
theorem toFloat_flux_product : toFloat (25 / 64 * (5368709 / 4194304)) = 1 / 2 := by
  unfold toFloat
  rw [roundBinary_eq 24 _ (-25) 16777216 (by norm_num) (by norm_num [abs_of_pos])
    (by norm_num [abs_of_pos]) (by norm_num) (by norm_num)]
  norm_num

/-- The `double` operations of the update at the state below are exact. -/
theorem toDouble_values : toDouble 1 = 1 ∧ toDouble (1 / 2) = 1 / 2 ∧ toDouble 0 = 0 := by
  unfold toDouble
  refine ⟨?_, ?_, ?_⟩
  · rw [roundBinary_eq 53 _ (-52) 4503599627370496 (by norm_num) (by norm_num) (by norm_num)
      (by norm_num) (by norm_num)]
    norm_num
  · rw [roundBinary_eq 53 _ (-53) 4503599627370496 (by norm_num) (by norm_num [abs_of_pos])
      (by norm_num [abs_of_pos]) (by norm_num) (by norm_num)]
    norm_num
  · simp [roundBinary]

/-- The state `wallState c` obeys the reflective rule on the 2 by 2 grid. -/
theorem wallState_reflective (c : ℚ) : Reflective 2 2 (wallState c) := by
  refine ⟨fun i h1 h2 => ?_, fun j h1 h2 => ?_⟩
  · have hi : i = 1 ∨ i = 2 := by omega
    rcases hi with rfl | rfl <;> simp [wallState, constArrays, ID_2D]
  · have hj : j = 1 ∨ j = 2 := by omega
    rcases hj with rfl | rfl <;> simp [wallState, constArrays, ID_2D]

/-- Every height of `wallState c` is 1 and every momentum is `c` or `-c`. -/
theorem wallState_values (c : ℚ) (k : Nat) :
    (wallState c).h k = 1 ∧ ((wallState c).uh k = c ∨ (wallState c).uh k = -c) ∧
    ((wallState c).vh k = c ∨ (wallState c).vh k = -c) := by
  refine ⟨rfl, ?_, ?_⟩
  · by_cases hk : k % 4 = 0 ∨ k % 4 = 3
    · exact Or.inr (if_pos hk)
    · exact Or.inl (if_neg hk)
  · by_cases hk : k / 4 = 0 ∨ k / 4 = 3
    · exact Or.inr (if_pos hk)
    · exact Or.inl (if_neg hk)

/-- The state `wallState c` obeys the bound of the positivity property whenever
`lambda_x * |c|` and `lambda_y * |c|` are below `1/4`. -/
theorem wallState_cflBound (nx ny : Nat) (lx ly c : ℚ) (hx : lx * |c| < 1 / 4)
    (hy : ly * |c| < 1 / 4) : CflBound nx ny lx ly (wallState c) := by
  intro i j _
  obtain ⟨eh, eu, ev⟩ := wallState_values c (ID_2D i j nx)
  have au : |(wallState c).uh (ID_2D i j nx)| = |c| := by
    rcases eu with e | e <;> rw [e]
    exact abs_neg c
  have av : |(wallState c).vh (ID_2D i j nx)| = |c| := by
    rcases ev with e | e <;> rw [e]
    exact abs_neg c
  rw [eh, au, av]
  exact ⟨by norm_num, by linarith, by linarith⟩

/-- The height stored for the interior cell `(1, 1)` by the update from
`wallState (5368709 / 2 ^ 23)` with `lambda_x = lambda_y = 25/64`, every
operation rounded to its C type, is 0.  The flux pass before it copies `uh` to
`fh` and `vh` to `gh` without rounding, and the copy-back `h[id] = hm[id]`
after it stores this number as the height. -/
theorem hmFloat_wallState :
    hmFloat 2 (25 / 64) (25 / 64) 1 1 (computeFluxes 2 2 (wallState (5368709 / 8388608))) = 0 := by
  obtain ⟨⟨eh, _, _⟩, fl⟩ := computeFluxes_spec 2 2 (wallState (5368709 / 8388608))
  have fL := fl 1 0 (by decide) (by decide)
  have fR := fl 1 2 (by decide) (by decide)
  have fB := fl 0 1 (by decide) (by decide)
  have fT := fl 2 1 (by decide) (by decide)
  have e1 : (computeFluxes 2 2 (wallState (5368709 / 8388608))).fh (ID_2D 1 (1 + 1) 2)
      - (computeFluxes 2 2 (wallState (5368709 / 8388608))).fh (ID_2D 1 (1 - 1) 2)
      = 5368709 / 4194304 := by
    rw [fR.1, fL.1]
    simp [wallState, ID_2D]
    norm_num
  have e2 : (computeFluxes 2 2 (wallState (5368709 / 8388608))).gh (ID_2D (1 + 1) 1 2)
      - (computeFluxes 2 2 (wallState (5368709 / 8388608))).gh (ID_2D (1 - 1) 1 2)
      = 5368709 / 4194304 := by
    rw [fT.2.2.2.1, fB.2.2.2.1]
    simp [wallState, ID_2D]
    norm_num
  have e3 : ∀ k, (computeFluxes 2 2 (wallState (5368709 / 8388608))).h k = 1 := by
    intro k
    rw [eh]
    rfl
  obtain ⟨f1, f2, f3, f4, _, _, _, f8⟩ := toFloat_values
  obtain ⟨d1, d2, d3⟩ := toDouble_values
  unfold hmFloat
  simp only [e1, e2, e3]
  have s2 : (1 : ℚ) + 1 = 2 := by norm_num
  have s3 : (2 : ℚ) + 1 = 3 := by norm_num
  have s4 : (3 : ℚ) + 1 = 4 := by norm_num
  have s5 : (1 : ℚ) / 4 * 4 = 1 := by norm_num
  have s6 : (1 : ℚ) - 1 / 2 = 1 / 2 := by norm_num
  have s7 : (1 : ℚ) / 2 - 1 / 2 = 0 := by norm_num
  rw [s2, f2, s3, f3, s4, f4, s5, d1, f8, toFloat_flux_product, s6, d2, s7, d3]
  simp [toFloat, roundBinary]

/-- C12 as stated fails, in three ways, each at a state that obeys the
reflective rule.  With negative step ratios (`lambda_x = lambda_y = -1`, as for
`dt = 2`, `x_length = -2`, `nx = 2`) the bound `lambda*|uh| < 0.25*h` holds for
every momentum, and from `wallState (-1)` the height of the interior cell
`(1, 1)` after the step is `-3`.  With positive ratios, from the state whose
corner ghost `(0, 0)` has `h = 0` the bound holds on all interior and non-corner
ghost cells, yet the flux pass of the next step, which visits the corner ghosts
too, divides by a height that is not positive.  And in binary32 arithmetic, with
`lambda_x = lambda_y = 25/64` and the momenta `0.64f = 5368709 / 2 ^ 23`, all of
them floats, the bound holds and the exact update of the interior cell `(1, 1)`
is positive, but the float product `lambda * (fh[id_right] - fh[id_left])` is
rounded up to `0.5`, so the height the statement of lines 243-245 stores is 0. -/
theorem C12_counterexample :
    (Reflective 2 2 (wallState (-1)) ∧ CflBound 2 2 (-1) (-1) (wallState (-1)) ∧
      (timeStep 2 2 (-1) (-1) (wallState (-1))).h (ID_2D 1 1 2) = -3) ∧
    (Reflective 1 1 dryCornerState ∧ CflBound 1 1 (1 / 20) (1 / 20) dryCornerState ∧
      ∃ d ∈ fluxDivisors 1 1 (timeStep 1 1 (1 / 20) (1 / 20) dryCornerState), d ≤ 0) ∧
    (((0 : ℚ) ≤ 25 / 64 ∧ toFloat (25 / 64) = 25 / 64 ∧
        toFloat (5368709 / 8388608) = 5368709 / 8388608 ∧
        toFloat (-(5368709 / 8388608)) = -(5368709 / 8388608) ∧ toFloat 1 = 1) ∧
      Reflective 2 2 (wallState (5368709 / 8388608)) ∧
      CflBound 2 2 (25 / 64) (25 / 64) (wallState (5368709 / 8388608)) ∧
      0 < (timeStep 2 2 (25 / 64) (25 / 64) (wallState (5368709 / 8388608))).h (ID_2D 1 1 2) ∧
      hmFloat 2 (25 / 64) (25 / 64) 1 1 (computeFluxes 2 2 (wallState (5368709 / 8388608)))
        = 0) := by
  have hb : CflBound 2 2 (25 / 64) (25 / 64) (wallState (5368709 / 8388608)) :=
    wallState_cflBound 2 2 _ _ _ (by norm_num [abs_of_pos]) (by norm_num [abs_of_pos])
  refine ⟨⟨wallState_reflective _, wallState_cflBound 2 2 _ _ _ (by norm_num) (by norm_num), ?_⟩,
    ⟨?_, ?_, ?_⟩,
    ⟨⟨by norm_num, toFloat_values.2.2.2.2.1, toFloat_values.2.2.2.2.2.1,
        toFloat_values.2.2.2.2.2.2.1, toFloat_values.1⟩,
      wallState_reflective _, hb, ?_, hmFloat_wallState⟩⟩
  · rw [(timeStep_interior 2 2 (-1) (-1) (wallState (-1)) 1 1 (le_refl 1) (by decide) (le_refl 1)
      (by decide)).1]
    simp [laxFriedrichs, wallState, constArrays, ID_2D]
    norm_num
  · refine ⟨fun i h1 h2 => ?_, fun j h1 h2 => ?_⟩
    · obtain rfl : i = 1 := by omega
      simp [dryCornerState, constArrays, ID_2D]
    · obtain rfl : j = 1 := by omega
      simp [dryCornerState, constArrays, ID_2D]
  · intro i j hc
    obtain ⟨e1, e2, e3⟩ := constArrays_agree_dryCorner 1 i j hc
    rw [← e1, ← e2, ← e3]
    simp [constArrays]
  · refine ⟨(timeStep 1 1 (1 / 20) (1 / 20) dryCornerState).h 0,
      List.mem_map.2 ⟨0, by decide, rfl⟩, ?_⟩
    have := (timeStep_corner 1 1 (le_refl 1) (le_refl 1) (1 / 20) (1 / 20) dryCornerState 0 0
      (Or.inl rfl) (Or.inl rfl)).1
    have e : ID_2D 0 0 1 = 0 := by decide
    rw [e] at this
    rw [this]
    simp [dryCornerState]
  · exact timeStep_height_pos_interior 2 2 _ _ (by norm_num) (by norm_num) _ hb 1 1 (le_refl 1)
      (by decide) (le_refl 1) (by decide)

/-- C12, amended.  In exact arithmetic, in a single-process run on a square
grid with `lambda_x ≥ 0` and `lambda_y ≥ 0`: if before a step every interior
and non-corner ghost cell has `h > 0`, `lambda_x*|uh| < 0.25*h` and
`lambda_y*|vh| < 0.25*h`, then after the step `h > 0` at every interior cell
and every non-corner ghost cell, and these heights are among the divisors of
the flux pass of the next step. -/
theorem C12_height_stays_positive (nx : Nat) (lambda_x lambda_y : ℚ) (hlx : 0 ≤ lambda_x)
    (hly : 0 ≤ lambda_y) (s : Arrays) (hs : CflBound nx nx lambda_x lambda_y s) :
    ∀ i j, NonCorner nx nx i j →
      0 < (timeStep nx nx lambda_x lambda_y s).h (ID_2D i j nx) ∧
      (timeStep nx nx lambda_x lambda_y s).h (ID_2D i j nx)
        ∈ fluxDivisors nx nx (timeStep nx nx lambda_x lambda_y s) := by
  intro i j ⟨hi, hj, hc⟩
  refine ⟨?_, List.mem_map.2 ⟨_, (mem_fluxIndices nx nx _).2 ⟨i, j, by omega, by omega, rfl⟩,
    rfl⟩⟩
  have hnx : 1 ≤ nx := by omega
  obtain ⟨rlr, rbt⟩ := timeStep_reflective nx nx hnx hnx lambda_x lambda_y s
  have hin := timeStep_height_pos_interior nx nx lambda_x lambda_y hlx hly s hs
  have hic : i = 0 ∨ (1 ≤ i ∧ i ≤ nx) ∨ i = nx + 1 := by omega
  have hjc : j = 0 ∨ (1 ≤ j ∧ j ≤ nx) ∨ j = nx + 1 := by omega
  rcases hic with hi0 | ⟨hi1, hi2⟩ | hi3
  · have hj1 : 1 ≤ j ∧ j ≤ nx := by omega
    subst hi0
    rw [(rbt j hj1.1 hj1.2).1.1]
    exact hin 1 j (le_refl 1) hnx hj1.1 hj1.2
  · rcases hjc with hj0 | ⟨hj1, hj2⟩ | hj3
    · subst hj0
      rw [(rlr i hi1 hi2).1.1]
      exact hin i 1 hi1 hi2 (le_refl 1) hnx
    · exact hin i j hi1 hi2 hj1 hj2
    · subst hj3
      rw [(rlr i hi1 hi2).2.1]
      exact hin i nx hi1 hi2 hnx (le_refl nx)
  · have hj1 : 1 ≤ j ∧ j ≤ nx := by omega
    subst hi3
    rw [(rbt j hj1.1 hj1.2).2.1]
    exact hin nx j hnx (le_refl nx) hj1.1 hj1.2

/-- The constant state obeys the bound for the step ratio `1/20`. -/
theorem constArrays_cflBound (nx ny : Nat) : CflBound nx ny (1 / 20) (1 / 20) (constArrays 1) := by
  intro i j _
  simp [constArrays]

/-- Witness for C12, amended, at the interior cell of the 1 by 1 grid with
constant height. -/
theorem C12_height_stays_positive_witness :
    ((0 : ℚ) ≤ 1 / 20 ∧ CflBound 1 1 (1 / 20) (1 / 20) (constArrays 1) ∧ NonCorner 1 1 1 1) ∧
    0 < (timeStep 1 1 (1 / 20) (1 / 20) (constArrays 1)).h (ID_2D 1 1 1) :=
  ⟨⟨by norm_num, constArrays_cflBound 1 1, by decide, by decide, Or.inl ⟨by decide, by decide⟩⟩,
    (C12_height_stays_positive 1 (1 / 20) (1 / 20) (by norm_num) (by norm_num) (constArrays 1)
      (constArrays_cflBound 1 1) 1 1
      ⟨by decide, by decide, Or.inl ⟨by decide, by decide⟩⟩).1⟩

/-- The initial conditions of the whole grid are those of the rank version at
process `(0, 0)` of a 1 by 1 process grid. -/
theorem initial_conditions_eq_rank (expf : ℚ → ℚ) (nx ny : Nat) (dx dy L : ℚ) (a : Arrays) :
    initial_conditions expf nx ny dx dy L a = initial_conditions_rank expf nx ny dx dy L a 0 1 := by
  have hc : rankCoords dx dy L 0 0 1 = globalCoords dx dy L := by
    funext i b
    simp [rankCoords, globalCoords]
  simp [initial_conditions, initial_conditions_rank, rankGhosts, rankLeft, rankRight, rankBottom,
    rankTop, rankInterior, hc]

/-- The interior the initial conditions of the whole square grid write. -/
theorem initial_conditions_interior (expf : ℚ → ℚ) (nx : Nat) (dx dy L : ℚ) (a : Arrays)
    (i j : Nat) (hi1 : 1 ≤ i) (hi2 : i ≤ nx) (hj1 : 1 ≤ j) (hj2 : j ≤ nx) :
    (initial_conditions expf nx nx dx dy L a).h (ID_2D i j nx)
      = bump expf (nodeCoord L dx 0 1 (j - 1)) (nodeCoord L dy 0 1 (i - 1)) ∧
    (initial_conditions expf nx nx dx dy L a).uh (ID_2D i j nx) = 0 ∧
    (initial_conditions expf nx nx dx dy L a).vh (ID_2D i j nx) = 0 := by
  rw [initial_conditions_eq_rank]
  have e : initial_conditions_rank expf nx nx dx dy L a 0 1
      = rankGhosts nx nx 0 0 1 (rankInterior expf nx nx dx dy L a 0 0 1) := by
    simp [initial_conditions_rank]
  rw [e]
  obtain ⟨gi, _, _⟩ := rankGhosts_spec nx (by omega) 0 0 1
    (rankInterior expf nx nx dx dy L a 0 0 1)
  have g := gi i j hi1 hi2 hj1 hj2
  have v := (rankInterior_spec expf nx dx dy L a 0 0 1).2 i j hi1 hi2 hj1 hj2
  exact ⟨g.1.trans v.1, g.2.1.trans v.2.1, g.2.2.trans v.2.2⟩

/-- The interior the start of `main` writes on the tile of process `irank` of a
`q` by `q` process grid. -/
theorem mainInit_interior (expf : ℚ → ℚ) (q nx irank : Nat) (L : ℚ) (mem : Arrays)
    (i j : Nat) (hi1 : 1 ≤ i) (hi2 : i ≤ nx / q) (hj1 : 1 ≤ j) (hj2 : j ≤ nx / q) :
    (mainInit expf irank (q * q) nx L mem).h (ID_2D i j (nx / q))
      = bump expf (nodeCoord L (L / (nx : ℚ)) (irank % q) q (j - 1))
          (nodeCoord L (L / (nx : ℚ)) (irank / q) q (i - 1)) ∧
    (mainInit expf irank (q * q) nx L mem).uh (ID_2D i j (nx / q)) = 0 ∧
    (mainInit expf irank (q * q) nx L mem).vh (ID_2D i j (nx / q)) = 0 := by
  have e : mainInit expf irank (q * q) nx L mem
      = rankGhosts (nx / q) (nx / q) (irank % q) (irank / q) q
          (rankInterior expf (nx / q) (nx / q) (L / (nx : ℚ)) (L / (nx : ℚ)) L mem
            (irank % q) (irank / q) q) := by
    simp [mainInit, initial_conditions_rank, Nat.sqrt_eq]
  rw [e]
  obtain ⟨gi, _, _⟩ := rankGhosts_spec (nx / q) (by omega) (irank % q) (irank / q) q
    (rankInterior expf (nx / q) (nx / q) (L / (nx : ℚ)) (L / (nx : ℚ)) L mem
      (irank % q) (irank / q) q)
  have g := gi i j hi1 hi2 hj1 hj2
  have v := (rankInterior_spec expf (nx / q) (L / (nx : ℚ)) (L / (nx : ℚ)) L mem
    (irank % q) (irank / q) q).2 i j hi1 hi2 hj1 hj2
  exact ⟨g.1.trans v.1, g.2.1.trans v.2.1, g.2.2.trans v.2.2⟩

/-- A node of a tile has the coordinate of the matching node of the whole grid. -/
theorem nodeCoord_tile (L : ℚ) (q n c k : Nat) (hq : 1 ≤ q) (hn : 1 ≤ n) :
    nodeCoord L (L / ((q * n : Nat) : ℚ)) c q k
      = nodeCoord L (L / ((q * n : Nat) : ℚ)) 0 1 (c * n + k) := by
  have hq0 : (q : ℚ) ≠ 0 := by
    have : 0 < q := by omega
    exact_mod_cast this.ne'
  have hn0 : (n : ℚ) ≠ 0 := by
    have : 0 < n := by omega
    exact_mod_cast this.ne'
  unfold nodeCoord
  push_cast
  field_simp
  ring

/-- C14 (tiled initial condition equals the global one).  For every `q ≥ 1`,
every `nx` divisible by `q` and every rank below `q*q`, with
`coordX = rank mod q` and `coordY = rank div q`, in exact arithmetic and for
every function in place of `exp`, the interior `initial_conditions_rank` writes
into the tile is the matching block of the field `initial_conditions` writes
for the whole `nx` by `nx` grid: tile cell `(i, j)`, `1 ≤ i, j ≤ nx_loc`, holds
the global value at row `coordY*nx_loc + i`, column `coordX*nx_loc + j`, and
`uh = vh = 0` there. -/
theorem C14_tiled_initial_condition (q nx irank : Nat) (hq : 1 ≤ q) (hdiv : q ∣ nx)
    (hr : irank < q * q) (expf : ℚ → ℚ) (x_length : ℚ) (mem memG : Arrays) (i j : Nat)
    (hi1 : 1 ≤ i) (hi2 : i ≤ nx / q) (hj1 : 1 ≤ j) (hj2 : j ≤ nx / q) :
    (mainInit expf irank (q * q) nx x_length mem).h (ID_2D i j (nx / q))
      = (initial_conditions expf nx nx (x_length / (nx : ℚ)) (x_length / (nx : ℚ)) x_length
          memG).h (ID_2D ((irank / q) * (nx / q) + i) ((irank % q) * (nx / q) + j) nx) ∧
    (mainInit expf irank (q * q) nx x_length mem).uh (ID_2D i j (nx / q)) = 0 ∧
    (mainInit expf irank (q * q) nx x_length mem).vh (ID_2D i j (nx / q)) = 0 ∧
    (initial_conditions expf nx nx (x_length / (nx : ℚ)) (x_length / (nx : ℚ)) x_length
        memG).uh (ID_2D ((irank / q) * (nx / q) + i) ((irank % q) * (nx / q) + j) nx) = 0 ∧
    (initial_conditions expf nx nx (x_length / (nx : ℚ)) (x_length / (nx : ℚ)) x_length
        memG).vh (ID_2D ((irank / q) * (nx / q) + i) ((irank % q) * (nx / q) + j) nx) = 0 := by
  have hnx : q * (nx / q) = nx := Nat.mul_div_cancel' hdiv
  have hn : 1 ≤ nx / q := by omega
  have hcx : irank % q < q := Nat.mod_lt _ (by omega)
  have hcy : irank / q < q := Nat.div_lt_of_lt_mul hr
  have bI : (irank / q) * (nx / q) + i ≤ nx := by
    calc (irank / q) * (nx / q) + i ≤ (irank / q) * (nx / q) + nx / q := by omega
      _ = (irank / q + 1) * (nx / q) := by ring
      _ ≤ q * (nx / q) := Nat.mul_le_mul_right _ hcy
      _ = nx := hnx
  have bJ : (irank % q) * (nx / q) + j ≤ nx := by
    calc (irank % q) * (nx / q) + j ≤ (irank % q) * (nx / q) + nx / q := by omega
      _ = (irank % q + 1) * (nx / q) := by ring
      _ ≤ q * (nx / q) := Nat.mul_le_mul_right _ hcx
      _ = nx := hnx
  obtain ⟨t1, t2, t3⟩ := mainInit_interior expf q nx irank x_length mem i j hi1 hi2 hj1 hj2
  obtain ⟨g1, g2, g3⟩ := initial_conditions_interior expf nx (x_length / (nx : ℚ))
    (x_length / (nx : ℚ)) x_length memG ((irank / q) * (nx / q) + i)
    ((irank % q) * (nx / q) + j) (by omega) bI (by omega) bJ
  refine ⟨?_, t2, t3, g2, g3⟩
  rw [t1, g1]
  have ex := nodeCoord_tile x_length q (nx / q) (irank % q) (j - 1) hq hn
  have ey := nodeCoord_tile x_length q (nx / q) (irank / q) (i - 1) hq hn
  rw [hnx] at ex ey
  have e1 : (irank % q) * (nx / q) + j - 1 = (irank % q) * (nx / q) + (j - 1) := by omega
  have e2 : (irank / q) * (nx / q) + i - 1 = (irank / q) * (nx / q) + (i - 1) := by omega
  rw [ex, ey, e1, e2]

/-- Witness for C14: rank 1 of the 2 by 2 process grid with `nx = 2`. -/
theorem C14_tiled_initial_condition_witness :
    (1 ≤ 2 ∧ 2 ∣ 2 ∧ 1 < 2 * 2 ∧ 1 ≤ 1 ∧ 1 ≤ 2 / 2) ∧
    (mainInit (fun _ => 1) 1 (2 * 2) 2 10 (constArrays 0)).h (ID_2D 1 1 (2 / 2))
      = (initial_conditions (fun _ => 1) 2 2 (10 / ((2 : Nat) : ℚ)) (10 / ((2 : Nat) : ℚ)) 10
          (constArrays 0)).h (ID_2D ((1 / 2) * (2 / 2) + 1) ((1 % 2) * (2 / 2) + 1) 2) :=
  ⟨⟨by decide, by decide, by decide, by decide, by decide⟩,
    (C14_tiled_initial_condition 2 2 1 (by decide) (by decide) (by decide) (fun _ => 1) 10
      (constArrays 0) (constArrays 0) 1 1 (by decide) (by decide) (by decide) (by decide)).1⟩

/-- The pack loops count `N_loc*N_loc` values and store the interior cell of
row `i+1`, column `j+1` at position `j*N_loc + i`. -/
theorem pack_spec (N_loc : Nat) (u ul : Field) :
    (pack N_loc u ul).2 = N_loc * N_loc ∧
    ∀ j i, j < N_loc → i < N_loc →
      (pack N_loc u ul).1 (j * N_loc + i) = u (ID_2D (i + 1) (j + 1) N_loc) := by
  have key := forLoop_induct
    (fun m (st : Field × Nat) => st.2 = (m - 1) * N_loc ∧
      ∀ j i, j + 1 < m → i < N_loc → st.1 (j * N_loc + i) = u (ID_2D (i + 1) (j + 1) N_loc))
    1 (N_loc + 1) (fun j => forLoop 1 (N_loc + 1) (fun i => packCell N_loc u i j)) (ul, 0)
    (by omega) ⟨by simp, fun j i h => absurd h (by omega)⟩ ?_
  · exact ⟨by simpa using key.1, fun j i hj hi => key.2 j i (by omega) hi⟩
  · intro m st hm1 hm2 ⟨hc, hv⟩
    have inner := forLoop_induct
      (fun n (t : Field × Nat) => t.2 = (m - 1) * N_loc + (n - 1) ∧
        (∀ j i, j + 1 < m → i < N_loc →
          t.1 (j * N_loc + i) = u (ID_2D (i + 1) (j + 1) N_loc)) ∧
        ∀ i, i + 1 < n → t.1 ((m - 1) * N_loc + i) = u (ID_2D (i + 1) m N_loc))
      1 (N_loc + 1) (fun i => packCell N_loc u i m) st (by omega)
      ⟨by simp [hc], hv, fun i h => absurd h (by omega)⟩ ?_
    · obtain ⟨c, v1, v2⟩ := inner
      refine ⟨?_, fun j i hj hi => ?_⟩
      · rw [c]
        have e1 : N_loc + 1 - 1 = N_loc := by omega
        have e2 : m + 1 - 1 = (m - 1) + 1 := by omega
        rw [e1, e2]
        ring
      · by_cases h : j + 1 < m
        · exact v1 j i h hi
        · have hj2 : j = m - 1 := by omega
          have hm : j + 1 = m := by omega
          have := v2 i (by omega)
          rw [← hj2] at this
          rw [hm]
          exact this
    · intro n t hn1 hn2 ⟨c, v1, v2⟩
      refine ⟨?_, ?_, ?_⟩
      · show t.2 + 1 = _
        rw [c]
        omega
      · intro j i hj hi
        have hne : j * N_loc + i ≠ t.2 := by
          rw [c]
          intro e
          have := mul_add_inj hi (by omega : n - 1 < N_loc) e
          omega
        show Function.update t.1 t.2 _ _ = _
        rw [Function.update_noteq hne]
        exact v1 j i hj hi
      · intro i hi
        show Function.update t.1 t.2 _ _ = _
        by_cases h : i + 1 < n
        · have hne : (m - 1) * N_loc + i ≠ t.2 := by
            rw [c]
            omega
          rw [Function.update_noteq hne]
          exact v2 i h
        · have hi2 : i = n - 1 := by omega
          have hn : i + 1 = n := by omega
          rw [c, ← hi2, Function.update_same, hn]

/-- The gathered buffer holds at `id_global p j i` the value process `p`
packed at `j*N_loc + i`. -/
theorem mpiGather_at (nproc N_loc : Nat) (send : Nat → Field) (recv : Field) (p j i : Nat)
    (hp : p < nproc) (hj : j < N_loc) (hi : i < N_loc) :
    mpiGather nproc (N_loc * N_loc) send recv (id_global N_loc p j i)
      = send p (j * N_loc + i) := by
  have hlt : j * N_loc + i < N_loc * N_loc := by
    calc j * N_loc + i < j * N_loc + N_loc := by omega
      _ = (j + 1) * N_loc := by ring
      _ ≤ N_loc * N_loc := Nat.mul_le_mul_right _ hj
  have hpos : 0 < N_loc * N_loc := by omega
  have e : id_global N_loc p j i = p * (N_loc * N_loc) + (j * N_loc + i) := by
    unfold id_global
    ring
  have hin : p * (N_loc * N_loc) + (j * N_loc + i) < nproc * (N_loc * N_loc) := by
    calc p * (N_loc * N_loc) + (j * N_loc + i) < p * (N_loc * N_loc) + N_loc * N_loc := by omega
      _ = (p + 1) * (N_loc * N_loc) := by ring
      _ ≤ nproc * (N_loc * N_loc) := Nat.mul_le_mul_right _ hp
  have d1 : (p * (N_loc * N_loc) + (j * N_loc + i)) / (N_loc * N_loc) = p := by
    rw [Nat.add_comm, Nat.add_mul_div_right _ _ hpos, Nat.div_eq_of_lt hlt, Nat.zero_add]
  have d2 : (p * (N_loc * N_loc) + (j * N_loc + i)) % (N_loc * N_loc) = j * N_loc + i := by
    rw [Nat.add_comm, Nat.add_mul_mod_self_right, Nat.mod_eq_of_lt hlt]
  rw [e]
  unfold mpiGather
  rw [if_pos hin, d1, d2]

/-- The write loops emit, for `i` then `j` in increasing order, the line with
`x = i*dx`, `y = j*dx` and the height stored at `j*N + i`. -/
theorem writeLines_eq (N : Nat) (dx : ℚ) (w : Field) :
    writeLines N dx w
      = (List.range' 0 N).flatMap (fun i => (List.range' 0 N).flatMap (fun j =>
          [({ x := (i : ℚ) * dx, y := (j : ℚ) * dx, h := w (j * N + i),
              uh := 0, vh := 0 } : OutputLine)])) := by
  unfold writeLines
  have hin : ∀ i : Nat, (fun out : List OutputLine =>
      forLoop 0 N (fun j out =>
        out ++ [({ x := (i : ℚ) * dx, y := (j : ℚ) * dx, h := w (j * N + i),
                   uh := 0, vh := 0 } : OutputLine)]) out)
      = fun out => out ++ (List.range' 0 (N - 0)).flatMap (fun j =>
          [({ x := (i : ℚ) * dx, y := (j : ℚ) * dx, h := w (j * N + i),
              uh := 0, vh := 0 } : OutputLine)]) := by
    intro i
    funext out
    exact forLoop_append 0 N _ out
  simp only [hin, forLoop_append]
  simp

/-- What the collector stores at position `a*N + b` of the output array: the
cell of the tile at process coordinates `(a div N_loc, b div N_loc)` in local
row `b mod N_loc + 1` and local column `a mod N_loc + 1`. -/
theorem unpack_gathered_at (q N_loc : Nat) (hq : 1 ≤ q) (hN : 1 ≤ N_loc) (u ul : Nat → Field)
    (ug uw : Field) (a b : Nat) (ha : a < q * N_loc) (hb : b < q * N_loc) :
    unpack (q * q) N_loc
        (mpiGather (q * q) (pack N_loc (u 0) (ul 0)).2 (fun p => (pack N_loc (u p) (ul p)).1) ug)
        uw (a * (q * N_loc) + b)
      = u ((b / N_loc) * q + a / N_loc) (ID_2D (b % N_loc + 1) (a % N_loc + 1) N_loc) := by
  have hcx : a / N_loc < q := Nat.div_lt_of_lt_mul (by rwa [Nat.mul_comm] at ha)
  have hcy : b / N_loc < q := Nat.div_lt_of_lt_mul (by rwa [Nat.mul_comm] at hb)
  have hjl : a % N_loc < N_loc := Nat.mod_lt _ (by omega)
  have hil : b % N_loc < N_loc := Nat.mod_lt _ (by omega)
  have hp : (b / N_loc) * q + a / N_loc < q * q := by
    calc (b / N_loc) * q + a / N_loc < (b / N_loc) * q + q := by omega
      _ = (b / N_loc + 1) * q := by ring
      _ ≤ q * q := Nat.mul_le_mul_right _ hcy
  have e1 : ((b / N_loc) * q + a / N_loc) % q = a / N_loc := by
    rw [Nat.add_comm, Nat.add_mul_mod_self_right, Nat.mod_eq_of_lt hcx]
  have e2 : ((b / N_loc) * q + a / N_loc) / q = b / N_loc := by
    rw [Nat.add_comm, Nat.add_mul_div_right _ _ (by omega : 0 < q), Nat.div_eq_of_lt hcx,
      Nat.zero_add]
  have hidx : id_write q N_loc ((b / N_loc) * q + a / N_loc) (a % N_loc) (b % N_loc)
      = a * (q * N_loc) + b := by
    rw [id_write_eq, e1, e2]
    have d1 := Nat.div_add_mod a N_loc
    have d2 := Nat.div_add_mod b N_loc
    rw [Nat.mul_comm (a / N_loc) N_loc, d1, Nat.mul_comm (b / N_loc) N_loc, d2,
      Nat.mul_comm N_loc q]
  rw [← hidx, (unpack_spec q N_loc hq _ uw).2 _ _ _ hp hjl hil, (pack_spec N_loc (u 0) (ul 0)).1,
    mpiGather_at (q * q) N_loc _ ug _ _ _ hp hjl hil]
  exact (pack_spec N_loc _ _).2 _ _ hjl hil

/-- The output of the collector, in closed form: for `i` then `j` in increasing
order, the line with `x = i*dx`, `y = j*dx` carries the height of the tile at
process coordinates `(j div N_loc, i div N_loc)` in local row `i mod N_loc + 1`
and local column `j mod N_loc + 1`, and zero momenta. -/
theorem write_results_mpi_lines (q N_loc : Nat) (hq : 1 ≤ q) (hN : 1 ≤ N_loc) (dx : ℚ)
    (u ul : Nat → Field) (ug uw : Field) :
    write_results_mpi (q * N_loc) N_loc dx u (q * q) ul ug uw
      = (List.range' 0 (q * N_loc)).flatMap (fun i => (List.range' 0 (q * N_loc)).flatMap (fun j =>
          [({ x := (i : ℚ) * dx, y := (j : ℚ) * dx,
              h := u ((i / N_loc) * q + j / N_loc) (ID_2D (i % N_loc + 1) (j % N_loc + 1) N_loc),
              uh := 0, vh := 0 } : OutputLine)])) := by
  unfold write_results_mpi
  rw [writeLines_eq]
  refine List.flatMap_congr (fun i hi => List.flatMap_congr (fun j hj => ?_))
  rw [List.mem_range'] at hi hj
  obtain ⟨a, ha, rfl⟩ := hi
  obtain ⟨b, hb, rfl⟩ := hj
  simp only [Nat.zero_add, Nat.one_mul]
  rw [unpack_gathered_at q N_loc hq hN u ul ug uw b a hb ha]

/-- The collector writes one line per cell of the `N` by `N` grid. -/
theorem write_results_mpi_length (q N_loc : Nat) (hq : 1 ≤ q) (hN : 1 ≤ N_loc) (dx : ℚ)
    (u ul : Nat → Field) (ug uw : Field) :
    (write_results_mpi (q * N_loc) N_loc dx u (q * q) ul ug uw).length
      = (q * N_loc) * (q * N_loc) := by
  rw [write_results_mpi_lines q N_loc hq hN]
  simp [List.length_flatMap, Function.comp_def]

/-- C15, the code at `processCount = 4`, `N_loc = 1` (`N = 2`).  The collector
writes four lines.  The line with printed coordinates `(0*dx, 1*dx)` carries the
height of rank 1, whose process coordinates are `(coordX, coordY) = (1, 0)`:
the cell with x-index 1 and y-index 0; the line with `(1*dx, 0*dx)` carries the
height of rank 2, the cell with x-index 0 and y-index 1.  Each line carries
the cell whose indices are those of its printed coordinates exchanged. -/
theorem C15_output_lines_transposed (dx : ℚ) (u u_local : Nat → Field)
    (u_global u_write : Field) :
    write_results_mpi 2 1 dx u 4 u_local u_global u_write
      = [{ x := 0 * dx, y := 0 * dx, h := u 0 (ID_2D 1 1 1), uh := 0, vh := 0 },
         { x := 0 * dx, y := 1 * dx, h := u 1 (ID_2D 1 1 1), uh := 0, vh := 0 },
         { x := 1 * dx, y := 0 * dx, h := u 2 (ID_2D 1 1 1), uh := 0, vh := 0 },
         { x := 1 * dx, y := 1 * dx, h := u 3 (ID_2D 1 1 1), uh := 0, vh := 0 }] ∧
    (processGrid 1 4 = (2, 1, 0) ∧ processGrid 2 4 = (2, 0, 1)) := by
  have h : write_results_mpi 2 1 dx u 4 u_local u_global u_write = _ :=
    write_results_mpi_lines 2 1 (by decide) (by decide) dx u u_local u_global u_write
  refine ⟨?_, by simp [processGrid, sqrt_two_four.2]⟩
  rw [h]
  simp [List.range']

end SWE
